import Mathlib

/-!
Verification of the NeXs Operate System kernel against its natural-language
specification.  The C sources under `src/kernel/` are shallowly embedded as
Lean definitions: machine integers become `Nat` (with explicit `% 2^64`
wrapping where overflow matters), raw pointers become addresses (`Nat`),
in-memory block headers become partial maps `Nat → Option _`, linked free
lists threaded through headers become per-level `List Nat` of block
addresses, and the circular task list becomes an arena of task records with
`next` a slot index (the modelling suggested by the repository's own design
notes).  Reads of uninitialised memory are modelled as `none`, which fails
every magic-cookie validation.
-/

set_option maxRecDepth 10000

/-! ## 64-bit arithmetic helpers (`uint64_t` / `size_t` semantics) -/

def U64MOD : Nat := 2 ^ 64

/-- Wrapping 64-bit addition, as for C `uint64_t`/`size_t`. -/
def add64 (a b : Nat) : Nat := (a + b) % U64MOD

/-- Wrapping 64-bit subtraction, as for C `uint64_t`/`size_t`. -/
def sub64 (a b : Nat) : Nat := (a + U64MOD - b % U64MOD) % U64MOD

theorem add64_eq (a b : Nat) (h : a + b < U64MOD) : add64 a b = a + b := by
  simp [add64, Nat.mod_eq_of_lt h]

theorem sub64_eq (a b : Nat) (hb : b ≤ a) (ha : a < U64MOD) : sub64 a b = a - b := by
  have hbm : b % U64MOD = b := Nat.mod_eq_of_lt (lt_of_le_of_lt hb ha)
  have h1 : a + U64MOD - b % U64MOD = (a - b) + U64MOD := by
    rw [hbm]; omega
  rw [sub64, h1, Nat.add_mod_right]
  exact Nat.mod_eq_of_lt (by omega)

/-! ## Timer (`src/kernel/timer.c`)

The timer state consists of the calibrated TSC frequency `tsc_freq_khz` and
the boot TSC value `tsc_boot`; the current TSC (`rdtsc()`) is passed as an
explicit parameter `tsc_now`.  The busy-wait delay functions spin until the
TSC reaches a computed target; we model each delay by the target it spins
to: `none` means the function returned immediately without entering the
loop. -/

structure TimerState where
  tsc_freq_khz : Nat
  tsc_boot : Nat
  deriving DecidableEq, Repr

/-- `timer_get_ns` from src/kernel/timer.c. -/
def timer_get_ns (st : TimerState) (tsc_now : Nat) : Nat :=
  if st.tsc_freq_khz = 0 then 0
  else
    let tsc := sub64 tsc_now st.tsc_boot
    (tsc * 1000000) % U64MOD / st.tsc_freq_khz

/-- `timer_get_us` from src/kernel/timer.c. -/
def timer_get_us (st : TimerState) (tsc_now : Nat) : Nat :=
  if st.tsc_freq_khz = 0 then 0
  else
    let tsc := sub64 tsc_now st.tsc_boot
    (tsc * 1000) % U64MOD / st.tsc_freq_khz

/-- `timer_get_ms` from src/kernel/timer.c. -/
def timer_get_ms (st : TimerState) (tsc_now : Nat) : Nat :=
  if st.tsc_freq_khz = 0 then 0
  else
    let tsc := sub64 tsc_now st.tsc_boot
    tsc / st.tsc_freq_khz

/-- `timer_get_sec` from src/kernel/timer.c. -/
def timer_get_sec (st : TimerState) (tsc_now : Nat) : Nat :=
  timer_get_ms st tsc_now / 1000

/-- `timer_delay_ns` from src/kernel/timer.c: `none` = immediate return,
`some t` = busy-waits until `rdtsc() ≥ t`. -/
def timer_delay_ns (st : TimerState) (tsc_now ns : Nat) : Option Nat :=
  if st.tsc_freq_khz = 0 then none
  else some (add64 tsc_now ((ns * st.tsc_freq_khz) % U64MOD / 1000000))

/-- `timer_delay_us` from src/kernel/timer.c. -/
def timer_delay_us (st : TimerState) (tsc_now us : Nat) : Option Nat :=
  if st.tsc_freq_khz = 0 then none
  else some (add64 tsc_now ((us * st.tsc_freq_khz) % U64MOD / 1000))

/-- `timer_delay_ms` from src/kernel/timer.c. -/
def timer_delay_ms (st : TimerState) (tsc_now ms : Nat) : Option Nat :=
  if st.tsc_freq_khz = 0 then none
  else some (add64 tsc_now ((ms * st.tsc_freq_khz) % U64MOD))

/-! ## Signed memory blocks (`src/kernel/sblock.c`) -/

def SBLOCK_MAGIC : Nat := 0x53424C4B5349474E
def SBLOCK_READ : Nat := 0x01
def SBLOCK_WRITE : Nat := 0x02
def SBLOCK_EXEC : Nat := 0x04
def SBLOCK_SHARE : Nat := 0x08
def SBLOCK_VALID : Nat := 0x01
def SBLOCK_LOCKED : Nat := 0x02
def SBLOCK_KERNEL : Nat := 0x04
def UID_KERNEL : Nat := 0
def UID_ROOT : Nat := 1
def UID_USER : Nat := 2

/-- `struct sblock` header from src/kernel/sblock.h (the flexible `data[]`
payload is not needed for the access-control claims). -/
structure Sblock where
  magic : Nat
  signature : Nat
  size : Nat
  owner_uid : Nat
  permissions : Nat
  flags : Nat
  ref_count : Nat
  deriving DecidableEq, Repr

/-- `sblock_access` from src/kernel/sblock.c.  The argument is `none` for a
NULL block pointer.  The C function returns `blk->data` (a non-NULL pointer)
on success and `NULL` on denial; we model the outcome as a `Bool`: `true`
iff the data pointer is returned. -/
def sblock_access (blk : Option Sblock) (uid perm : Nat) : Bool :=
  match blk with
  | none => false
  | some b =>
    if b.magic ≠ SBLOCK_MAGIC then false
    else if b.flags &&& SBLOCK_VALID = 0 then false
    else if uid = b.owner_uid then true
    else if uid = UID_KERNEL then true
    else if b.permissions &&& perm = 0 then false
    else if b.flags &&& SBLOCK_KERNEL ≠ 0 ∧ uid > UID_ROOT then false
    else true

/-! ## Capability permissions (`src/kernel/permissions.c`) -/

def MAX_TASKS : Nat := 64
def PERM_TASK_CREATE : Nat := 0x0100
def PERM_PERM_GRANT : Nat := 0x0400
def PERM_PERM_REVOKE : Nat := 0x0800
def PERM_KERNEL_MODE : Nat := 0x1000

/-- One entry of `task_perms_table` (src/kernel/permissions.h). -/
structure TaskPerms where
  task_id : Nat
  capabilities : Nat
  parent_id : Nat
  granted_time : Nat
  active : Bool
  deriving DecidableEq, Repr

/-- The permission module's global state: the fixed `MAX_TASKS`-entry table
plus the `perm_timestamp` counter. -/
structure PermState where
  table : List TaskPerms
  perm_timestamp : Nat
  deriving DecidableEq, Repr

instance : Inhabited TaskPerms := ⟨⟨0, 0, 0, 0, false⟩⟩

/-- Read `task_perms_table[i]`. -/
def PermState.entry (st : PermState) (i : Nat) : TaskPerms :=
  (st.table.get? i).getD default

/-- Write `task_perms_table[i]`. -/
def PermState.setEntry (st : PermState) (i : Nat) (e : TaskPerms) : PermState :=
  { st with table := st.table.set i e }

/-- `perm_check` from src/kernel/permissions.c. -/
def perm_check (st : PermState) (task_id perm : Nat) : Bool :=
  if task_id ≥ MAX_TASKS then false
  else if ¬ (st.entry task_id).active then false
  else if (st.entry task_id).capabilities &&& PERM_KERNEL_MODE ≠ 0 then true
  else (st.entry task_id).capabilities &&& perm = perm

/-- `perm_grant` from src/kernel/permissions.c.  Returns the C result
(`0` success, `-1` denial) together with the post state. -/
def perm_grant (st : PermState) (granter_id target_id perms : Nat) : Int × PermState :=
  if granter_id ≥ MAX_TASKS ∨ target_id ≥ MAX_TASKS then (-1, st)
  else if ¬ perm_check st granter_id PERM_PERM_GRANT then (-1, st)
  else if ¬ (st.entry target_id).active then (-1, st)
  else
    let e := st.entry target_id
    let ts := st.perm_timestamp + 1
    let st' := { (st.setEntry target_id
        { e with capabilities := e.capabilities ||| perms, granted_time := ts }) with
      perm_timestamp := ts }
    (0, st')

/-! ## Claim C10: timer operations with an uncalibrated TSC -/

/-- C10: when the TSC has not been calibrated (`tsc_freq_khz = 0`), every
time query (`timer_get_ns`/`_us`/`_ms`/`_sec`) returns 0 and every delay
(`timer_delay_ns`/`_us`/`_ms`) returns immediately without entering its
busy-wait loop, so no timer operation divides by the zero frequency. -/
theorem timer_uncalibrated_safe (st : TimerState) (tsc_now n : Nat)
    (h : st.tsc_freq_khz = 0) :
    timer_get_ns st tsc_now = 0 ∧ timer_get_us st tsc_now = 0 ∧
    timer_get_ms st tsc_now = 0 ∧ timer_get_sec st tsc_now = 0 ∧
    timer_delay_ns st tsc_now n = none ∧ timer_delay_us st tsc_now n = none ∧
    timer_delay_ms st tsc_now n = none := by
  simp [timer_get_ns, timer_get_us, timer_get_ms, timer_get_sec,
    timer_delay_ns, timer_delay_us, timer_delay_ms, h]

/-- Witness for C10 at a concrete uncalibrated timer state. -/
theorem timer_uncalibrated_safe_witness :
    timer_get_ns ⟨0, 5⟩ 1000 = 0 ∧ timer_get_us ⟨0, 5⟩ 1000 = 0 ∧
    timer_get_ms ⟨0, 5⟩ 1000 = 0 ∧ timer_get_sec ⟨0, 5⟩ 1000 = 0 ∧
    timer_delay_ns ⟨0, 5⟩ 1000 42 = none ∧ timer_delay_us ⟨0, 5⟩ 1000 42 = none ∧
    timer_delay_ms ⟨0, 5⟩ 1000 42 = none :=
  timer_uncalibrated_safe ⟨0, 5⟩ 1000 42 rfl

/-! ## Claim C8: signed-block access control -/

/-- C8: for a block with correct magic and the VALID flag set,
`sblock_access blk uid perm` returns the data pointer iff the uid is the
owner, or the uid is `UID_KERNEL`, or the block's permission bits overlap
`perm` — where on the permission-bits path KERNEL-flagged blocks
additionally require `uid ≤ UID_ROOT`; in every other case it returns NULL. -/
theorem sblock_access_characterisation (b : Sblock) (uid perm : Nat)
    (hmagic : b.magic = SBLOCK_MAGIC) (hvalid : b.flags &&& SBLOCK_VALID ≠ 0) :
    sblock_access (some b) uid perm = true ↔
      (uid = b.owner_uid ∨ uid = UID_KERNEL ∨
        (b.permissions &&& perm ≠ 0 ∧ (b.flags &&& SBLOCK_KERNEL ≠ 0 → uid ≤ UID_ROOT))) := by
  simp only [sblock_access]
  split_ifs with h1 h2 h3 h4 h5
  · exact absurd hmagic h1
  · exact iff_of_true rfl (Or.inl h2)
  · exact iff_of_true rfl (Or.inr (Or.inl h3))
  · refine iff_of_false (by simp) ?_
    rintro (hc | hc | ⟨hne, _⟩)
    · exact h2 hc
    · exact h3 hc
    · exact hne h4
  · refine iff_of_false (by simp) ?_
    rintro (hc | hc | ⟨_, himp⟩)
    · exact h2 hc
    · exact h3 hc
    · exact absurd (himp h5.1) (by omega)
  · refine iff_of_true rfl (Or.inr (Or.inr ⟨h4, fun hk => ?_⟩))
    by_contra hgt
    exact h5 ⟨hk, by omega⟩

/-- Witness for C8: a valid user-owned readable block is accessible to a
stranger uid with the READ permission bit. -/
theorem sblock_access_characterisation_witness :
    (⟨SBLOCK_MAGIC, 0, 16, 2, SBLOCK_READ, SBLOCK_VALID, 1⟩ : Sblock).magic = SBLOCK_MAGIC ∧
    (sblock_access (some ⟨SBLOCK_MAGIC, 0, 16, 2, SBLOCK_READ, SBLOCK_VALID, 1⟩) 3 SBLOCK_READ
        = true ↔ (3 = 2 ∨ 3 = UID_KERNEL ∨
          (SBLOCK_READ &&& SBLOCK_READ ≠ 0 ∧ (SBLOCK_VALID &&& SBLOCK_KERNEL ≠ 0 → 3 ≤ UID_ROOT)))) :=
  ⟨rfl, sblock_access_characterisation _ 3 SBLOCK_READ rfl (by decide)⟩

/-! ## Claim C2: granting without PERM_PERM_GRANT -/

/-- The claim of C2, stated verbatim: any granter whose capability mask
does not include `PERM_PERM_GRANT` gets `-1` from `perm_grant` and no
capability mask changes. -/
def grantRequiresGrantBit : Prop :=
  ∀ (st : PermState) (granter target bits : Nat),
    (st.entry granter).capabilities &&& PERM_PERM_GRANT = 0 →
    (perm_grant st granter target bits).1 = -1 ∧
      ∀ i, (((perm_grant st granter target bits).2).entry i).capabilities =
        (st.entry i).capabilities

/-- A concrete permission table: task 0 = kernel (all bits), task 1 active
with only `PERM_KERNEL_MODE`, task 2 active with no capabilities. -/
def permCounterTable : PermState :=
  { table := (((List.replicate 64 (default : TaskPerms)).set 0
        ⟨0, 0xFFFF, 0, 0, true⟩).set 1 ⟨1, PERM_KERNEL_MODE, 0, 0, true⟩).set 2
        ⟨2, 0, 0, 0, true⟩
    perm_timestamp := 0 }

/-- Counterexample to C2 as stated: task 1 holds `PERM_KERNEL_MODE` but not
`PERM_PERM_GRANT`, yet `perm_check`'s kernel-mode bypass lets
`perm_grant 1 2 _` succeed and change task 2's mask. -/
theorem grantRequiresGrantBit_false : ¬ grantRequiresGrantBit := by
  intro h
  have h1 := h permCounterTable 1 2 1 (by decide)
  exact absurd (h1.2 2) (by decide)

/-- C2 as amended: a granter whose capability mask includes neither
`PERM_PERM_GRANT` nor `PERM_KERNEL_MODE` (which would bypass the check)
gets `-1` from `perm_grant`, and the permission state is entirely
unchanged. -/
theorem perm_grant_denied (st : PermState) (granter target bits : Nat)
    (h : granter < MAX_TASKS →
      (st.entry granter).capabilities &&& PERM_PERM_GRANT = 0 ∧
      (st.entry granter).capabilities &&& PERM_KERNEL_MODE = 0) :
    (perm_grant st granter target bits).1 = -1 ∧
      (perm_grant st granter target bits).2 = st := by
  by_cases hg : granter ≥ MAX_TASKS
  · rw [perm_grant, if_pos (Or.inl hg)]
    exact ⟨rfl, rfl⟩
  · have hlt : granter < MAX_TASKS := Nat.lt_of_not_le hg
    have hchk : perm_check st granter PERM_PERM_GRANT = false := by
      rw [perm_check, if_neg hg]
      by_cases ha : (st.entry granter).active
      · rw [if_neg (by simp [ha])]
        rw [if_neg (by simp [(h hlt).2])]
        simp only [(h hlt).1, decide_eq_false_iff_not]
        decide
      · rw [if_pos (by simp [ha])]
    by_cases ht : target ≥ MAX_TASKS
    · rw [perm_grant, if_pos (Or.inr ht)]
      exact ⟨rfl, rfl⟩
    · rw [perm_grant, if_neg (by tauto), if_pos (by simp [hchk])]
      exact ⟨rfl, rfl⟩

/-- Witness for the amended C2 at a concrete state: task 2 of the table
holds neither administrative bit, so its grant attempt fails and changes
nothing. -/
theorem perm_grant_denied_witness :
    (2 < MAX_TASKS →
      ((permCounterTable.entry 2).capabilities &&& PERM_PERM_GRANT = 0 ∧
       (permCounterTable.entry 2).capabilities &&& PERM_KERNEL_MODE = 0)) ∧
    (perm_grant permCounterTable 2 1 0xFFFF).1 = -1 ∧
      (perm_grant permCounterTable 2 1 0xFFFF).2 = permCounterTable :=
  ⟨fun _ => ⟨by decide, by decide⟩, perm_grant_denied permCounterTable 2 1 0xFFFF
    (fun _ => ⟨by decide, by decide⟩)⟩

/-! ## IPC messages (`src/kernel/messages.c`)

The fixed array `task_queues[MAX_TASKS]` becomes a 64-entry list of
`Option MsgQueue`; `system_ticks` is the module's timestamp counter.
Payload bytes are `Nat`s; the caller's `data` pointer is `Option (List
Nat)` (`none` = NULL).  `get_queue`'s lazy `buddy_alloc` is modelled as
always succeeding (allocator failure is outside this module's state); the
broadcast path never allocates since it only visits already-present
queues. -/

def MSG_MAX_SIZE : Nat := 256
def MSG_QUEUE_SIZE : Nat := 64

/-- `struct message` from src/kernel/messages.h. -/
structure Message where
  sender_id : Nat
  receiver_id : Nat
  type : Nat
  size : Nat
  data : List Nat
  timestamp : Nat
  deriving DecidableEq, Repr

/-- An all-zero `struct message` (as left by `memset 0`). -/
instance : Inhabited Message := ⟨⟨0, 0, 0, 0, List.replicate MSG_MAX_SIZE 0, 0⟩⟩

/-- `struct msg_queue` from src/kernel/messages.h. -/
structure MsgQueue where
  messages : List Message
  read_pos : Nat
  write_pos : Nat
  count : Nat
  deriving DecidableEq, Repr

/-- A freshly `memset`-zeroed queue, as built by `get_queue`'s lazy
allocation. -/
def emptyMsgQueue : MsgQueue := ⟨List.replicate MSG_QUEUE_SIZE default, 0, 0, 0⟩

/-- The message module's global state. -/
structure MsgState where
  task_queues : List (Option MsgQueue)
  system_ticks : Nat
  deriving DecidableEq, Repr

/-- Read `task_queues[i]` (out of bounds reads as NULL). -/
def MsgState.queue (s : MsgState) (i : Nat) : Option MsgQueue :=
  (s.task_queues.get? i).getD none

/-- Write `task_queues[i]`. -/
def MsgState.setq (s : MsgState) (i : Nat) (q : Option MsgQueue) : MsgState :=
  { s with task_queues := s.task_queues.set i q }

/-- `system_ticks++`. -/
def msg_tick (s : MsgState) : MsgState :=
  { s with system_ticks := add64 s.system_ticks 1 }

/-- `get_queue` from src/kernel/messages.c (lazy allocation always
succeeds in the model; an out-of-range id PANICs in C and is modelled as
yielding NULL). -/
def get_queue (s : MsgState) (task_id : Nat) : Option MsgQueue × MsgState :=
  if task_id ≥ MAX_TASKS then (none, s)
  else
    match s.queue task_id with
    | some q => (some q, s)
    | none => (some emptyMsgQueue, s.setq task_id (some emptyMsgQueue))

/-- The `memcpy(msg->data, data, size)` step: the first `size` bytes of the
slot are overwritten, the residue of the reused slot is retained; no copy
happens for a NULL pointer or a zero size. -/
def msg_copy_data (old : List Nat) (data : Option (List Nat)) (size : Nat) : List Nat :=
  match data with
  | some d => if size > 0 then d.take size ++ old.drop size else old
  | none => old

/-- The non-broadcast tail of `msg_send` (after the size/receiver checks
and the `system_ticks` increment): find the queue, reject when full,
otherwise enqueue at `write_pos`. -/
def msg_send_body (s : MsgState) (sender receiver type : Nat)
    (data : Option (List Nat)) (size : Nat) : Int × MsgState :=
  match get_queue s receiver with
  | (none, s1) => (-1, s1)
  | (some q, s1) =>
    if q.count ≥ MSG_QUEUE_SIZE then (-1, s1)
    else
      let old := (q.messages.get? q.write_pos).getD default
      let m : Message :=
        ⟨sender, receiver, type, size, msg_copy_data old.data data size, s1.system_ticks⟩
      let q' : MsgQueue :=
        { messages := q.messages.set q.write_pos m
          read_pos := q.read_pos
          write_pos := (q.write_pos + 1) % MSG_QUEUE_SIZE
          count := q.count + 1 }
      (0, s1.setq receiver (some q'))

/-- `msg_send` from src/kernel/messages.c for a non-zero receiver: the
size check, the receiver bound check, `system_ticks++`, then the enqueue
tail.  (`msg_send` itself delegates here whenever `receiver ≠ 0`, so the
recursive broadcast calls below are these.) -/
def msg_sendNZ (s : MsgState) (sender receiver type : Nat)
    (data : Option (List Nat)) (size : Nat) : Int × MsgState :=
  if size > MSG_MAX_SIZE then (-1, s)
  else if receiver ≥ MAX_TASKS ∧ receiver ≠ 0 then (-1, s)
  else msg_send_body (msg_tick s) sender receiver type data size

/-- One iteration of the broadcast loop body of `msg_send`:
`if (i != sender && task_queues[i]) { if (msg_send(sender, i, ...) == 0) success++; }`. -/
def bcast_step (sender type : Nat) (data : Option (List Nat)) (size : Nat)
    (acc : Nat × MsgState) (i : Nat) : Nat × MsgState :=
  if i ≠ sender ∧ (acc.2.queue i).isSome then
    let r := msg_sendNZ acc.2 sender i type data size
    (if r.1 = 0 then acc.1 + 1 else acc.1, r.2)
  else acc

/-- `msg_send` from src/kernel/messages.c.  `receiver = 0` is the
broadcast path: loop `i = 1 .. MAX_TASKS-1` over the already-present
queues, skipping the sender, succeeding iff at least one recipient
accepted. -/
def msg_send (s : MsgState) (sender receiver type : Nat)
    (data : Option (List Nat)) (size : Nat) : Int × MsgState :=
  if receiver ≠ 0 then msg_sendNZ s sender receiver type data size
  else if size > MSG_MAX_SIZE then (-1, s)
  else
    let s1 := msg_tick s
    let r := (List.range' 1 (MAX_TASKS - 1)).foldl (bcast_step sender type data size) (0, s1)
    (if r.1 > 0 then 0 else -1, r.2)

/-! ### Queue-level helper lemmas for the broadcast proof -/

theorem MsgState.queue_eq_getElem (s : MsgState) (i : Nat) :
    s.queue i = (s.task_queues[i]?).getD none := by
  simp [MsgState.queue, List.get?_eq_getElem?]

theorem setq_length (s : MsgState) (i : Nat) (q : Option MsgQueue) :
    (s.setq i q).task_queues.length = s.task_queues.length := by
  simp [MsgState.setq]

theorem queue_setq_self (s : MsgState) (i : Nat) (q : Option MsgQueue)
    (h : i < s.task_queues.length) : (s.setq i q).queue i = q := by
  simp [MsgState.queue_eq_getElem, MsgState.setq, List.getElem?_set_eq_of_lt q h]

theorem queue_setq_ne (s : MsgState) (i j : Nat) (q : Option MsgQueue)
    (h : i ≠ j) : (s.setq i q).queue j = s.queue j := by
  simp [MsgState.queue_eq_getElem, MsgState.setq, List.getElem?_set_ne h]

theorem queue_msg_tick (s : MsgState) (i : Nat) : (msg_tick s).queue i = s.queue i := rfl

/-- The enqueue action of `msg_send_body` on a non-full queue. -/
def enqueueMsg (q : MsgQueue) (sender receiver type : Nat)
    (data : Option (List Nat)) (size ts : Nat) : MsgQueue :=
  let old := (q.messages.get? q.write_pos).getD default
  { messages := q.messages.set q.write_pos
      ⟨sender, receiver, type, size, msg_copy_data old.data data size, ts⟩
    read_pos := q.read_pos
    write_pos := (q.write_pos + 1) % MSG_QUEUE_SIZE
    count := q.count + 1 }

theorem msg_send_body_accept (s : MsgState) (sender receiver type : Nat)
    (data : Option (List Nat)) (size : Nat) (q : MsgQueue)
    (hq : s.queue receiver = some q) (hr : receiver < MAX_TASKS)
    (hc : q.count < MSG_QUEUE_SIZE) :
    msg_send_body s sender receiver type data size =
      (0, s.setq receiver (some (enqueueMsg q sender receiver type data size s.system_ticks))) := by
  rw [msg_send_body, get_queue, if_neg (by omega), hq]
  dsimp only
  rw [if_neg (by omega)]
  rfl

theorem msg_send_body_full (s : MsgState) (sender receiver type : Nat)
    (data : Option (List Nat)) (size : Nat) (q : MsgQueue)
    (hq : s.queue receiver = some q) (hr : receiver < MAX_TASKS)
    (hc : MSG_QUEUE_SIZE ≤ q.count) :
    msg_send_body s sender receiver type data size = (-1, s) := by
  rw [msg_send_body, get_queue, if_neg (by omega), hq]
  dsimp only
  rw [if_pos hc]

theorem msg_sendNZ_accept (s : MsgState) (sender receiver type : Nat)
    (data : Option (List Nat)) (size : Nat) (q : MsgQueue)
    (hq : s.queue receiver = some q) (hr : receiver < MAX_TASKS)
    (hc : q.count < MSG_QUEUE_SIZE) (hs : size ≤ MSG_MAX_SIZE) :
    msg_sendNZ s sender receiver type data size =
      (0, (msg_tick s).setq receiver
        (some (enqueueMsg q sender receiver type data size (msg_tick s).system_ticks))) := by
  rw [msg_sendNZ, if_neg (by omega), if_neg (by omega)]
  exact msg_send_body_accept _ _ _ _ _ _ q hq hr hc

theorem msg_sendNZ_full (s : MsgState) (sender receiver type : Nat)
    (data : Option (List Nat)) (size : Nat) (q : MsgQueue)
    (hq : s.queue receiver = some q) (hr : receiver < MAX_TASKS)
    (hc : MSG_QUEUE_SIZE ≤ q.count) (hs : size ≤ MSG_MAX_SIZE) :
    msg_sendNZ s sender receiver type data size = (-1, msg_tick s) := by
  rw [msg_sendNZ, if_neg (by omega), if_neg (by omega)]
  exact msg_send_body_full _ _ _ _ _ _ q hq hr hc

/-- The broadcast loop's per-recipient acceptance test, evaluated against a
fixed pre-state: the recipient is not the sender, has a queue, and the
queue has room. -/
def accepting (st : MsgState) (sender i : Nat) : Bool :=
  if i = sender then false
  else match st.queue i with
    | some q => decide (q.count < MSG_QUEUE_SIZE)
    | none => false

theorem countP_congr_mem (l : List Nat) (p q : Nat → Bool) (h : ∀ a ∈ l, p a = q a) :
    l.countP p = l.countP q := by
  induction l with
  | nil => rfl
  | cons a r ih =>
    rw [List.countP_cons, List.countP_cons, ih (fun b hb => h b (List.mem_cons_of_mem a hb)),
      h a (List.mem_cons_self a r)]

/-- The broadcast loop of `msg_send`, run from an accumulator. -/
def bcast_run (sender type : Nat) (data : Option (List Nat)) (size : Nat)
    (c0 : Nat) (st : MsgState) (l : List Nat) : Nat × MsgState :=
  l.foldl (bcast_step sender type data size) (c0, st)

/-- Full characterisation of the broadcast loop over any duplicate-free
list of in-range recipient slots. -/
theorem bcast_run_spec (sender type : Nat) (data : Option (List Nat)) (size : Nat)
    (hs : size ≤ MSG_MAX_SIZE) :
    ∀ (l : List Nat) (c0 : Nat) (st : MsgState),
      (∀ i ∈ l, 1 ≤ i ∧ i < MAX_TASKS) → l.Nodup →
      st.task_queues.length = MAX_TASKS →
      (bcast_run sender type data size c0 st l).2.task_queues.length = MAX_TASKS ∧
      (∀ j, j ∉ l →
        (bcast_run sender type data size c0 st l).2.queue j = st.queue j) ∧
      (∀ i ∈ l, ∀ q, i ≠ sender → st.queue i = some q → q.count < MSG_QUEUE_SIZE →
        ∃ ts, (bcast_run sender type data size c0 st l).2.queue i =
          some (enqueueMsg q sender i type data size ts)) ∧
      (∀ i ∈ l, ∀ q, i ≠ sender → st.queue i = some q → MSG_QUEUE_SIZE ≤ q.count →
        (bcast_run sender type data size c0 st l).2.queue i = st.queue i) ∧
      (∀ i ∈ l, (i = sender ∨ st.queue i = none) →
        (bcast_run sender type data size c0 st l).2.queue i = st.queue i) ∧
      (bcast_run sender type data size c0 st l).1 = c0 + l.countP (accepting st sender) := by
  intro l
  induction l with
  | nil =>
    intro c0 st _ _ hlen
    refine ⟨hlen, fun j _ => rfl, ?_, ?_, ?_, by simp [bcast_run]⟩ <;> simp
  | cons i rest ih =>
    intro c0 st hb hnd hlen
    obtain ⟨hnI, hndr⟩ := List.nodup_cons.mp hnd
    have hi := hb i (List.mem_cons_self i rest)
    have hbr : ∀ j ∈ rest, 1 ≤ j ∧ j < MAX_TASKS :=
      fun j hj => hb j (List.mem_cons_of_mem i hj)
    have hstep : bcast_run sender type data size c0 st (i :: rest) =
        bcast_run sender type data size (bcast_step sender type data size (c0, st) i).1
          (bcast_step sender type data size (c0, st) i).2 rest := by
      simp [bcast_run, List.foldl_cons]
    -- the "skip" situations: the step leaves the accumulator unchanged
    by_cases hsend : i = sender
    · have hskip : bcast_step sender type data size (c0, st) i = (c0, st) := by
        rw [bcast_step, if_neg (by simp [hsend])]
      rw [hstep, hskip]
      obtain ⟨A, B, C, D, E, F⟩ := ih c0 st hbr hndr hlen
      refine ⟨A, ?_, ?_, ?_, ?_, ?_⟩
      · intro j hj
        exact B j (fun hr => hj (List.mem_cons_of_mem i hr))
      · intro i' hi' q hns hq hc
        rcases List.mem_cons.mp hi' with rfl | hr
        · exact absurd hsend hns
        · exact C i' hr q hns hq hc
      · intro i' hi' q hns hq hc
        rcases List.mem_cons.mp hi' with rfl | hr
        · exact absurd hsend hns
        · exact D i' hr q hns hq hc
      · intro i' hi' hor
        rcases List.mem_cons.mp hi' with rfl | hr
        · exact B i' hnI
        · exact E i' hr hor
      · rw [F, List.countP_cons]
        have : accepting st sender i = false := by simp [accepting, hsend]
        rw [this]
        simp
    · cases hq0 : st.queue i with
      | none =>
        have hskip : bcast_step sender type data size (c0, st) i = (c0, st) := by
          rw [bcast_step, if_neg (by simp [hq0])]
        rw [hstep, hskip]
        obtain ⟨A, B, C, D, E, F⟩ := ih c0 st hbr hndr hlen
        refine ⟨A, ?_, ?_, ?_, ?_, ?_⟩
        · intro j hj
          exact B j (fun hr => hj (List.mem_cons_of_mem i hr))
        · intro i' hi' q hns hq hc
          rcases List.mem_cons.mp hi' with rfl | hr
          · rw [hq0] at hq; exact absurd hq (by simp)
          · exact C i' hr q hns hq hc
        · intro i' hi' q hns hq hc
          rcases List.mem_cons.mp hi' with rfl | hr
          · rw [hq0] at hq; exact absurd hq (by simp)
          · exact D i' hr q hns hq hc
        · intro i' hi' hor
          rcases List.mem_cons.mp hi' with rfl | hr
          · exact B i' hnI
          · exact E i' hr hor
        · rw [F, List.countP_cons]
          have : accepting st sender i = false := by simp [accepting, hsend, hq0]
          rw [this]
          simp
      | some q0 =>
        by_cases hc0 : q0.count < MSG_QUEUE_SIZE
        · -- accepted: the step enqueues into queue i and bumps the counter
          set st2 := (msg_tick st).setq i
            (some (enqueueMsg q0 sender i type data size (msg_tick st).system_ticks)) with hst2
          have hstepv : bcast_step sender type data size (c0, st) i = (c0 + 1, st2) := by
            rw [bcast_step, if_pos (by simp [hq0, hsend]),
              msg_sendNZ_accept st sender i type data size q0 hq0 hi.2 hc0 hs]
            rfl
          have hlen2 : st2.task_queues.length = MAX_TASKS := by
            rw [hst2, setq_length]; exact hlen
          have hq2ne : ∀ j, j ≠ i → st2.queue j = st.queue j := by
            intro j hj
            rw [hst2, queue_setq_ne _ _ _ _ (Ne.symm hj)]
            rfl
          have hq2i : st2.queue i =
              some (enqueueMsg q0 sender i type data size (msg_tick st).system_ticks) := by
            rw [hst2, queue_setq_self]
            rw [show (msg_tick st).task_queues.length = MAX_TASKS from hlen]
            exact hi.2
          rw [hstep, hstepv]
          obtain ⟨A, B, C, D, E, F⟩ := ih (c0 + 1) st2 hbr hndr hlen2
          refine ⟨A, ?_, ?_, ?_, ?_, ?_⟩
          · intro j hj
            rw [B j (fun hr => hj (List.mem_cons_of_mem i hr))]
            exact hq2ne j (fun he => hj (he ▸ List.mem_cons_self i rest))
          · intro i' hi' q hns hq hc
            rcases List.mem_cons.mp hi' with rfl | hr
            · rw [hq0] at hq
              obtain rfl : q0 = q := by injection hq
              exact ⟨(msg_tick st).system_ticks, by rw [B i' hnI, hq2i]⟩
            · have hne : i' ≠ i := fun he => hnI (he ▸ hr)
              exact C i' hr q hns (by rw [hq2ne i' hne, hq]) hc
          · intro i' hi' q hns hq hc
            rcases List.mem_cons.mp hi' with rfl | hr
            · rw [hq0] at hq
              obtain rfl : q0 = q := by injection hq
              omega
            · have hne : i' ≠ i := fun he => hnI (he ▸ hr)
              rw [D i' hr q hns (by rw [hq2ne i' hne, hq]) hc]
              exact hq2ne i' hne
          · intro i' hi' hor
            rcases List.mem_cons.mp hi' with rfl | hr
            · rcases hor with h | h
              · exact absurd h hsend
              · rw [hq0] at h; exact absurd h (by simp)
            · have hne : i' ≠ i := fun he => hnI (he ▸ hr)
              rw [E i' hr (by rwa [hq2ne i' hne]), hq2ne i' hne]
          · have hacc : accepting st sender i = true := by
              simp [accepting, hsend, hq0, hc0]
            have hcong : rest.countP (accepting st2 sender) =
                rest.countP (accepting st sender) := by
              refine countP_congr_mem rest _ _ (fun a ha => ?_)
              have hne : a ≠ i := fun he => hnI (he ▸ ha)
              simp only [accepting, hq2ne a hne]
            rw [F, List.countP_cons, hacc, hcong, if_pos rfl]
            omega
        · -- queue full: the inner send returns -1 and only bumps the ticks
          have hstepv : bcast_step sender type data size (c0, st) i = (c0, msg_tick st) := by
            rw [bcast_step, if_pos (by simp [hq0, hsend]),
              msg_sendNZ_full st sender i type data size q0 hq0 hi.2 (by omega) hs]
            simp
          have hqt : ∀ j, (msg_tick st).queue j = st.queue j := fun j => rfl
          rw [hstep, hstepv]
          obtain ⟨A, B, C, D, E, F⟩ := ih c0 (msg_tick st) hbr hndr hlen
          refine ⟨A, ?_, ?_, ?_, ?_, ?_⟩
          · intro j hj
            rw [B j (fun hr => hj (List.mem_cons_of_mem i hr))]
            exact hqt j
          · intro i' hi' q hns hq hc
            rcases List.mem_cons.mp hi' with rfl | hr
            · rw [hq0] at hq
              obtain rfl : q0 = q := by injection hq
              omega
            · exact C i' hr q hns (by rw [hqt, hq]) hc
          · intro i' hi' q hns hq hc
            rcases List.mem_cons.mp hi' with rfl | hr
            · rw [B i' hnI]; exact hqt i'
            · rw [D i' hr q hns (by rw [hqt, hq]) hc]
              exact hqt i'
          · intro i' hi' hor
            rcases List.mem_cons.mp hi' with rfl | hr
            · rw [B i' hnI]; exact hqt i'
            · rw [E i' hr (by rwa [hqt]), hqt]
          · have hacc : accepting st sender i = false := by
              simp only [accepting, if_neg hsend, hq0]
              simpa using hc0
            have hcong : rest.countP (accepting (msg_tick st) sender) =
                rest.countP (accepting st sender) := by
              refine countP_congr_mem rest _ _ (fun a _ => ?_)
              simp only [accepting, hqt a]
            rw [F, List.countP_cons, hacc, hcong, if_neg (by simp)]
            omega

theorem accepting_eq_true_iff (st : MsgState) (sender i : Nat) :
    accepting st sender i = true ↔
      (i ≠ sender ∧ ∃ q, st.queue i = some q ∧ q.count < MSG_QUEUE_SIZE) := by
  rw [accepting]
  split_ifs with h
  · simp [h]
  · cases hq : st.queue i with
    | none => simp [h, hq]
    | some q => simp [h, hq]

/-! ## Claim C7: broadcast send -/

/-- C7: `msg_send` with receiver 0 is a broadcast.  (a) It succeeds (returns
0) iff at least one recipient accepted, where a recipient is a slot
`1 ≤ i < MAX_TASKS` other than the sender whose queue exists (an active
task in this module's view) and has room; (b) each such recipient's queue
receives exactly one enqueued copy carrying the sender id, its own id as
receiver, the type and the size; (c) task 0, the sender itself, queue-less
tasks, full queues and out-of-range slots are all left untouched. -/
theorem msg_send_broadcast (s : MsgState) (sender type : Nat)
    (data : Option (List Nat)) (size : Nat)
    (hlen : s.task_queues.length = MAX_TASKS) (hsize : size ≤ MSG_MAX_SIZE) :
    ((msg_send s sender 0 type data size).1 = 0 ↔
      ∃ i q, 1 ≤ i ∧ i < MAX_TASKS ∧ i ≠ sender ∧ s.queue i = some q ∧
        q.count < MSG_QUEUE_SIZE) ∧
    (∀ i q, 1 ≤ i → i < MAX_TASKS → i ≠ sender → s.queue i = some q →
      q.count < MSG_QUEUE_SIZE →
      ∃ ts, (msg_send s sender 0 type data size).2.queue i =
        some (enqueueMsg q sender i type data size ts)) ∧
    (∀ i, i = 0 ∨ i = sender ∨ s.queue i = none ∨
        (∃ q, s.queue i = some q ∧ MSG_QUEUE_SIZE ≤ q.count) ∨ MAX_TASKS ≤ i →
      (msg_send s sender 0 type data size).2.queue i = s.queue i) := by
  have hmem : ∀ i, i ∈ List.range' 1 (MAX_TASKS - 1) ↔ 1 ≤ i ∧ i < MAX_TASKS := by
    intro i
    rw [List.mem_range'_1]
    constructor <;> (intro h; constructor <;> omega)
  have hbounds : ∀ i ∈ List.range' 1 (MAX_TASKS - 1), 1 ≤ i ∧ i < MAX_TASKS :=
    fun i hi => (hmem i).mp hi
  obtain ⟨A, B, C, D, E, F⟩ := bcast_run_spec sender type data size hsize
    (List.range' 1 (MAX_TASKS - 1)) 0 (msg_tick s) hbounds (List.nodup_range' _ _) hlen
  have hms : msg_send s sender 0 type data size =
      (if (bcast_run sender type data size 0 (msg_tick s) (List.range' 1 (MAX_TASKS - 1))).1 > 0
        then 0 else -1,
       (bcast_run sender type data size 0 (msg_tick s) (List.range' 1 (MAX_TASKS - 1))).2) := by
    rw [msg_send, if_neg (by simp), if_neg (by omega)]
    rfl
  have hqs : ∀ j, (msg_tick s).queue j = s.queue j := fun _ => rfl
  refine ⟨?_, ?_, ?_⟩
  · rw [hms]
    dsimp only
    rw [F]
    constructor
    · intro h
      have hpos : 0 < (List.range' 1 (MAX_TASKS - 1)).countP (accepting (msg_tick s) sender) := by
        by_contra hz
        rw [Nat.eq_zero_of_not_pos hz] at h
        simp at h
      obtain ⟨a, ha, hacc⟩ := List.countP_pos_iff.mp hpos
      obtain ⟨hns, q, hq, hc⟩ := (accepting_eq_true_iff _ _ _).mp hacc
      exact ⟨a, q, (hmem a).mp ha |>.1, (hmem a).mp ha |>.2, hns, hq, hc⟩
    · rintro ⟨i, q, h1, h2, hns, hq, hc⟩
      have hacc : accepting (msg_tick s) sender i = true :=
        (accepting_eq_true_iff _ _ _).mpr ⟨hns, q, hq, hc⟩
      have hpos : 0 < (List.range' 1 (MAX_TASKS - 1)).countP (accepting (msg_tick s) sender) :=
        List.countP_pos_iff.mpr ⟨i, (hmem i).mpr ⟨h1, h2⟩, hacc⟩
      rw [if_pos (by omega)]
  · intro i q h1 h2 hns hq hc
    rw [hms]
    exact C i ((hmem i).mpr ⟨h1, h2⟩) q hns hq hc
  · intro i hcase
    rw [hms]
    dsimp only
    rcases hcase with rfl | hsend | hnone | ⟨q, hq, hfull⟩ | hge
    · rw [B 0 (by rw [hmem]; omega)]
      rfl
    · by_cases hin : i ∈ List.range' 1 (MAX_TASKS - 1)
      · exact E i hin (Or.inl hsend)
      · exact B i hin
    · by_cases hin : i ∈ List.range' 1 (MAX_TASKS - 1)
      · exact E i hin (Or.inr hnone)
      · exact B i hin
    · by_cases hin : i ∈ List.range' 1 (MAX_TASKS - 1)
      · by_cases hns : i = sender
        · exact E i hin (Or.inl hns)
        · exact D i hin q hns hq hfull
      · exact B i hin
    · exact B i (by rw [hmem]; omega)

/-- A concrete message state: only task 2 has an (empty) queue. -/
def msgBcastState : MsgState :=
  { task_queues := (List.replicate MAX_TASKS (none : Option MsgQueue)).set 2 (some emptyMsgQueue)
    system_ticks := 0 }

/-- Witness for C7: broadcasting from task 1 in `msgBcastState` succeeds,
because task 2 has a queue with room. -/
theorem msg_send_broadcast_witness :
    (msg_send msgBcastState 1 0 2 (some [104, 105]) 2).1 = 0 :=
  ((msg_send_broadcast msgBcastState 1 2 (some [104, 105]) 2 rfl (by decide)).1).mpr
    ⟨2, emptyMsgQueue, by decide, by decide, by decide, rfl, by decide⟩

/-! ## Scheduler (`src/kernel/scheduler.c`)

The circular singly-linked task list becomes an arena: `tasks` is a list of
task records and each record's `next` is the slot index of its successor
(the arena modelling suggested by the spec's own design notes, §9).
`current_task` is the slot index of the running task (`none` = NULL).
`stack_base` is `none` for a NULL stack base; otherwise `some w` where `w`
is the 64-bit word stored at `stack_base[0]` (the canary slot).
`get_timer_ticks()` is the explicit parameter `now`.  `PANIC` is the
terminal outcome `SwitchResult.fault`.  The namespace avoids a clash with
core `Task`. -/

namespace Sched

def STACK_MAGIC : Nat := 0xDEADCAFEBABEBEEF

inductive TaskState where
  | TASK_READY | TASK_RUNNING | TASK_SLEEPING
  | TASK_WAITING_MSG | TASK_BLOCKED | TASK_TERMINATED
  deriving DecidableEq, Repr

export TaskState (TASK_READY TASK_RUNNING TASK_SLEEPING TASK_WAITING_MSG
  TASK_BLOCKED TASK_TERMINATED)

/-- `struct task` from src/kernel/process.h (fields the scheduler never
reads or writes — `cr3`, `gid`, `flags`, `start_time`, `perm_mask` — are
omitted). -/
structure Task where
  rsp : Nat
  pid : Nat
  state : TaskState
  uid : Nat
  priority : Nat
  quantum : Nat
  base_quantum : Nat
  sleep_expiry : Nat
  cpu_time : Nat
  stack_base : Option Nat
  next : Nat
  deriving DecidableEq, Repr

instance : Inhabited Task := ⟨⟨0, 0, TASK_READY, 0, 0, 0, 0, 0, 0, none, 0⟩⟩

/-- The scheduler's global state. -/
structure SchedState where
  tasks : List Task
  current_task : Option Nat
  sched_lock : Bool
  deriving DecidableEq, Repr

/-- Read task slot `i`. -/
def tget (ts : List Task) (i : Nat) : Task := (ts.get? i).getD default

/-- Write task slot `i`. -/
def tset (ts : List Task) (i : Nat) (t : Task) : List Task := ts.set i t

/-- The body of the sleeping-task wake-up check in `scheduler_switch`'s
scan: `if (t->state == TASK_SLEEPING && now >= t->sleep_expiry)
{ t->state = TASK_READY; t->quantum = t->base_quantum; }`. -/
def wakeTask (now : Nat) (t : Task) : Task :=
  if t.state = TASK_SLEEPING ∧ now ≥ t.sleep_expiry then
    { t with state := TASK_READY, quantum := t.base_quantum }
  else t

/-- Apply the wake-up check to slot `t`. -/
def wake (ts : List Task) (now t : Nat) : List Task :=
  tset ts t (wakeTask now (tget ts t))

/-- `!best || t->priority < best->priority`. -/
def betterThan (ts : List Task) (t : Nat) : Option Nat → Bool
  | none => true
  | some b => decide ((tget ts t).priority < (tget ts b).priority)

/-- The best-candidate update in the scan:
`if (t->state == TASK_READY || t->state == TASK_RUNNING)
 { if (!best || t->priority < best->priority) best = t; }`. -/
def pickBest (ts : List Task) (t : Nat) (best : Option Nat) : Option Nat :=
  if ((tget ts t).state = TASK_READY ∨ (tget ts t).state = TASK_RUNNING) ∧
      betterThan ts t best = true then
    some t
  else best

/-- The `do { ... } while (t != current_task->next)` scan of
`scheduler_switch`, with explicit fuel (the task count; the circular list
brings `t` back to `stop` after exactly that many steps). -/
def scanLoop (now stop : Nat) (ts : List Task) (t : Nat) (best : Option Nat) :
    Nat → List Task × Option Nat
  | 0 => (ts, best)
  | fuel + 1 =>
    let ts1 := wake ts now t
    let best1 := pickBest ts1 t best
    let t1 := (tget ts1 t).next
    if t1 = stop then (ts1, best1) else scanLoop now stop ts1 t1 best1 fuel

/-- Steps 1 and 3 of `scheduler_switch` on the task arena: record
`current->rsp = rsp`, `current->cpu_time++`, then
`if (current->quantum > 0) current->quantum--`. -/
def switch_prep (ts : List Task) (cur rsp : Nat) : List Task :=
  let t0 := tget ts cur
  let ts0 := tset ts cur { t0 with rsp := rsp, cpu_time := add64 t0.cpu_time 1 }
  let t1 := tget ts0 cur
  if t1.quantum > 0 then tset ts0 cur { t1 with quantum := t1.quantum - 1 } else ts0

/-- The stack-canary test: non-NULL `stack_base` whose first word is not
`STACK_MAGIC`. -/
def canaryBad (t : Task) : Bool :=
  match t.stack_base with
  | some w => decide (w ≠ STACK_MAGIC)
  | none => false

/-- `current->priority <= best->priority` (vacuously true for `!best`). -/
def keepPriorityOk (ts : List Task) (cur : Nat) : Option Nat → Bool
  | none => true
  | some b => decide ((tget ts cur).priority ≤ (tget ts b).priority)

/-- Outcome of `scheduler_switch`: either the `PANIC("Stack overflow!")`
path, or a normal return of a stack pointer together with the post state. -/
inductive SwitchResult where
  | fault
  | done (rsp : Nat) (s : SchedState)
  deriving DecidableEq, Repr

/-- `scheduler_switch` from src/kernel/scheduler.c.  (The transient
`sched_lock = 1 ... 0` bracket around the body is atomic here; the
early-return when the lock is already held is kept.) -/
def scheduler_switch (s : SchedState) (now rsp : Nat) : SwitchResult :=
  match s.current_task with
  | none => SwitchResult.done rsp s
  | some cur =>
    if s.sched_lock then SwitchResult.done rsp s
    else
      let t0 := tget s.tasks cur
      let ts0 := tset s.tasks cur { t0 with rsp := rsp, cpu_time := add64 t0.cpu_time 1 }
      if canaryBad (tget ts0 cur) then SwitchResult.fault
      else
        let ts1 := switch_prep s.tasks cur rsp
        let start := (tget ts1 cur).next
        let scanned := scanLoop now start ts1 start none ts1.length
        let ts2 := scanned.1
        let best := scanned.2
        let tc := tget ts2 cur
        if tc.state = TASK_RUNNING ∧ tc.quantum > 0 ∧ keepPriorityOk ts2 cur best = true then
          SwitchResult.done rsp { s with tasks := ts2 }
        else
          let b := best.getD cur
          if b ≠ cur then
            let ts3 := if (tget ts2 cur).state = TASK_RUNNING then
                tset ts2 cur { (tget ts2 cur) with state := TASK_READY } else ts2
            let tb := tget ts3 b
            let ts4 := tset ts3 b { tb with state := TASK_RUNNING, quantum := tb.base_quantum }
            SwitchResult.done (tget ts4 b).rsp
              { s with tasks := ts4, current_task := some b }
          else
            SwitchResult.done (tget ts2 cur).rsp { s with tasks := ts2 }

/-- `sleep` from src/kernel/scheduler.c: mark the current task SLEEPING
with `sleep_expiry = get_timer_ticks() + ms`, before yielding into the
scheduler. -/
def sleep (s : SchedState) (now ms : Nat) : SchedState :=
  match s.current_task with
  | none => s
  | some cur =>
    let t := tget s.tasks cur
    let t1 := { t with state := TASK_SLEEPING, sleep_expiry := add64 now ms }
    { s with tasks := tset s.tasks cur t1 }

/-- The index sequence obtained by following `next` pointers `k` times
from `start`. -/
def orbit (ts : List Task) (start : Nat) : Nat → List Nat
  | 0 => []
  | k + 1 => start :: orbit ts ((tget ts start).next) k

/-- The circular-list well-formedness at `start`: following `next` for
`tasks.length` steps visits every slot exactly once and returns to
`start`. -/
def SchedCycle (ts : List Task) (start : Nat) : Prop :=
  (∀ i, i < ts.length → i ∈ orbit ts start ts.length) ∧
  (orbit ts start ts.length).Nodup ∧
  (fun i => (tget ts i).next)^[ts.length] start = start

end Sched

namespace Sched

/-! ### Arena access lemmas -/

theorem tset_length (ts : List Task) (i : Nat) (t : Task) :
    (tset ts i t).length = ts.length := by
  simp [tset]

theorem tget_tset_self (ts : List Task) (i : Nat) (t : Task) (h : i < ts.length) :
    tget (tset ts i t) i = t := by
  simp [tget, tset, List.get?_eq_getElem?, List.getElem?_set_eq_of_lt t h]

theorem tget_tset_ne (ts : List Task) (i j : Nat) (t : Task) (h : i ≠ j) :
    tget (tset ts i t) j = tget ts j := by
  simp [tget, tset, List.get?_eq_getElem?, List.getElem?_set_ne h]

theorem tget_tset_oob (ts : List Task) (i : Nat) (t : Task) (h : ts.length ≤ i) :
    tset ts i t = ts := by
  simp [tset, List.set_eq_of_length_le h]

/-! ### Wake-pass facts -/

theorem wakeTask_idem (now : Nat) (t : Task) :
    wakeTask now (wakeTask now t) = wakeTask now t := by
  by_cases h : t.state = TASK_SLEEPING ∧ now ≥ t.sleep_expiry
  · have h1 : wakeTask now t = { t with state := TASK_READY, quantum := t.base_quantum } := by
      rw [wakeTask, if_pos h]
    rw [h1, wakeTask, if_neg (by simp)]
  · have h1 : wakeTask now t = t := by rw [wakeTask, if_neg h]
    rw [h1]
    exact h1

theorem wakeTask_priority (now : Nat) (t : Task) :
    (wakeTask now t).priority = t.priority := by
  rw [wakeTask]; split_ifs <;> rfl

theorem wakeTask_next (now : Nat) (t : Task) :
    (wakeTask now t).next = t.next := by
  rw [wakeTask]; split_ifs <;> rfl

theorem wakeTask_rsp (now : Nat) (t : Task) :
    (wakeTask now t).rsp = t.rsp := by
  rw [wakeTask]; split_ifs <;> rfl

theorem wakeTask_base_quantum (now : Nat) (t : Task) :
    (wakeTask now t).base_quantum = t.base_quantum := by
  rw [wakeTask]; split_ifs <;> rfl

theorem wake_length (ts : List Task) (now t : Nat) :
    (wake ts now t).length = ts.length := tset_length _ _ _

theorem tget_wake_self (ts : List Task) (now t : Nat) :
    tget (wake ts now t) t = wakeTask now (tget ts t) := by
  by_cases h : t < ts.length
  · exact tget_tset_self _ _ _ h
  · rw [wake, tget_tset_oob _ _ _ (by omega)]
    have hd : tget ts t = default := by
      simp [tget, List.get?_eq_getElem?, List.getElem?_eq_none (by omega : ts.length ≤ t)]
    rw [hd]
    rfl

theorem tget_wake_ne (ts : List Task) (now t j : Nat) (h : t ≠ j) :
    tget (wake ts now t) j = tget ts j := tget_tset_ne _ _ _ _ h

theorem tget_wake_next (ts : List Task) (now t j : Nat) :
    (tget (wake ts now t) j).next = (tget ts j).next := by
  by_cases h : t = j
  · subst h; rw [tget_wake_self, wakeTask_next]
  · rw [tget_wake_ne _ _ _ _ h]

theorem tget_wake_priority (ts : List Task) (now t j : Nat) :
    (tget (wake ts now t) j).priority = (tget ts j).priority := by
  by_cases h : t = j
  · subst h; rw [tget_wake_self, wakeTask_priority]
  · rw [tget_wake_ne _ _ _ _ h]

/-! ### The scan as a pass over a fixed visit list -/

/-- `scanLoop` re-expressed over the explicit list of visited slots. -/
def scanList (now : Nat) (ts : List Task) (best : Option Nat) :
    List Nat → List Task × Option Nat
  | [] => (ts, best)
  | t :: r => scanList now (wake ts now t) (pickBest (wake ts now t) t best) r

/-- Iterates of a step function, as a visit list. -/
def orbitF (nx : Nat → Nat) (t : Nat) : Nat → List Nat
  | 0 => []
  | k + 1 => t :: orbitF nx (nx t) k

theorem orbit_eq_orbitF (ts : List Task) (start k : Nat) :
    orbit ts start k = orbitF (fun i => (tget ts i).next) start k := by
  induction k generalizing start with
  | zero => rfl
  | succ k ih => rw [orbit, orbitF, ih]

theorem orbitF_length (nx : Nat → Nat) (t k : Nat) : (orbitF nx t k).length = k := by
  induction k generalizing t with
  | zero => rfl
  | succ k ih => rw [orbitF, List.length_cons, ih]

theorem orbitF_get? (nx : Nat → Nat) (t k j : Nat) (h : j < k) :
    (orbitF nx t k).get? j = some (nx^[j] t) := by
  induction k generalizing t j with
  | zero => omega
  | succ k ih =>
    cases j with
    | zero => rfl
    | succ j =>
      rw [orbitF, List.get?_cons_succ, ih _ _ (by omega), Function.iterate_succ_apply]

theorem scanLoop_eq_scanList (now stop : Nat) (nx : Nat → Nat) :
    ∀ (k fuel t : Nat) (ts : List Task) (best : Option Nat),
      1 ≤ k → k ≤ fuel →
      (∀ j, (tget ts j).next = nx j) →
      (∀ j, 1 ≤ j → j < k → nx^[j] t ≠ stop) →
      nx^[k] t = stop →
      scanLoop now stop ts t best fuel = scanList now ts best (orbitF nx t k) := by
  intro k
  induction k with
  | zero => omega
  | succ k ih =>
    intro fuel t ts best _ hfuel hnx hne hstop
    match fuel with
    | 0 => omega
    | fuel + 1 =>
      rw [scanLoop]
      have hnx1 : ∀ j, (tget (wake ts now t) j).next = nx j := by
        intro j; rw [tget_wake_next]; exact hnx j
      have ht1 : (tget (wake ts now t) t).next = nx t := hnx1 t
      cases k with
      | zero =>
        have : nx t = stop := by simpa using hstop
        rw [ht1, if_pos this]
        rfl
      | succ k =>
        have hne1 : nx t ≠ stop := by
          have := hne 1 (by omega) (by omega)
          simpa using this
        rw [ht1, if_neg hne1]
        rw [ih fuel (nx t) (wake ts now t) (pickBest (wake ts now t) t best)
          (by omega) (by omega) hnx1
          (fun j h1 h2 => by
            rw [← Function.iterate_succ_apply]
            exact hne (j + 1) (by omega) (by omega))
          (by rw [← Function.iterate_succ_apply]; exact hstop)]
        rfl

end Sched

namespace Sched

/-! ### Frozen views of the scan -/

/-- Whether slot `j` is a READY/RUNNING candidate at its visit (i.e. after
its own wake-up check), evaluated against a fixed task arena. -/
def eligB (now : Nat) (ts : List Task) (j : Nat) : Bool :=
  decide ((wakeTask now (tget ts j)).state = TASK_READY ∨
    (wakeTask now (tget ts j)).state = TASK_RUNNING)

/-- Slot priority (invariant during the scan). -/
def prioOf (ts : List Task) (j : Nat) : Nat := (tget ts j).priority

/-- `!best || P j < P best` over the frozen priority view. -/
def bbetter (P : Nat → Nat) (j : Nat) : Option Nat → Bool
  | none => true
  | some b => decide (P j < P b)

/-- One best-candidate update over the frozen views. -/
def bstep (E : Nat → Bool) (P : Nat → Nat) (best : Option Nat) (j : Nat) : Option Nat :=
  if E j = true ∧ bbetter P j best = true then some j else best

/-- The best-candidate fold of the scan, over frozen views. -/
def bfold (E : Nat → Bool) (P : Nat → Nat) (best : Option Nat) : List Nat → Option Nat
  | [] => best
  | j :: r => bfold E P (bstep E P best j) r

theorem eligB_wake (now : Nat) (ts : List Task) (t : Nat) :
    eligB now (wake ts now t) = eligB now ts := by
  funext j
  by_cases h : t = j
  · subst h
    rw [eligB, eligB, tget_wake_self, wakeTask_idem]
  · rw [eligB, eligB, tget_wake_ne _ _ _ _ h]

theorem prioOf_wake (now : Nat) (ts : List Task) (t : Nat) :
    prioOf (wake ts now t) = prioOf ts := by
  funext j
  rw [prioOf, prioOf, tget_wake_priority]

theorem scanList_length (now : Nat) :
    ∀ (l : List Nat) (ts : List Task) (best : Option Nat),
      (scanList now ts best l).1.length = ts.length := by
  intro l
  induction l with
  | nil => intro ts best; rfl
  | cons t r ih => intro ts best; rw [scanList, ih, wake_length]

theorem tget_scanList_not_mem (now : Nat) :
    ∀ (l : List Nat) (ts : List Task) (best : Option Nat) (j : Nat), j ∉ l →
      tget (scanList now ts best l).1 j = tget ts j := by
  intro l
  induction l with
  | nil => intro ts best j _; rfl
  | cons t r ih =>
    intro ts best j hj
    rw [scanList, ih _ _ _ (fun hr => hj (List.mem_cons_of_mem t hr)),
      tget_wake_ne _ _ _ _ (fun he => hj (by rw [← he]; exact List.mem_cons_self t r))]

theorem tget_scanList_mem (now : Nat) :
    ∀ (l : List Nat) (ts : List Task) (best : Option Nat) (j : Nat), l.Nodup → j ∈ l →
      tget (scanList now ts best l).1 j = wakeTask now (tget ts j) := by
  intro l
  induction l with
  | nil => intro ts best j _ hj; exact absurd hj (by simp)
  | cons t r ih =>
    intro ts best j hnd hj
    obtain ⟨hnt, hndr⟩ := List.nodup_cons.mp hnd
    rcases List.mem_cons.mp hj with rfl | hr
    · rw [scanList, tget_scanList_not_mem now r _ _ j hnt, tget_wake_self]
    · have hne : t ≠ j := fun he => hnt (he ▸ hr)
      rw [scanList, ih _ _ _ hndr hr, tget_wake_ne _ _ _ _ hne]

theorem scanList_best (now : Nat) :
    ∀ (l : List Nat) (ts : List Task) (best : Option Nat),
      (scanList now ts best l).2 = bfold (eligB now ts) (prioOf ts) best l := by
  intro l
  induction l with
  | nil => intro ts best; rfl
  | cons t r ih =>
    intro ts best
    rw [scanList, ih, eligB_wake, prioOf_wake, bfold]
    congr 1
    rw [pickBest, bstep]
    refine if_congr ?_ rfl rfl
    constructor
    · rintro ⟨hstate, hbt⟩
      refine ⟨?_, ?_⟩
      · rw [eligB, decide_eq_true_iff]
        rw [tget_wake_self] at hstate
        exact hstate
      · cases best with
        | none => rfl
        | some b =>
          rw [betterThan, decide_eq_true_iff] at hbt
          rw [bbetter, decide_eq_true_iff, prioOf, prioOf]
          rw [tget_wake_priority, tget_wake_priority] at hbt
          exact hbt
    · rintro ⟨hE, hbt⟩
      rw [eligB, decide_eq_true_iff] at hE
      refine ⟨by rw [tget_wake_self]; exact hE, ?_⟩
      cases best with
      | none => rfl
      | some b =>
        rw [bbetter, decide_eq_true_iff, prioOf, prioOf] at hbt
        rw [betterThan, decide_eq_true_iff, tget_wake_priority, tget_wake_priority]
        exact hbt

/-! ### The best-candidate fold: minimality -/

theorem bfold_none_iff (E : Nat → Bool) (P : Nat → Nat) :
    ∀ (l : List Nat) (best : Option Nat),
      bfold E P best l = none ↔ (best = none ∧ ∀ j ∈ l, E j = false) := by
  intro l
  induction l with
  | nil => intro best; simp [bfold]
  | cons t r ih =>
    intro best
    rw [bfold, ih, bstep]
    by_cases hc : E t = true ∧ bbetter P t best = true
    · rw [if_pos hc]
      simp only [Option.some_ne_none, false_and, false_iff, not_and, not_forall]
      intro hbest
      exact ⟨t, List.mem_cons_self t r, by simp [hc.1]⟩
    · rw [if_neg hc]
      constructor
      · rintro ⟨h1, h2⟩
        refine ⟨h1, fun j hj => ?_⟩
        rcases List.mem_cons.mp hj with rfl | hr
        · subst h1
          simp only [not_and] at hc
          by_cases hE : E j = true
          · exact absurd rfl (hc hE)
          · simpa using hE
        · exact h2 j hr
      · rintro ⟨h1, h2⟩
        exact ⟨h1, fun j hj => h2 j (List.mem_cons_of_mem t hj)⟩

theorem bfold_some_spec (E : Nat → Bool) (P : Nat → Nat) :
    ∀ (l : List Nat) (best : Option Nat) (b : Nat),
      bfold E P best l = some b →
      ((b ∈ l ∧ E b = true) ∨ best = some b) ∧
      (∀ j ∈ l, E j = true → P b ≤ P j) ∧
      (∀ a, best = some a → P b ≤ P a) := by
  intro l
  induction l with
  | nil =>
    intro best b h
    rw [bfold] at h
    exact ⟨Or.inr h, by simp, fun a ha => by rw [ha] at h; injection h with h; rw [h]⟩
  | cons t r ih =>
    intro best b h
    rw [bfold, bstep] at h
    obtain ⟨h1, h2, h3⟩ := ih _ b h
    by_cases hc : E t = true ∧ bbetter P t best = true
    · rw [if_pos hc] at h1 h3
      refine ⟨?_, ?_, ?_⟩
      · rcases h1 with ⟨hm, hE⟩ | heq
        · exact Or.inl ⟨List.mem_cons_of_mem t hm, hE⟩
        · injection heq with heq
          exact Or.inl ⟨heq ▸ List.mem_cons_self t r, heq ▸ hc.1⟩
      · intro j hj hE
        rcases List.mem_cons.mp hj with rfl | hr
        · exact h3 j rfl
        · exact h2 j hr hE
      · intro a ha
        have hbt : P b ≤ P t := h3 t rfl
        cases best with
        | none => exact absurd ha (by simp)
        | some a0 =>
          injection ha with ha
          subst ha
          obtain ⟨-, hc2⟩ := hc
          rw [bbetter, decide_eq_true_iff] at hc2
          omega
    · rw [if_neg hc] at h1 h3
      refine ⟨?_, ?_, ?_⟩
      · rcases h1 with ⟨hm, hE⟩ | heq
        · exact Or.inl ⟨List.mem_cons_of_mem t hm, hE⟩
        · exact Or.inr heq
      · intro j hj hE
        rcases List.mem_cons.mp hj with rfl | hr
        · cases best with
          | none => exact absurd ⟨hE, rfl⟩ hc
          | some a =>
            have hna : ¬ P j < P a := by
              intro hlt
              exact hc ⟨hE, by simpa [bbetter] using hlt⟩
            have := h3 a rfl
            omega
        · exact h2 j hr hE
      · exact h3

end Sched

namespace Sched

/-! ### The prepared arena (rsp write, cpu_time bump, quantum decrement) -/

/-- The effect of `switch_prep` on the current task's record. -/
def prepTask (t : Task) (rsp : Nat) : Task :=
  let t1 := { t with rsp := rsp, cpu_time := add64 t.cpu_time 1 }
  if t1.quantum > 0 then { t1 with quantum := t1.quantum - 1 } else t1

theorem prepTask_state (t : Task) (rsp : Nat) : (prepTask t rsp).state = t.state := by
  rw [prepTask]; split_ifs <;> rfl

theorem prepTask_priority (t : Task) (rsp : Nat) : (prepTask t rsp).priority = t.priority := by
  rw [prepTask]; split_ifs <;> rfl

theorem prepTask_next (t : Task) (rsp : Nat) : (prepTask t rsp).next = t.next := by
  rw [prepTask]; split_ifs <;> rfl

theorem prepTask_sleep_expiry (t : Task) (rsp : Nat) :
    (prepTask t rsp).sleep_expiry = t.sleep_expiry := by
  rw [prepTask]; split_ifs <;> rfl

theorem prepTask_base_quantum (t : Task) (rsp : Nat) :
    (prepTask t rsp).base_quantum = t.base_quantum := by
  rw [prepTask]; split_ifs <;> rfl

theorem prepTask_quantum (t : Task) (rsp : Nat) :
    (prepTask t rsp).quantum = t.quantum - 1 := by
  rw [prepTask]
  split_ifs with h
  · rfl
  · have h0 : ¬ 0 < t.quantum := fun hlt => h hlt
    show t.quantum = t.quantum - 1
    omega

theorem prepTask_rsp (t : Task) (rsp : Nat) : (prepTask t rsp).rsp = rsp := by
  rw [prepTask]; split_ifs <;> rfl

theorem switch_prep_length (ts : List Task) (cur rsp : Nat) :
    (switch_prep ts cur rsp).length = ts.length := by
  rw [switch_prep]
  split_ifs <;> simp [tset_length]

theorem switch_prep_oob (ts : List Task) (cur rsp : Nat) (h : ts.length ≤ cur) :
    switch_prep ts cur rsp = ts := by
  rw [switch_prep]
  rw [tget_tset_oob _ _ _ h, tget_tset_oob _ _ _ h]
  have hd : tget ts cur = default := by
    simp [tget, List.get?_eq_getElem?, List.getElem?_eq_none h]
  rw [hd]
  split_ifs <;> rfl

theorem tget_switch_prep_self (ts : List Task) (cur rsp : Nat) (h : cur < ts.length) :
    tget (switch_prep ts cur rsp) cur = prepTask (tget ts cur) rsp := by
  rw [switch_prep, prepTask]
  rw [tget_tset_self _ _ _ h]
  split_ifs with hq
  · rw [tget_tset_self _ _ _ (by rw [tset_length]; exact h)]
  · rw [tget_tset_self _ _ _ h]

theorem tget_switch_prep_ne (ts : List Task) (cur rsp j : Nat) (h : cur ≠ j) :
    tget (switch_prep ts cur rsp) j = tget ts j := by
  rw [switch_prep]
  split_ifs with hq
  · rw [tget_tset_ne _ _ _ _ h, tget_tset_ne _ _ _ _ h]
  · rw [tget_tset_ne _ _ _ _ h]

end Sched

namespace Sched

theorem tget_switch_prep_next (ts : List Task) (cur rsp j : Nat) :
    (tget (switch_prep ts cur rsp) j).next = (tget ts j).next := by
  by_cases hc : cur < ts.length
  · by_cases hj : cur = j
    · subst hj
      rw [tget_switch_prep_self _ _ _ hc, prepTask_next]
    · rw [tget_switch_prep_ne _ _ _ _ hj]
  · rw [switch_prep_oob _ _ _ (by omega)]

theorem eligB_switch_prep (now : Nat) (ts : List Task) (cur rsp : Nat) :
    eligB now (switch_prep ts cur rsp) = eligB now ts := by
  funext j
  by_cases hc : cur < ts.length
  · by_cases hj : cur = j
    · subst hj
      rw [eligB, eligB, tget_switch_prep_self _ _ _ hc]
      have hs : (wakeTask now (prepTask (tget ts cur) rsp)).state =
          (wakeTask now (tget ts cur)).state := by
        rw [wakeTask, wakeTask, prepTask_state, prepTask_sleep_expiry]
        split_ifs <;> simp [prepTask_state]
      rw [hs]
    · rw [eligB, eligB, tget_switch_prep_ne _ _ _ _ hj]
  · rw [switch_prep_oob _ _ _ (by omega)]

theorem prioOf_switch_prep (ts : List Task) (cur rsp : Nat) :
    prioOf (switch_prep ts cur rsp) = prioOf ts := by
  funext j
  by_cases hc : cur < ts.length
  · by_cases hj : cur = j
    · subst hj
      rw [prioOf, prioOf, tget_switch_prep_self _ _ _ hc, prepTask_priority]
    · rw [prioOf, prioOf, tget_switch_prep_ne _ _ _ _ hj]
  · rw [switch_prep_oob _ _ _ (by omega)]

/-! ### The scan as performed by `scheduler_switch` -/

/-- The post-canary portion of `scheduler_switch` up to and including the
candidate scan: the prepared arena is scanned once around the circular
list starting at `current->next`. -/
def switch_scan (s : SchedState) (now cur rsp : Nat) : List Task × Option Nat :=
  let ts1 := switch_prep s.tasks cur rsp
  scanLoop now ((tget ts1 cur).next) ts1 ((tget ts1 cur).next) none ts1.length

theorem switch_scan_eq (s : SchedState) (now cur rsp : Nat)
    (hn : cur < s.tasks.length)
    (hcyc : SchedCycle s.tasks ((tget s.tasks cur).next)) :
    switch_scan s now cur rsp =
      scanList now (switch_prep s.tasks cur rsp) none
        (orbit s.tasks ((tget s.tasks cur).next) s.tasks.length) := by
  obtain ⟨hcov, hnd, hclose⟩ := hcyc
  rw [switch_scan]
  have hnx : ∀ j, (tget (switch_prep s.tasks cur rsp) j).next = (tget s.tasks j).next :=
    fun j => tget_switch_prep_next _ _ _ _
  rw [hnx cur]
  rw [orbit_eq_orbitF] at hcov hnd ⊢
  have hlen1 : (switch_prep s.tasks cur rsp).length = s.tasks.length :=
    switch_prep_length _ _ _
  rw [hlen1]
  refine scanLoop_eq_scanList now ((tget s.tasks cur).next)
    (fun i => (tget s.tasks i).next) s.tasks.length s.tasks.length
    ((tget s.tasks cur).next) (switch_prep s.tasks cur rsp) none
    (by omega) (le_refl _) hnx ?_ hclose
  intro j h1 h2
  intro heq
  have hg0 : (orbitF (fun i => (tget s.tasks i).next) ((tget s.tasks cur).next)
      s.tasks.length).get? 0 = some ((tget s.tasks cur).next) := by
    rw [orbitF_get? _ _ _ _ (by omega)]
    rfl
  have hgj : (orbitF (fun i => (tget s.tasks i).next) ((tget s.tasks cur).next)
      s.tasks.length).get? j = some ((tget s.tasks cur).next) := by
    rw [orbitF_get? _ _ _ _ (by omega), heq]
  have h0j : 0 = j := by
    refine List.get?_inj ?_ hnd (hg0.trans hgj.symm)
    rw [orbitF_length]
    omega
  omega

/-- Slots appearing in a duplicate-free covering list of length `n` are
all below `n`. -/
theorem mem_lt_of_cover (o : List Nat) (n : Nat) (hlen : o.length = n)
    (hnd : o.Nodup) (hcov : ∀ i, i < n → i ∈ o) : ∀ x ∈ o, x < n := by
  intro x hx
  by_contra hge
  have hsub : Finset.range n ⊆ o.toFinset := by
    intro i hi
    rw [List.mem_toFinset]
    exact hcov i (Finset.mem_range.mp hi)
  have hxm : x ∈ o.toFinset := List.mem_toFinset.mpr hx
  have hins : insert x (Finset.range n) ⊆ o.toFinset := by
    intro i hi
    rcases Finset.mem_insert.mp hi with rfl | hr
    · exact hxm
    · exact hsub hr
  have hcard : (insert x (Finset.range n)).card = n + 1 := by
    rw [Finset.card_insert_of_not_mem (by simp; omega), Finset.card_range]
  have hle : n + 1 ≤ o.toFinset.card := hcard ▸ Finset.card_le_card hins
  rw [List.toFinset_card_of_nodup hnd, hlen] at hle
  omega

theorem orbit_length (ts : List Task) (start k : Nat) : (orbit ts start k).length = k := by
  rw [orbit_eq_orbitF, orbitF_length]

end Sched

namespace Sched

/-- The `current->rsp = rsp; current->cpu_time++` record update. -/
def prepWrite (t : Task) (rsp : Nat) : Task :=
  { t with rsp := rsp, cpu_time := add64 t.cpu_time 1 }

theorem prepWrite_stack_base (t : Task) (rsp : Nat) :
    (prepWrite t rsp).stack_base = t.stack_base := rfl

/-- The scheduler's own keep-running test, evaluated on the post-scan
arena. -/
def codeKeep (s : SchedState) (now cur rsp : Nat) : Prop :=
  (tget (switch_scan s now cur rsp).1 cur).state = TASK_RUNNING ∧
  (tget (switch_scan s now cur rsp).1 cur).quantum > 0 ∧
  keepPriorityOk (switch_scan s now cur rsp).1 cur (switch_scan s now cur rsp).2 = true

instance (s : SchedState) (now cur rsp : Nat) : Decidable (codeKeep s now cur rsp) :=
  inferInstanceAs (Decidable (_ ∧ _ ∧ _))

/-- Demote a RUNNING current task to READY (step 6 of the switch). -/
def demote (ts : List Task) (cur : Nat) : List Task :=
  if (tget ts cur).state = TASK_RUNNING then
    tset ts cur ({ (tget ts cur) with state := TASK_READY }) else ts

/-- Promote the selected candidate: RUNNING, quantum reloaded. -/
def promote (ts : List Task) (b : Nat) : List Task :=
  tset ts b
    ({ (tget ts b) with state := TASK_RUNNING, quantum := (tget ts b).base_quantum })

/-- `scheduler_switch` after a successful canary check, phrased over
`switch_scan`. -/
theorem scheduler_switch_shape (s : SchedState) (now rsp cur : Nat)
    (hcur : s.current_task = some cur) (hlock : s.sched_lock = false)
    (hsb : (tget s.tasks cur).stack_base = none ∨
      (tget s.tasks cur).stack_base = some STACK_MAGIC) :
    scheduler_switch s now rsp =
      (if codeKeep s now cur rsp then
        SwitchResult.done rsp { s with tasks := (switch_scan s now cur rsp).1 }
      else if (switch_scan s now cur rsp).2.getD cur ≠ cur then
        SwitchResult.done
          (tget (promote (demote (switch_scan s now cur rsp).1 cur)
            ((switch_scan s now cur rsp).2.getD cur))
            ((switch_scan s now cur rsp).2.getD cur)).rsp
          { s with
            tasks := promote (demote (switch_scan s now cur rsp).1 cur)
              ((switch_scan s now cur rsp).2.getD cur),
            current_task := some ((switch_scan s now cur rsp).2.getD cur) }
      else
        SwitchResult.done (tget (switch_scan s now cur rsp).1 cur).rsp
          { s with tasks := (switch_scan s now cur rsp).1 }) := by
  have hget : (tget (tset s.tasks cur
      (prepWrite (tget s.tasks cur) rsp)) cur).stack_base =
      (tget s.tasks cur).stack_base := by
    by_cases hc : cur < s.tasks.length
    · rw [tget_tset_self _ _ _ hc, prepWrite_stack_base]
    · rw [tget_tset_oob _ _ _ (by omega)]
  have hcan : canaryBad (tget (tset s.tasks cur
      (prepWrite (tget s.tasks cur) rsp)) cur) = false := by
    rw [canaryBad.eq_def]
    rw [hget]
    rcases hsb with h | h <;> rw [h] <;> simp
  rw [scheduler_switch.eq_def, hcur]
  dsimp only
  rw [hlock]
  rw [if_neg Bool.false_ne_true]
  simp only [prepWrite] at hcan
  rw [hcan]
  rw [if_neg Bool.false_ne_true]
  rfl

end Sched

namespace Sched

theorem wakeTask_state_running (now : Nat) (t : Task) :
    (wakeTask now t).state = TASK_RUNNING ↔ t.state = TASK_RUNNING := by
  rw [wakeTask]
  split_ifs with h
  · constructor
    · intro hr
      exact hr.elim
    · intro hr
      rw [h.1] at hr
      exact absurd hr (by decide)
  · exact Iff.rfl

theorem switch_scan_spec (s : SchedState) (now cur rsp : Nat)
    (hn : cur < s.tasks.length)
    (hcyc : SchedCycle s.tasks ((tget s.tasks cur).next)) :
    (switch_scan s now cur rsp).1.length = s.tasks.length ∧
    (∀ j, j < s.tasks.length →
      tget (switch_scan s now cur rsp).1 j =
        wakeTask now (tget (switch_prep s.tasks cur rsp) j)) ∧
    (switch_scan s now cur rsp).2 =
      bfold (eligB now s.tasks) (prioOf s.tasks) none
        (orbit s.tasks ((tget s.tasks cur).next) s.tasks.length) := by
  obtain ⟨hcov, hnd, hclose⟩ := hcyc
  rw [switch_scan_eq s now cur rsp hn ⟨hcov, hnd, hclose⟩]
  refine ⟨?_, ?_, ?_⟩
  · rw [scanList_length, switch_prep_length]
  · intro j hj
    exact tget_scanList_mem now _ _ _ j hnd (hcov j hj)
  · rw [scanList_best, eligB_switch_prep, prioOf_switch_prep]

theorem switch_best_none_iff (s : SchedState) (now cur rsp : Nat)
    (hn : cur < s.tasks.length)
    (hcyc : SchedCycle s.tasks ((tget s.tasks cur).next)) :
    (switch_scan s now cur rsp).2 = none ↔
      ∀ j, j < s.tasks.length → eligB now s.tasks j = false := by
  obtain ⟨-, -, hbest⟩ := switch_scan_spec s now cur rsp hn hcyc
  obtain ⟨hcov, hnd, -⟩ := hcyc
  rw [hbest, bfold_none_iff]
  constructor
  · rintro ⟨-, h⟩ j hj
    exact h j (hcov j hj)
  · intro h
    refine ⟨rfl, fun j hj => ?_⟩
    refine h j ?_
    refine mem_lt_of_cover _ s.tasks.length (orbit_length _ _ _) hnd hcov j hj
  
theorem switch_best_some_spec (s : SchedState) (now cur rsp b : Nat)
    (hn : cur < s.tasks.length)
    (hcyc : SchedCycle s.tasks ((tget s.tasks cur).next))
    (hb : (switch_scan s now cur rsp).2 = some b) :
    b < s.tasks.length ∧ eligB now s.tasks b = true ∧
      ∀ j, j < s.tasks.length → eligB now s.tasks j = true →
        prioOf s.tasks b ≤ prioOf s.tasks j := by
  obtain ⟨-, -, hbest⟩ := switch_scan_spec s now cur rsp hn hcyc
  obtain ⟨hcov, hnd, -⟩ := hcyc
  rw [hbest] at hb
  obtain ⟨h1, h2, -⟩ := bfold_some_spec _ _ _ _ _ hb
  rcases h1 with ⟨hmem, hE⟩ | habs
  · refine ⟨?_, hE, fun j hj hEj => h2 j (hcov j hj) hEj⟩
    exact mem_lt_of_cover _ s.tasks.length (orbit_length _ _ _) hnd hcov b hmem
  · exact absurd habs (by simp)

/-- The claim-level "keep running" condition, stated against the pre-switch
state: the current task is RUNNING, its quantum survives the decrement, and
its priority is numerically ≤ that of every other candidate (a candidate
being a task that is READY/RUNNING after its wake-up check, `eligB`). -/
def specKeep (s : SchedState) (now cur : Nat) : Prop :=
  (tget s.tasks cur).state = TASK_RUNNING ∧ 1 < (tget s.tasks cur).quantum ∧
  ∀ j, j < s.tasks.length → j ≠ cur → eligB now s.tasks j = true →
    (tget s.tasks cur).priority ≤ (tget s.tasks j).priority

instance (s : SchedState) (now cur : Nat) : Decidable (specKeep s now cur) := by
  unfold specKeep
  infer_instance

theorem tget_scan_cur (s : SchedState) (now cur rsp : Nat)
    (hn : cur < s.tasks.length)
    (hcyc : SchedCycle s.tasks ((tget s.tasks cur).next)) :
    tget (switch_scan s now cur rsp).1 cur =
      wakeTask now (prepTask (tget s.tasks cur) rsp) := by
  obtain ⟨-, hmem, -⟩ := switch_scan_spec s now cur rsp hn hcyc
  rw [hmem cur hn, tget_switch_prep_self _ _ _ hn]

theorem keep_cond_iff (s : SchedState) (now cur rsp : Nat)
    (hn : cur < s.tasks.length)
    (hcyc : SchedCycle s.tasks ((tget s.tasks cur).next)) :
    ((tget (switch_scan s now cur rsp).1 cur).state = TASK_RUNNING ∧
     (tget (switch_scan s now cur rsp).1 cur).quantum > 0 ∧
     keepPriorityOk (switch_scan s now cur rsp).1 cur (switch_scan s now cur rsp).2 = true) ↔
    specKeep s now cur := by
  have hcur2 := tget_scan_cur s now cur rsp hn hcyc
  have hstate : (tget (switch_scan s now cur rsp).1 cur).state = TASK_RUNNING ↔
      (tget s.tasks cur).state = TASK_RUNNING := by
    rw [hcur2, wakeTask_state_running, prepTask_state]
  constructor
  · rintro ⟨h1, h2, h3⟩
    have hrun := hstate.mp h1
    have hnw : wakeTask now (prepTask (tget s.tasks cur) rsp) =
        prepTask (tget s.tasks cur) rsp := by
      rw [wakeTask, if_neg (by rw [prepTask_state, hrun]; simp)]
    rw [hcur2, hnw, prepTask_quantum] at h2
    refine ⟨hrun, by omega, ?_⟩
    intro j hj hjc hEj
    cases hbest : (switch_scan s now cur rsp).2 with
    | none =>
      have := (switch_best_none_iff s now cur rsp hn hcyc).mp hbest j hj
      rw [this] at hEj
      exact absurd hEj (by simp)
    | some b =>
      obtain ⟨hbn, hbE, hbmin⟩ := switch_best_some_spec s now cur rsp b hn hcyc hbest
      rw [hbest, keepPriorityOk, decide_eq_true_iff] at h3
      have hpc : (tget (switch_scan s now cur rsp).1 cur).priority =
          (tget s.tasks cur).priority := by
        rw [hcur2, wakeTask_priority, prepTask_priority]
      obtain ⟨-, hmem, -⟩ := switch_scan_spec s now cur rsp hn hcyc
      have hpb : (tget (switch_scan s now cur rsp).1 b).priority =
          (tget s.tasks b).priority := by
        rw [hmem b hbn, wakeTask_priority]
        by_cases hbc : cur = b
        · subst hbc; rw [tget_switch_prep_self _ _ _ hn, prepTask_priority]
        · rw [tget_switch_prep_ne _ _ _ _ hbc]
      rw [hpc, hpb] at h3
      have := hbmin j hj hEj
      rw [prioOf, prioOf] at this
      omega
  · rintro ⟨h1, h2, h3⟩
    have hnw : wakeTask now (prepTask (tget s.tasks cur) rsp) =
        prepTask (tget s.tasks cur) rsp := by
      rw [wakeTask, if_neg (by rw [prepTask_state, h1]; simp)]
    refine ⟨hstate.mpr h1, ?_, ?_⟩
    · rw [hcur2, hnw, prepTask_quantum]
      omega
    · cases hbest : (switch_scan s now cur rsp).2 with
      | none => rfl
      | some b =>
        rw [keepPriorityOk, decide_eq_true_iff]
        obtain ⟨hbn, hbE, hbmin⟩ := switch_best_some_spec s now cur rsp b hn hcyc hbest
        have hpc : (tget (switch_scan s now cur rsp).1 cur).priority =
            (tget s.tasks cur).priority := by
          rw [hcur2, wakeTask_priority, prepTask_priority]
        obtain ⟨-, hmem, -⟩ := switch_scan_spec s now cur rsp hn hcyc
        have hpb : (tget (switch_scan s now cur rsp).1 b).priority =
            (tget s.tasks b).priority := by
          rw [hmem b hbn, wakeTask_priority]
          by_cases hbc : cur = b
          · subst hbc; rw [tget_switch_prep_self _ _ _ hn, prepTask_priority]
          · rw [tget_switch_prep_ne _ _ _ _ hbc]
        rw [hpc, hpb]
        by_cases hbc : b = cur
        · subst hbc; omega
        · exact h3 b hbn hbc hbE

end Sched

namespace Sched

theorem switch_result_keep (s : SchedState) (now rsp cur : Nat)
    (hcur : s.current_task = some cur) (hlock : s.sched_lock = false)
    (hsb : (tget s.tasks cur).stack_base = none ∨
      (tget s.tasks cur).stack_base = some STACK_MAGIC)
    (hk : codeKeep s now cur rsp) :
    scheduler_switch s now rsp =
      SwitchResult.done rsp { s with tasks := (switch_scan s now cur rsp).1 } := by
  rw [scheduler_switch_shape s now rsp cur hcur hlock hsb]
  rw [if_pos hk]

theorem switch_result_move (s : SchedState) (now rsp cur b : Nat)
    (hcur : s.current_task = some cur) (hlock : s.sched_lock = false)
    (hsb : (tget s.tasks cur).stack_base = none ∨
      (tget s.tasks cur).stack_base = some STACK_MAGIC)
    (hnk : ¬ codeKeep s now cur rsp)
    (hb : (switch_scan s now cur rsp).2 = some b) (hbne : b ≠ cur) :
    scheduler_switch s now rsp =
      SwitchResult.done
        (tget (promote (demote (switch_scan s now cur rsp).1 cur) b) b).rsp
        { s with
          tasks := promote (demote (switch_scan s now cur rsp).1 cur) b,
          current_task := some b } := by
  rw [scheduler_switch_shape s now rsp cur hcur hlock hsb]
  rw [if_neg hnk, hb]
  simp only [Option.getD_some]
  rw [if_pos hbne]

theorem switch_result_stay (s : SchedState) (now rsp cur : Nat)
    (hcur : s.current_task = some cur) (hlock : s.sched_lock = false)
    (hsb : (tget s.tasks cur).stack_base = none ∨
      (tget s.tasks cur).stack_base = some STACK_MAGIC)
    (hnk : ¬ codeKeep s now cur rsp)
    (hb : (switch_scan s now cur rsp).2.getD cur = cur) :
    scheduler_switch s now rsp =
      SwitchResult.done (tget (switch_scan s now cur rsp).1 cur).rsp
        { s with tasks := (switch_scan s now cur rsp).1 } := by
  rw [scheduler_switch_shape s now rsp cur hcur hlock hsb]
  rw [if_neg hnk, if_neg (by simp [hb])]

theorem switch_never_fault (s : SchedState) (now rsp cur : Nat)
    (hcur : s.current_task = some cur) (hlock : s.sched_lock = false)
    (hsb : (tget s.tasks cur).stack_base = none ∨
      (tget s.tasks cur).stack_base = some STACK_MAGIC) :
    scheduler_switch s now rsp ≠ SwitchResult.fault := by
  rw [scheduler_switch_shape s now rsp cur hcur hlock hsb]
  intro heq
  split_ifs at heq <;> exact SwitchResult.noConfusion heq

theorem switch_fault_of_bad_canary (s : SchedState) (now rsp cur w : Nat)
    (hcur : s.current_task = some cur) (hlock : s.sched_lock = false)
    (hn : cur < s.tasks.length)
    (hw : (tget s.tasks cur).stack_base = some w) (hbad : w ≠ STACK_MAGIC) :
    scheduler_switch s now rsp = SwitchResult.fault := by
  rw [scheduler_switch.eq_def, hcur]
  dsimp only
  rw [hlock]
  rw [if_neg Bool.false_ne_true]
  have hget : (tget (tset s.tasks cur
      ({ (tget s.tasks cur) with rsp := rsp, cpu_time := add64 (tget s.tasks cur).cpu_time 1 }))
      cur).stack_base = some w := by
    rw [tget_tset_self _ _ _ hn]
    exact hw
  have hcan : canaryBad (tget (tset s.tasks cur
      ({ (tget s.tasks cur) with rsp := rsp, cpu_time := add64 (tget s.tasks cur).cpu_time 1 }))
      cur) = true := by
    rw [canaryBad.eq_def, hget]
    simp [hbad]
  rw [hcan]
  rw [if_pos rfl]

end Sched

namespace Sched

instance (ts : List Task) (start : Nat) : Decidable (SchedCycle ts start) := by
  unfold SchedCycle
  infer_instance

/-! ## Claim C9: stack-canary checking -/

/-- C9 as stated: corruption of ANY task's canary makes the next
`scheduler_switch` panic before completing. -/
def canaryPanicsClaim : Prop :=
  ∀ (s : SchedState) (now rsp cur : Nat),
    s.current_task = some cur → s.sched_lock = false →
    cur < s.tasks.length →
    SchedCycle s.tasks ((tget s.tasks cur).next) →
    (∃ i w, i < s.tasks.length ∧ (tget s.tasks i).stack_base = some w ∧ w ≠ STACK_MAGIC) →
    scheduler_switch s now rsp = SwitchResult.fault

/-- A healthy RUNNING current task (slot 0). -/
def t9cur : Task :=
  ⟨0, 0, TASK_RUNNING, 0, 10, 5, 5, 0, 0, some STACK_MAGIC, 1⟩

/-- A READY task (slot 1) whose canary word has been overwritten with 0. -/
def t9corrupt : Task :=
  ⟨100, 1, TASK_READY, 0, 20, 20, 20, 0, 0, some 0, 0⟩

def c9State : SchedState := ⟨[t9cur, t9corrupt], some 0, false⟩

/-- Counterexample to C9 as stated: with the corrupted canary on the
non-current task 1, `scheduler_switch` completes normally (the code checks
only `current_task`'s canary). -/
theorem canaryPanicsClaim_false : ¬ canaryPanicsClaim := by
  intro h
  have hres := h c9State 0 7 0 rfl rfl (by decide) (by decide)
    ⟨1, 0, by decide, by decide, by decide⟩
  exact absurd hres (by decide)

/-- C9 as amended: on every invocation with an unlocked scheduler and a
current task, the canary of the CURRENT task is verified: a corrupt word
panics before the switch completes, and a NULL stack base or an intact
canary never panics.  (A corrupt canary on a non-current task is not
detected — see the counterexample.) -/
theorem canary_check_current (s : SchedState) (now rsp cur : Nat)
    (hcur : s.current_task = some cur) (hlock : s.sched_lock = false)
    (hn : cur < s.tasks.length) :
    (∀ w, (tget s.tasks cur).stack_base = some w → w ≠ STACK_MAGIC →
      scheduler_switch s now rsp = SwitchResult.fault) ∧
    (((tget s.tasks cur).stack_base = none ∨
      (tget s.tasks cur).stack_base = some STACK_MAGIC) →
      scheduler_switch s now rsp ≠ SwitchResult.fault) := by
  constructor
  · intro w hw hbad
    exact switch_fault_of_bad_canary s now rsp cur w hcur hlock hn hw hbad
  · intro hsb
    exact switch_never_fault s now rsp cur hcur hlock hsb

/-- A single-task state whose current (and only) task has a corrupt
canary. -/
def c9BadState : SchedState :=
  ⟨[⟨0, 0, TASK_RUNNING, 0, 10, 5, 5, 0, 0, some 0, 0⟩], some 0, false⟩

/-- Witness for the amended C9 at concrete states: the corrupt current
canary faults, the healthy current canary does not. -/
theorem canary_check_current_witness :
    scheduler_switch c9BadState 0 7 = SwitchResult.fault ∧
    scheduler_switch c9State 0 7 ≠ SwitchResult.fault :=
  ⟨(canary_check_current c9BadState 0 7 0 rfl rfl (by decide)).1 0 (by decide) (by decide),
   (canary_check_current c9State 0 7 0 rfl rfl (by decide)).2 (Or.inr (by decide))⟩

end Sched

namespace Sched

theorem demote_length (ts : List Task) (cur : Nat) :
    (demote ts cur).length = ts.length := by
  rw [demote]; split_ifs <;> simp [tset_length]

theorem promote_length (ts : List Task) (b : Nat) :
    (promote ts b).length = ts.length := tset_length _ _ _

theorem tget_demote_ne (ts : List Task) (cur j : Nat) (h : cur ≠ j) :
    tget (demote ts cur) j = tget ts j := by
  rw [demote]
  split_ifs with hs
  · exact tget_tset_ne _ _ _ _ h
  · rfl

theorem demote_of_not_running (ts : List Task) (cur : Nat)
    (h : (tget ts cur).state ≠ TASK_RUNNING) : demote ts cur = ts := by
  rw [demote, if_neg h]

theorem tget_promote_ne (ts : List Task) (b j : Nat) (h : b ≠ j) :
    tget (promote ts b) j = tget ts j := tget_tset_ne _ _ _ _ h

theorem tget_promote_self (ts : List Task) (b : Nat) (h : b < ts.length) :
    tget (promote ts b) b =
      { (tget ts b) with state := TASK_RUNNING, quantum := (tget ts b).base_quantum } :=
  tget_tset_self _ _ _ h

theorem wakeTask_noop_of_not_expired (now : Nat) (t : Task)
    (h : now < t.sleep_expiry) : wakeTask now t = t := by
  rw [wakeTask, if_neg (by intro hc; omega)]

theorem wakeTask_wakes (now : Nat) (t : Task) (hs : t.state = TASK_SLEEPING)
    (h : t.sleep_expiry ≤ now) :
    wakeTask now t = { t with state := TASK_READY, quantum := t.base_quantum } := by
  rw [wakeTask, if_pos ⟨hs, h⟩]

end Sched

namespace Sched

/-- Outcome inversion for a completed `scheduler_switch`: either the
current task keeps the CPU (tasks updated by the scan only), or a distinct
best candidate was selected and promoted. -/
theorem switch_done_inversion (s : SchedState) (now rsp cur r : Nat) (s' : SchedState)
    (hcur : s.current_task = some cur) (hlock : s.sched_lock = false)
    (hn : cur < s.tasks.length)
    (heq : scheduler_switch s now rsp = SwitchResult.done r s') :
    (s'.tasks = (switch_scan s now cur rsp).1 ∧ s'.current_task = some cur) ∨
    (∃ b, b ≠ cur ∧ (switch_scan s now cur rsp).2 = some b ∧
      s'.tasks = promote (demote (switch_scan s now cur rsp).1 cur) b ∧
      s'.current_task = some b) := by
  by_cases hsb : (tget s.tasks cur).stack_base = none ∨
      (tget s.tasks cur).stack_base = some STACK_MAGIC
  · by_cases hk : codeKeep s now cur rsp
    · rw [switch_result_keep s now rsp cur hcur hlock hsb hk] at heq
      injection heq with h1 h2
      rw [← h2, hcur]
      exact Or.inl ⟨rfl, rfl⟩
    · cases hbest : (switch_scan s now cur rsp).2 with
      | none =>
        rw [switch_result_stay s now rsp cur hcur hlock hsb hk (by rw [hbest]; rfl)] at heq
        injection heq with h1 h2
        rw [← h2, hcur]
        exact Or.inl ⟨rfl, rfl⟩
      | some b =>
        by_cases hbc : b = cur
        · rw [switch_result_stay s now rsp cur hcur hlock hsb hk
            (by rw [hbest]; simpa using hbc)] at heq
          injection heq with h1 h2
          rw [← h2, hcur]
          exact Or.inl ⟨rfl, rfl⟩
        · rw [switch_result_move s now rsp cur b hcur hlock hsb hk hbest hbc] at heq
          injection heq with h1 h2
          rw [← h2]
          exact Or.inr ⟨b, hbc, rfl, rfl, rfl⟩
  · rcases hcase : (tget s.tasks cur).stack_base with _ | w
    · exact absurd (Or.inl hcase) hsb
    · have hbad : w ≠ STACK_MAGIC := by
        intro hwm
        exact hsb (Or.inr (by rw [hcase, hwm]))
      rw [switch_fault_of_bad_canary s now rsp cur w hcur hlock hn hcase hbad] at heq
      exact SwitchResult.noConfusion heq

end Sched

namespace Sched

/-! ## Claim C6: sleeping tasks -/

/-- C6: (a) a task SLEEPING with `now < sleep_expiry` stays SLEEPING across
`scheduler_switch` and is never selected as the new current task; (b) a
task SLEEPING with `now ≥ sleep_expiry` is woken by the scan: it leaves the
switch READY (or RUNNING, if it was also selected) with its quantum reset
to its `base_quantum`; (c) `sleep(ms)` itself marks the caller SLEEPING
with `sleep_expiry = now + ms` (64-bit add) before yielding. -/
theorem sleep_and_wake_behaviour (s : SchedState) (now rsp cur : Nat)
    (hcur : s.current_task = some cur) (hlock : s.sched_lock = false)
    (hn : cur < s.tasks.length)
    (hcyc : SchedCycle s.tasks ((tget s.tasks cur).next)) :
    (∀ i, i < s.tasks.length → (tget s.tasks i).state = TASK_SLEEPING →
      now < (tget s.tasks i).sleep_expiry →
      ∀ r s', scheduler_switch s now rsp = SwitchResult.done r s' →
        (tget s'.tasks i).state = TASK_SLEEPING ∧
        (s'.current_task = some i → cur = i)) ∧
    (∀ i, i < s.tasks.length → (tget s.tasks i).state = TASK_SLEEPING →
      (tget s.tasks i).sleep_expiry ≤ now →
      ∀ r s', scheduler_switch s now rsp = SwitchResult.done r s' →
        ((tget s'.tasks i).state = TASK_READY ∨ (tget s'.tasks i).state = TASK_RUNNING) ∧
        (tget s'.tasks i).quantum = (tget s.tasks i).base_quantum) ∧
    (∀ ms, (tget (sleep s now ms).tasks cur).state = TASK_SLEEPING ∧
      (tget (sleep s now ms).tasks cur).sleep_expiry = add64 now ms) := by
  obtain ⟨hlen2, hmem, -⟩ := switch_scan_spec s now cur rsp hn hcyc
  refine ⟨?_, ?_, ?_⟩
  · -- (a) not yet expired
    intro i hi hsleep hexp r s' heq
    have hts1 : (tget (switch_prep s.tasks cur rsp) i).state = TASK_SLEEPING ∧
        (tget (switch_prep s.tasks cur rsp) i).sleep_expiry =
          (tget s.tasks i).sleep_expiry := by
      by_cases hic : cur = i
      · subst hic
        rw [tget_switch_prep_self _ _ _ hn, prepTask_state, prepTask_sleep_expiry]
        exact ⟨hsleep, rfl⟩
      · rw [tget_switch_prep_ne _ _ _ _ hic]
        exact ⟨hsleep, rfl⟩
    have hts2 : tget (switch_scan s now cur rsp).1 i =
        tget (switch_prep s.tasks cur rsp) i := by
      rw [hmem i hi, wakeTask_noop_of_not_expired]
      rw [hts1.2]
      exact hexp
    have hst2 : (tget (switch_scan s now cur rsp).1 i).state = TASK_SLEEPING := by
      rw [hts2]; exact hts1.1
    have heligi : eligB now s.tasks i = false := by
      simp [eligB, wakeTask_noop_of_not_expired now _ hexp, hsleep]
    rcases switch_done_inversion s now rsp cur r s' hcur hlock hn heq with
      ⟨htk, hcr⟩ | ⟨b, hbc, hbest, htk, hcr⟩
    · refine ⟨by rw [htk]; exact hst2, fun h' => ?_⟩
      rw [hcr] at h'
      exact Option.some_injective _ h'
    · obtain ⟨hbn, hbE, -⟩ := switch_best_some_spec s now cur rsp b hn hcyc hbest
      have hbi : b ≠ i := by
        intro hbi
        rw [hbi, heligi] at hbE
        exact Bool.noConfusion hbE
      refine ⟨?_, fun h' => ?_⟩
      · rw [htk, tget_promote_ne _ _ _ hbi]
        by_cases hic : cur = i
        · subst hic
          rw [demote_of_not_running _ _ (by rw [hst2]; decide)]
          exact hst2
        · rw [tget_demote_ne _ _ _ hic]
          exact hst2
      · rw [hcr] at h'
        exact absurd (Option.some_injective _ h') hbi
  · -- (b) expired: woken with quantum reloaded
    intro i hi hsleep hexp r s' heq
    have hts1 : (tget (switch_prep s.tasks cur rsp) i).state = TASK_SLEEPING ∧
        (tget (switch_prep s.tasks cur rsp) i).sleep_expiry =
          (tget s.tasks i).sleep_expiry ∧
        (tget (switch_prep s.tasks cur rsp) i).base_quantum =
          (tget s.tasks i).base_quantum := by
      by_cases hic : cur = i
      · subst hic
        rw [tget_switch_prep_self _ _ _ hn, prepTask_state, prepTask_sleep_expiry,
          prepTask_base_quantum]
        exact ⟨hsleep, rfl, rfl⟩
      · rw [tget_switch_prep_ne _ _ _ _ hic]
        exact ⟨hsleep, rfl, rfl⟩
    have hts2 : tget (switch_scan s now cur rsp).1 i = { (tget (switch_prep s.tasks cur rsp) i) with state := TASK_READY, quantum := (tget (switch_prep s.tasks cur rsp) i).base_quantum } := by
      rw [hmem i hi, wakeTask_wakes now _ hts1.1 (by rw [hts1.2.1]; exact hexp)]
    have hst2 : (tget (switch_scan s now cur rsp).1 i).state = TASK_READY := by
      rw [hts2]
    have hqt2 : (tget (switch_scan s now cur rsp).1 i).quantum =
        (tget s.tasks i).base_quantum := by
      rw [hts2]
      exact hts1.2.2
    have hbt2 : (tget (switch_scan s now cur rsp).1 i).base_quantum =
        (tget s.tasks i).base_quantum := by
      rw [hts2]
      exact hts1.2.2
    rcases switch_done_inversion s now rsp cur r s' hcur hlock hn heq with
      ⟨htk, hcr⟩ | ⟨b, hbc, hbest, htk, hcr⟩
    · exact ⟨by rw [htk]; exact Or.inl hst2, by rw [htk]; exact hqt2⟩
    · obtain ⟨hbn, hbE, -⟩ := switch_best_some_spec s now cur rsp b hn hcyc hbest
      by_cases hbi : b = i
      · subst hbi
        have hlen3 : b < (demote (switch_scan s now cur rsp).1 cur).length := by
          rw [demote_length, hlen2]
          exact hi
        have hd : tget (demote (switch_scan s now cur rsp).1 cur) b =
            tget (switch_scan s now cur rsp).1 b := by
          by_cases hic : cur = b
          · subst hic
            exact congrArg (fun ts => tget ts cur)
              (demote_of_not_running _ _ (by rw [hst2]; decide))
          · exact tget_demote_ne _ _ _ hic
        rw [htk, tget_promote_self _ _ hlen3, hd]
        refine ⟨Or.inr rfl, ?_⟩
        show (tget (switch_scan s now cur rsp).1 b).base_quantum =
          (tget s.tasks b).base_quantum
        exact hbt2
      · refine ⟨?_, ?_⟩ <;> rw [htk, tget_promote_ne _ _ _ hbi]
        · by_cases hic : cur = i
          · subst hic
            rw [demote_of_not_running _ _ (by rw [hst2]; decide)]
            exact Or.inl hst2
          · rw [tget_demote_ne _ _ _ hic]
            exact Or.inl hst2
        · by_cases hic : cur = i
          · subst hic
            rw [demote_of_not_running _ _ (by rw [hst2]; decide)]
            exact hqt2
          · rw [tget_demote_ne _ _ _ hic]
            exact hqt2
  · -- (c) sleep marks the caller
    intro ms
    rw [sleep.eq_def, hcur]
    dsimp only
    rw [tget_tset_self _ _ _ hn]
    exact ⟨rfl, rfl⟩

end Sched

namespace Sched

/-! ## Claim C1: the switch decision -/

/-- C1 as stated: under the keep conditions the switch returns `rsp` with
`current_task` unchanged; otherwise the best READY/RUNNING candidate becomes
current, is set RUNNING, has its quantum reloaded to `base_quantum`, and its
saved rsp is returned. -/
def switchClaim : Prop :=
  ∀ (s : SchedState) (now rsp cur : Nat),
    s.current_task = some cur → s.sched_lock = false →
    cur < s.tasks.length →
    SchedCycle s.tasks ((tget s.tasks cur).next) →
    ((tget s.tasks cur).stack_base = none ∨
      (tget s.tasks cur).stack_base = some STACK_MAGIC) →
    (specKeep s now cur →
      ∃ s', scheduler_switch s now rsp = SwitchResult.done rsp s' ∧
        s'.current_task = some cur) ∧
    (¬ specKeep s now cur →
      ∃ b s', scheduler_switch s now rsp = SwitchResult.done ((tget s'.tasks b).rsp) s' ∧
        s'.current_task = some b ∧
        (tget s'.tasks b).state = TASK_RUNNING ∧
        (tget s'.tasks b).quantum = (tget s'.tasks b).base_quantum)

/-- Current task: RUNNING, priority 10, one quantum tick left, reload value 5. -/
def c1T0 : Task := ⟨0, 0, TASK_RUNNING, 0, 10, 1, 5, 0, 0, some STACK_MAGIC, 1⟩

/-- Other task: READY but at a numerically larger (worse) priority. -/
def c1T1 : Task := ⟨100, 1, TASK_READY, 0, 20, 20, 20, 0, 0, some STACK_MAGIC, 0⟩

def c1State : SchedState := ⟨[c1T0, c1T1], some 0, false⟩

/-- The state `scheduler_switch c1State 0 42` actually produces: the
current task's quantum expired and it is itself the best candidate, so
nothing is demoted or promoted and — against the claim — the quantum is
NOT reloaded (it stays 0). -/
def c1Post : SchedState :=
  ⟨[⟨42, 0, TASK_RUNNING, 0, 10, 0, 5, 0, 1, some STACK_MAGIC, 1⟩, c1T1], some 0, false⟩

/-- Counterexample to C1 as stated: in `c1State` the keep conditions fail
(the quantum after the decrement is 0), the best candidate is the current
task itself, and the code then reloads nothing: the quantum stays 0 while
the claim demands `base_quantum = 5`. -/
theorem switchClaim_false : ¬ switchClaim := by
  intro h
  obtain ⟨-, h2⟩ := h c1State 0 42 0 rfl rfl (by decide) (by decide) (Or.inr (by decide))
  obtain ⟨b, s', heq, hcr, hst, hq⟩ := h2 (by decide)
  have hact : scheduler_switch c1State 0 42 = SwitchResult.done 42 c1Post := by decide
  rw [hact] at heq
  injection heq with h1 h2
  subst h2
  have hb0 : b = 0 := by
    have hx : some 0 = some b := hcr
    exact (Option.some_injective _ hx).symm
  subst hb0
  exact absurd hq (by decide)

set_option maxHeartbeats 1000000 in
/-- C1 as amended: (i) under the keep conditions the switch returns `rsp`
with `current_task` unchanged; (ii) when they fail and the scan's best
READY/RUNNING candidate `b` differs from the current task, `b` — a
minimal-priority candidate — becomes current, is set RUNNING with its
quantum reloaded to its `base_quantum`, and its saved rsp is returned;
(iii) when they fail but the best candidate is the current task itself (or
no candidate exists), the switch returns the just-saved `rsp` with
`current_task` unchanged and the tasks updated by the scan alone — in
particular no quantum reload happens. -/
theorem scheduler_switch_characterisation (s : SchedState) (now rsp cur : Nat)
    (hcur : s.current_task = some cur) (hlock : s.sched_lock = false)
    (hn : cur < s.tasks.length)
    (hcyc : SchedCycle s.tasks ((tget s.tasks cur).next))
    (hsb : (tget s.tasks cur).stack_base = none ∨
      (tget s.tasks cur).stack_base = some STACK_MAGIC) :
    (specKeep s now cur →
      scheduler_switch s now rsp =
        SwitchResult.done rsp { s with tasks := (switch_scan s now cur rsp).1 }) ∧
    (¬ specKeep s now cur →
      ∀ b, (switch_scan s now cur rsp).2 = some b → b ≠ cur →
        eligB now s.tasks b = true ∧
        (∀ j, j < s.tasks.length → eligB now s.tasks j = true →
          (tget s.tasks b).priority ≤ (tget s.tasks j).priority) ∧
        ∃ s', scheduler_switch s now rsp =
            SwitchResult.done ((tget s.tasks b).rsp) s' ∧
          s'.current_task = some b ∧
          (tget s'.tasks b).state = TASK_RUNNING ∧
          (tget s'.tasks b).quantum = (tget s.tasks b).base_quantum) ∧
    (¬ specKeep s now cur →
      ((switch_scan s now cur rsp).2 = none ∨ (switch_scan s now cur rsp).2 = some cur) →
      scheduler_switch s now rsp =
        SwitchResult.done rsp { s with tasks := (switch_scan s now cur rsp).1 }) := by
  obtain ⟨hlen2, hmem, -⟩ := switch_scan_spec s now cur rsp hn hcyc
  have hrsp2 : (tget (switch_scan s now cur rsp).1 cur).rsp = rsp := by
    rw [tget_scan_cur s now cur rsp hn hcyc, wakeTask_rsp, prepTask_rsp]
  refine ⟨?_, ?_, ?_⟩
  · intro hkeep
    exact switch_result_keep s now rsp cur hcur hlock hsb
      ((keep_cond_iff s now cur rsp hn hcyc).mpr hkeep)
  · intro hnk b hb hbne
    obtain ⟨hbn, hbE, hbmin⟩ := switch_best_some_spec s now cur rsp b hn hcyc hb
    have hnck : ¬ codeKeep s now cur rsp :=
      fun hck => hnk ((keep_cond_iff s now cur rsp hn hcyc).mp hck)
    have hcb : cur ≠ b := fun he => hbne he.symm
    have htb : tget (demote (switch_scan s now cur rsp).1 cur) b =
        tget (switch_scan s now cur rsp).1 b := tget_demote_ne _ _ _ hcb
    have hts2b : tget (switch_scan s now cur rsp).1 b =
        wakeTask now (tget s.tasks b) := by
      rw [hmem b hbn, tget_switch_prep_ne _ _ _ _ hcb]
    have hlen3 : b < (demote (switch_scan s now cur rsp).1 cur).length := by
      rw [demote_length, hlen2]
      exact hbn
    have hres := switch_result_move s now rsp cur b hcur hlock hsb hnck hb hbne
    refine ⟨hbE, ?_, ?_⟩
    · intro j hj hEj
      have := hbmin j hj hEj
      rw [prioOf, prioOf] at this
      exact this
    · refine ⟨{ s with
        tasks := promote (demote (switch_scan s now cur rsp).1 cur) b,
        current_task := some b }, ?_, rfl, ?_, ?_⟩
      · rw [hres]
        congr 1
        rw [tget_promote_self _ _ hlen3]
        show (tget (demote (switch_scan s now cur rsp).1 cur) b).rsp = _
        rw [htb, hts2b, wakeTask_rsp]
      · show (tget (promote (demote (switch_scan s now cur rsp).1 cur) b) b).state =
          TASK_RUNNING
        rw [tget_promote_self _ _ hlen3]
      · show (tget (promote (demote (switch_scan s now cur rsp).1 cur) b) b).quantum =
          (tget s.tasks b).base_quantum
        rw [tget_promote_self _ _ hlen3]
        show (tget (demote (switch_scan s now cur rsp).1 cur) b).base_quantum = _
        rw [htb, hts2b, wakeTask_base_quantum]
  · intro hnk hor
    have hnck : ¬ codeKeep s now cur rsp :=
      fun hck => hnk ((keep_cond_iff s now cur rsp hn hcyc).mp hck)
    have hgd : (switch_scan s now cur rsp).2.getD cur = cur := by
      rcases hor with h | h <;> rw [h] <;> rfl
    rw [switch_result_stay s now rsp cur hcur hlock hsb hnck hgd, hrsp2]

/-- Witness for the amended C1: in `c9State` the current task keeps the
CPU (it is RUNNING, has quantum left, and holds the best priority). -/
theorem scheduler_switch_characterisation_witness :
    scheduler_switch c9State 0 7 =
      SwitchResult.done 7 { c9State with tasks := (switch_scan c9State 0 0 7).1 } :=
  (scheduler_switch_characterisation c9State 0 7 0 rfl rfl (by decide) (by decide)
    (Or.inr (by decide))).1 (by decide)

end Sched

namespace Sched

/-- Witness for C6 at a concrete state: `sleep(50)` at tick 3 marks the
current task SLEEPING until tick 53. -/
theorem sleep_and_wake_behaviour_witness :
    (tget (sleep c9State 3 50).tasks 0).state = TASK_SLEEPING ∧
    (tget (sleep c9State 3 50).tasks 0).sleep_expiry = add64 3 50 :=
  (sleep_and_wake_behaviour c9State 3 7 0 rfl rfl (by decide) (by decide)).2.2 50

end Sched

/-! ## Buddy allocator (`src/kernel/buddy.c`)

Memory holding `struct buddy_block` headers becomes a partial map from
absolute addresses to header records (`none` = memory that holds no valid
header; reading it fails the magic check).  The `next`-threaded free lists
become explicit per-level lists of block addresses: pushing is consing,
the C unlink walk is `List.erase` (a no-op when absent, as in C).  Writing
a single header field of unknown memory materialises an otherwise-zero
header (`default`); such writes only happen behind the magic checks.
Pointer arithmetic is on `Nat` (C wraps `uint64_t`; all addresses of
interest satisfy `heap_start ≤ addr`). -/

namespace Buddy

def BUDDY_MIN_SIZE : Nat := 4096
def BUDDY_MAX_LEVELS : Nat := 8
def BLOCK_MAGIC : Nat := 0xB0DD1C0FFE
/-- `sizeof(struct buddy_block)`: next (8) + level (4) + is_free (4) + magic (8). -/
def hdrSize : Nat := 24

/-- `struct buddy_block` metadata (the `next` pointer lives in the explicit
free lists instead). -/
structure BuddyBlockHdr where
  level : Nat
  is_free : Bool
  magic : Nat
  deriving DecidableEq, Repr

instance : Inhabited BuddyBlockHdr := ⟨⟨0, false, 0⟩⟩

structure BuddyState where
  heap_start : Nat
  heap_size : Nat
  hdr : Nat → Option BuddyBlockHdr
  free_lists : Nat → List Nat
  bytes_allocated : Nat

def setHdr (m : Nat → Option BuddyBlockHdr) (a : Nat) (h : BuddyBlockHdr) :
    Nat → Option BuddyBlockHdr :=
  fun x => if x = a then some h else m x

def setFL (fl : Nat → List Nat) (l : Nat) (v : List Nat) : Nat → List Nat :=
  fun x => if x = l then v else fl x

def BuddyState.writeHdr (s : BuddyState) (a : Nat) (h : BuddyBlockHdr) : BuddyState :=
  { s with hdr := setHdr s.hdr a h }

def BuddyState.setFree (s : BuddyState) (l : Nat) (v : List Nat) : BuddyState :=
  { s with free_lists := setFL s.free_lists l v }

/-- `block->level = lvl` (a single-field write). -/
def hdr_set_level (s : BuddyState) (a lvl : Nat) : BuddyState :=
  s.writeHdr a { (s.hdr a).getD default with level := lvl }

/-- `block->is_free = b` (a single-field write). -/
def hdr_set_free (s : BuddyState) (a : Nat) (b : Bool) : BuddyState :=
  s.writeHdr a { (s.hdr a).getD default with is_free := b }

/-- `level_to_size` from src/kernel/buddy.c. -/
def level_to_size (level : Nat) : Nat := BUDDY_MIN_SIZE <<< level

/-- The loop of `size_to_level`.  The loop guard `level < BUDDY_MAX_LEVELS - 1`
bounds the iteration count, so recursion is structural on a fuel that the
callers choose large enough (≥ `BUDDY_MAX_LEVELS`) never to run out. -/
def size_to_level_go (size : Nat) : Nat → Nat → Nat → Nat
  | 0, _, level => level
  | fuel + 1, block_size, level =>
    if block_size < size ∧ level < BUDDY_MAX_LEVELS - 1 then
      size_to_level_go size fuel (block_size <<< 1) (level + 1)
    else level

/-- `size_to_level` from src/kernel/buddy.c (header overhead included). -/
def size_to_level (size : Nat) : Nat :=
  size_to_level_go (size + hdrSize) BUDDY_MAX_LEVELS BUDDY_MIN_SIZE 0

/-- `get_buddy` from src/kernel/buddy.c: XOR of the heap offset with the
level's block size. -/
def get_buddy (s : BuddyState) (block level : Nat) : Nat :=
  s.heap_start + ((block - s.heap_start) ^^^ level_to_size level)

/-- `split_block` from src/kernel/buddy.c: write the new buddy header at
the midpoint, demote the block, push buddy then block onto the lower
list. -/
def split_block (s : BuddyState) (block level : Nat) : BuddyState :=
  if level = 0 then s
  else
    let half_size := level_to_size (level - 1)
    let buddy := block + half_size
    let s1 := s.writeHdr buddy ⟨level - 1, true, BLOCK_MAGIC⟩
    let s2 := hdr_set_level s1 block (level - 1)
    let s3 := s2.setFree (level - 1) (buddy :: s2.free_lists (level - 1))
    s3.setFree (level - 1) (block :: s3.free_lists (level - 1))

/-- The loop of `buddy_init` computing the largest level fitting the heap
(fuel-structural; the guard `max_level < BUDDY_MAX_LEVELS - 1` bounds the
iterations below the fuel passed by `buddy_init`). -/
def buddy_max_level_go (size : Nat) : Nat → Nat → Nat → Nat
  | 0, _, max_level => max_level
  | fuel + 1, max_block_size, max_level =>
    if max_block_size <<< 1 ≤ size ∧ max_level < BUDDY_MAX_LEVELS - 1 then
      buddy_max_level_go size fuel (max_block_size <<< 1) (max_level + 1)
    else max_level

/-- `buddy_init` from src/kernel/buddy.c: reset the lists, install one
root block of the largest fitting level. -/
def buddy_init (start size : Nat) : BuddyState :=
  let max_level := buddy_max_level_go size BUDDY_MAX_LEVELS BUDDY_MIN_SIZE 0
  { heap_start := start
    heap_size := size
    hdr := setHdr (fun _ => none) start ⟨max_level, true, BLOCK_MAGIC⟩
    free_lists := setFL (fun _ => []) max_level [start]
    bytes_allocated := 0 }

/-- The search loop of `buddy_alloc`:
`while (search < BUDDY_MAX_LEVELS && !free_lists[search]) search++`
(fuel-structural; the guard `search < BUDDY_MAX_LEVELS` bounds the
iterations below the fuel passed by `buddy_alloc`). -/
def find_level_go (fl : Nat → List Nat) : Nat → Nat → Nat
  | 0, search => search
  | fuel + 1, search =>
    if search < BUDDY_MAX_LEVELS ∧ fl search = [] then
      find_level_go fl fuel (search + 1)
    else search

/-- `block = free_lists[l]; free_lists[l] = block->next` (the head pop;
the empty case is unreachable behind the search guard). -/
def popFL (s : BuddyState) (l : Nat) : Nat × BuddyState :=
  match s.free_lists l with
  | [] => (0, s)
  | b :: rest => (b, s.setFree l rest)

/-- The downward split loop of `buddy_alloc` (fuel-structural; the loop
runs `search - level` times, below the fuel passed by `buddy_alloc`). -/
def alloc_split_go : Nat → BuddyState → Nat → Nat → Nat → Nat × BuddyState
  | 0, s, block, _, _ => (block, s)
  | fuel + 1, s, block, search, level =>
    if level < search then
      let s1 := split_block s block search
      let p := popFL s1 (search - 1)
      alloc_split_go fuel p.2 p.1 (search - 1) level
    else (block, s)

/-- `buddy_alloc` from src/kernel/buddy.c. -/
def buddy_alloc (s : BuddyState) (size : Nat) : Option Nat × BuddyState :=
  if size = 0 ∨ size > s.heap_size then (none, s)
  else
    let level := size_to_level size
    let search := find_level_go s.free_lists (BUDDY_MAX_LEVELS + 1) level
    if search ≥ BUDDY_MAX_LEVELS then (none, s)
    else
      let p1 := popFL s search
      let p2 := alloc_split_go BUDDY_MAX_LEVELS p1.2 p1.1 search level
      let s3 := hdr_set_free p2.2 p2.1 false
      let s4 := { s3 with bytes_allocated := add64 s3.bytes_allocated (level_to_size level) }
      (some (p2.1 + hdrSize), s4)

/-- The coalescing loop of `buddy_free`; returns the post state together
with the final merged block address and level (fuel-structural; the guard
`level < BUDDY_MAX_LEVELS - 1` bounds the iterations below the fuel
passed by `buddy_free`). -/
def coalesce : Nat → BuddyState → Nat → Nat → BuddyState × Nat × Nat
  | 0, s, block, level => (s, block, level)
  | fuel + 1, s, block, level =>
    if level < BUDDY_MAX_LEVELS - 1 then
      let buddy_addr := get_buddy s block level
      if buddy_addr < s.heap_start ∨ buddy_addr ≥ s.heap_start + s.heap_size then
        (s, block, level)
      else
        match s.hdr buddy_addr with
        | none => (s, block, level)
        | some hb =>
          if hb.magic ≠ BLOCK_MAGIC ∨ hb.is_free = false ∨ hb.level ≠ level then
            (s, block, level)
          else
            let s1 := s.setFree level ((s.free_lists level).erase buddy_addr)
            let block1 := if buddy_addr < block then buddy_addr else block
            let level1 := level + 1
            let s2 := hdr_set_level s1 block1 level1
            coalesce fuel s2 block1 level1
    else (s, block, level)

/-- `buddy_free` from src/kernel/buddy.c. -/
def buddy_free (s : BuddyState) (ptr : Nat) : BuddyState :=
  if ptr = 0 then s
  else
    let block := ptr - hdrSize
    match s.hdr block with
    | none => s
    | some h =>
      if h.magic ≠ BLOCK_MAGIC then s
      else if h.is_free then s
      else
        let level := h.level
        let s1 := { s with bytes_allocated := sub64 s.bytes_allocated (level_to_size level) }
        let r := coalesce BUDDY_MAX_LEVELS s1 block level
        let s3 := hdr_set_free r.1 r.2.1 true
        s3.setFree r.2.2 (r.2.1 :: s3.free_lists r.2.2)

/-- `buddy_stats` from src/kernel/buddy.c: `(total, used, free)`. -/
def buddy_stats (s : BuddyState) : Nat × Nat × Nat :=
  (s.heap_size, s.bytes_allocated, sub64 s.heap_size s.bytes_allocated)

end Buddy

namespace Buddy

/-! ### C4: the double-free rejection is defeated by coalescing

Trace on an 8 KiB heap at address 0: two 100-byte allocations return
payload pointers 24 and 4120.  Freeing 24 and then 4120 coalesces the
pair back into the level-1 root, rewriting only the header at 0; the
stale header at 4096 still reads `is_free = 0` with a valid magic.  A
second `buddy_free(4120)` therefore passes both security checks and
mutates the state: `bytes_allocated` wraps to `2^64 - 4096` and the
already-merged half is pushed onto the level-0 free list. -/

def c4s0 : BuddyState := buddy_init 0 8192
def c4a : Option Nat × BuddyState := buddy_alloc c4s0 100
def c4b : Option Nat × BuddyState := buddy_alloc c4a.2 100
/-- State after freeing the first allocation. -/
def c4f1 : BuddyState := buddy_free c4b.2 24
/-- State after the first (legitimate) free of payload 4120. -/
def c4f2 : BuddyState := buddy_free c4f1 4120
/-- State after freeing payload 4120 a second time. -/
def c4f3 : BuddyState := buddy_free c4f2 4120

/-- C4: refuted as stated — `buddy_free` does reject a wrong magic or an
`is_free` header, but freeing the same valid allocation twice is NOT
idempotent.  After `free 24; free 4120` the blocks coalesce into the
level-1 root and the stale header at 4096 still shows
`is_free = 0` with a valid magic, so a second `free 4120` passes both
security checks and changes the state: `bytes_allocated` wraps from 0 to
`2^64 - 4096` and address 4096 is pushed onto the level-0 free list
while the root stays on the level-1 list. -/
theorem buddy_double_free_not_idempotent :
    c4a.1 = some 24 ∧ c4b.1 = some 4120 ∧
    c4f2.hdr 4096 = some ⟨0, false, BLOCK_MAGIC⟩ ∧
    c4f2.bytes_allocated = 0 ∧ c4f2.free_lists 0 = [] ∧ c4f2.free_lists 1 = [0] ∧
    c4f3.bytes_allocated = 2 ^ 64 - 4096 ∧ c4f3.free_lists 0 = [4096] ∧
    c4f3.hdr 4096 = some ⟨0, true, BLOCK_MAGIC⟩ := by
  refine ⟨by decide, by decide, by decide, by decide, by decide, by decide, ?_, by decide, by decide⟩
  decide

end Buddy

namespace Buddy

/-! ### C3: no two free buddies at the same level after `buddy_free` -/

/-- Projection facts: free-list writes leave the heap geometry and the
headers alone; header writes leave the geometry and the lists alone. -/
theorem setFree_hdr (s : BuddyState) (l : Nat) (v : List Nat) :
    (s.setFree l v).hdr = s.hdr := rfl

theorem setFree_heap_start (s : BuddyState) (l : Nat) (v : List Nat) :
    (s.setFree l v).heap_start = s.heap_start := rfl

theorem setFree_heap_size (s : BuddyState) (l : Nat) (v : List Nat) :
    (s.setFree l v).heap_size = s.heap_size := rfl

theorem writeHdr_heap_start (s : BuddyState) (a : Nat) (h : BuddyBlockHdr) :
    (s.writeHdr a h).heap_start = s.heap_start := rfl

theorem writeHdr_heap_size (s : BuddyState) (a : Nat) (h : BuddyBlockHdr) :
    (s.writeHdr a h).heap_size = s.heap_size := rfl

theorem writeHdr_free_lists (s : BuddyState) (a : Nat) (h : BuddyBlockHdr) :
    (s.writeHdr a h).free_lists = s.free_lists := rfl

theorem setHdr_self (m : Nat → Option BuddyBlockHdr) (a : Nat) (h : BuddyBlockHdr) :
    setHdr m a h a = some h := by simp [setHdr]

theorem setHdr_ne (m : Nat → Option BuddyBlockHdr) (a : Nat) (h : BuddyBlockHdr)
    {x : Nat} (hx : x ≠ a) : setHdr m a h x = m x := by simp [setHdr, hx]

theorem level_to_size_pos (l : Nat) : 0 < level_to_size l := by
  unfold level_to_size BUDDY_MIN_SIZE
  rw [Nat.shiftLeft_eq]
  positivity

/-- `n ^^^ m = n` forces `m = 0`. -/
theorem xor_eq_self (n m : Nat) (h : n ^^^ m = n) : m = 0 := by
  have : n ^^^ (n ^^^ m) = n ^^^ n := by rw [h]
  rwa [← Nat.xor_assoc, Nat.xor_self, Nat.zero_xor] at this

/-- A block inside the heap is never its own buddy. -/
theorem get_buddy_ne (s : BuddyState) (x l : Nat) (hx : s.heap_start ≤ x) :
    get_buddy s x l ≠ x := by
  unfold get_buddy
  intro h
  have h' : (x - s.heap_start) ^^^ level_to_size l = x - s.heap_start := by omega
  have := xor_eq_self _ _ h'
  have := level_to_size_pos l
  omega

/-- Taking the buddy is an involution on addresses at or above
`heap_start`. -/
theorem get_buddy_invol (s : BuddyState) (x l : Nat) (hx : s.heap_start ≤ x) :
    get_buddy s (get_buddy s x l) l = x := by
  unfold get_buddy
  rw [Nat.add_sub_cancel_left, Nat.xor_assoc, Nat.xor_self, Nat.xor_zero]
  omega

theorem get_buddy_congr (s' s : BuddyState) (x l : Nat)
    (h : s'.heap_start = s.heap_start) : get_buddy s' x l = get_buddy s x l := by
  unfold get_buddy; rw [h]

/-- `x` is (claimed by its header to be) a free block of level `lvl`
inside the heap. -/
def freeAt (s : BuddyState) (x lvl : Nat) : Prop :=
  s.heap_start ≤ x ∧ x < s.heap_start + s.heap_size ∧
  s.hdr x = some ⟨lvl, true, BLOCK_MAGIC⟩

instance (s : BuddyState) (x lvl : Nat) : Decidable (freeAt s x lvl) := by
  unfold freeAt; infer_instance

theorem freeAt_congr (s' s : BuddyState) (x lvl : Nat)
    (h1 : s'.heap_start = s.heap_start) (h2 : s'.heap_size = s.heap_size)
    (h3 : s'.hdr x = s.hdr x) : freeAt s' x lvl ↔ freeAt s x lvl := by
  unfold freeAt; rw [h1, h2, h3]

/-- The C3 invariant: below the top level, no in-heap block and its buddy
are both free at that same level. -/
def NoFreeBuddyPair (s : BuddyState) : Prop :=
  ∀ lvl, lvl < BUDDY_MAX_LEVELS - 1 → ∀ x, x < s.heap_start + s.heap_size →
    freeAt s x lvl → ¬ freeAt s (get_buddy s x lvl) lvl

instance (s : BuddyState) : Decidable (NoFreeBuddyPair s) := by
  unfold NoFreeBuddyPair; infer_instance

/-- The block being coalesced has a valid-magic header carrying the
loop's current level. -/
def HdrAt (s : BuddyState) (b l : Nat) : Prop :=
  ∃ hh, s.hdr b = some hh ∧ hh.magic = BLOCK_MAGIC ∧ hh.level = l

/-- All free buddy pairs involve the block `b` being coalesced. -/
def PairFreeExcept (s : BuddyState) (b : Nat) : Prop :=
  ∀ lvl, lvl < BUDDY_MAX_LEVELS - 1 → ∀ x, freeAt s x lvl →
    freeAt s (get_buddy s x lvl) lvl → x = b ∨ get_buddy s x lvl = b

end Buddy

namespace Buddy

/-- Loop invariant of the coalescing loop: the merged block keeps a
valid-magic header at the loop's level, every free buddy pair keeps
involving the merged block, and on exit either the top level was reached
or the final block's buddy is not free at the final level. -/
theorem coalesce_spec : ∀ (fuel : Nat) (s : BuddyState) (b l : Nat),
    HdrAt s b l → PairFreeExcept s b → BUDDY_MAX_LEVELS - 1 - l < fuel →
    HdrAt (coalesce fuel s b l).1 (coalesce fuel s b l).2.1 (coalesce fuel s b l).2.2 ∧
    PairFreeExcept (coalesce fuel s b l).1 (coalesce fuel s b l).2.1 ∧
    (BUDDY_MAX_LEVELS - 1 ≤ (coalesce fuel s b l).2.2 ∨
      ¬ freeAt (coalesce fuel s b l).1
        (get_buddy (coalesce fuel s b l).1 (coalesce fuel s b l).2.1 (coalesce fuel s b l).2.2)
        (coalesce fuel s b l).2.2) := by
  intro fuel
  induction fuel with
  | zero =>
    intro s b l _ _ hfuel
    omega
  | succ fuel ih =>
    intro s b l hA hB hfuel
    by_cases hl : l < BUDDY_MAX_LEVELS - 1
    · by_cases hbnd : get_buddy s b l < s.heap_start ∨
        get_buddy s b l ≥ s.heap_start + s.heap_size
      · have hres : coalesce (fuel + 1) s b l = (s, b, l) := by
          simp only [coalesce]
          rw [if_pos hl, if_pos hbnd]
        rw [hres]
        refine ⟨hA, hB, Or.inr ?_⟩
        intro hf
        exact absurd hbnd (by push_neg; exact ⟨hf.1, hf.2.1⟩)
      · cases hh : s.hdr (get_buddy s b l) with
        | none =>
          have hres : coalesce (fuel + 1) s b l = (s, b, l) := by
            simp only [coalesce]
            rw [if_pos hl, if_neg hbnd, hh]
          rw [hres]
          refine ⟨hA, hB, Or.inr ?_⟩
          intro hf
          rw [hf.2.2] at hh
          cases hh
        | some hb_ =>
          by_cases hval : hb_.magic ≠ BLOCK_MAGIC ∨ hb_.is_free = false ∨ hb_.level ≠ l
          · have hres : coalesce (fuel + 1) s b l = (s, b, l) := by
              simp only [coalesce]
              rw [if_pos hl, if_neg hbnd, hh]
              dsimp only
              rw [if_pos hval]
            rw [hres]
            refine ⟨hA, hB, Or.inr ?_⟩
            intro hf
            have hbeq : hb_ = ⟨l, true, BLOCK_MAGIC⟩ :=
              Option.some_injective _ (hh.symm.trans hf.2.2)
            subst hbeq
            simp at hval
          · have hres : coalesce (fuel + 1) s b l =
                coalesce fuel
                  (hdr_set_level
                    (BuddyState.setFree s l ((s.free_lists l).erase (get_buddy s b l)))
                    (if get_buddy s b l < b then get_buddy s b l else b) (l + 1))
                  (if get_buddy s b l < b then get_buddy s b l else b) (l + 1) := by
              simp only [coalesce]
              rw [if_pos hl, if_neg hbnd, hh]
              dsimp only
              rw [if_neg hval]
            push_neg at hval
            obtain ⟨hmagic, hfree, hlevel⟩ := hval
            have hfree' : hb_.is_free = true := by
              cases hcase : hb_.is_free
              · exact absurd hcase hfree
              · rfl
            have huhdr : s.hdr (get_buddy s b l) = some ⟨l, true, BLOCK_MAGIC⟩ := by
              rw [hh]
              cases hb_
              simp_all
            rw [hres]
            set b1 := if get_buddy s b l < b then get_buddy s b l else b with hb1
            set s1 := BuddyState.setFree s l ((s.free_lists l).erase (get_buddy s b l))
              with hs1
            set s2 := hdr_set_level s1 b1 (l + 1) with hs2
            have hs1hdr : s1.hdr = s.hdr := rfl
            have hs2start : s2.heap_start = s.heap_start := rfl
            have hs2size : s2.heap_size = s.heap_size := rfl
            have hb1hdr : ∃ hh0, s.hdr b1 = some hh0 ∧ hh0.magic = BLOCK_MAGIC := by
              rw [hb1]
              by_cases hub : get_buddy s b l < b
              · rw [if_pos hub]
                exact ⟨_, huhdr, rfl⟩
              · rw [if_neg hub]
                obtain ⟨hh0, h1, h2, _⟩ := hA
                exact ⟨hh0, h1, h2⟩
            obtain ⟨hh0, hb1some, hb1magic⟩ := hb1hdr
            have hs2hdrb1 : s2.hdr b1 = some { hh0 with level := l + 1 } := by
              rw [hs2]
              show setHdr s1.hdr b1 _ b1 = _
              rw [setHdr_self, hs1hdr, hb1some]
              rfl
            have hs2hdrne : ∀ x, x ≠ b1 → s2.hdr x = s.hdr x := by
              intro x hx
              rw [hs2]
              show setHdr s1.hdr b1 _ x = _
              rw [setHdr_ne _ _ _ hx, hs1hdr]
            have hA2 : HdrAt s2 b1 (l + 1) :=
              ⟨{ hh0 with level := l + 1 }, hs2hdrb1, hb1magic, rfl⟩
            have hB2 : PairFreeExcept s2 b1 := by
              intro lvl hlvl x hx hgx
              have hgb2 : ∀ y m, get_buddy s2 y m = get_buddy s y m := fun y m =>
                get_buddy_congr _ _ _ _ hs2start
              rw [hgb2] at hgx ⊢
              by_cases hxb1 : x = b1
              · exact Or.inl hxb1
              by_cases hgb1 : get_buddy s x lvl = b1
              · exact Or.inr hgb1
              exfalso
              have hxS : freeAt s x lvl := by
                rw [← freeAt_congr s2 s x lvl hs2start hs2size (hs2hdrne x hxb1)]
                exact hx
              have hgS : freeAt s (get_buddy s x lvl) lvl := by
                rw [← freeAt_congr s2 s _ lvl hs2start hs2size (hs2hdrne _ hgb1)]
                exact hgx
              rcases hB lvl hlvl x hxS hgS with hxb | hgb
              · -- the pair is (b, buddy of b): its buddy is exactly the merged one
                obtain ⟨hh1, hbsome, _, hblevel⟩ := hA
                have hlvl_l : lvl = l := by
                  have := hxS.2.2
                  rw [hxb, hbsome] at this
                  have := Option.some_injective _ this
                  rw [← hblevel, this]
                by_cases hub : get_buddy s b l < b
                · apply hgb1
                  rw [hxb, hlvl_l, hb1, if_pos hub]
                · apply hxb1
                  rw [hxb, hb1, if_neg hub]
              · obtain ⟨hh1, hbsome, _, hblevel⟩ := hA
                have hlvl_l : lvl = l := by
                  have := hgS.2.2
                  rw [hgb, hbsome] at this
                  have := Option.some_injective _ this
                  rw [← hblevel, this]
                have hinv := get_buddy_invol s x lvl hxS.1
                rw [hgb] at hinv
                by_cases hub : get_buddy s b l < b
                · apply hxb1
                  rw [← hinv, hlvl_l, hb1, if_pos hub]
                · apply hgb1
                  rw [hgb, hb1, if_neg hub]
            exact ih s2 b1 (l + 1) hA2 hB2 (by omega)
    · have hres : coalesce (fuel + 1) s b l = (s, b, l) := by
        simp only [coalesce]
        rw [if_neg hl]
      rw [hres]
      exact ⟨hA, hB, Or.inl (show BUDDY_MAX_LEVELS - 1 ≤ l by omega)⟩

end Buddy

namespace Buddy

/-- The tail of `buddy_free` (mark the merged block free and push it)
restores the no-free-buddy-pair invariant from the coalesce loop's
postcondition. -/
theorem free_finish (s1 : BuddyState) (block lvl : Nat)
    (hA : HdrAt s1 block lvl) (hB : PairFreeExcept s1 block) :
    NoFreeBuddyPair
      ((hdr_set_free (coalesce BUDDY_MAX_LEVELS s1 block lvl).1
          (coalesce BUDDY_MAX_LEVELS s1 block lvl).2.1 true).setFree
        (coalesce BUDDY_MAX_LEVELS s1 block lvl).2.2
        ((coalesce BUDDY_MAX_LEVELS s1 block lvl).2.1 ::
          (hdr_set_free (coalesce BUDDY_MAX_LEVELS s1 block lvl).1
            (coalesce BUDDY_MAX_LEVELS s1 block lvl).2.1 true).free_lists
            (coalesce BUDDY_MAX_LEVELS s1 block lvl).2.2)) := by
  obtain ⟨hA', hB', hexit⟩ :=
    coalesce_spec BUDDY_MAX_LEVELS s1 block lvl hA hB
      (show BUDDY_MAX_LEVELS - 1 - lvl < BUDDY_MAX_LEVELS by
        show 8 - 1 - lvl < 8; omega)
  set r := coalesce BUDDY_MAX_LEVELS s1 block lvl with hr
  obtain ⟨hhf, hfsome, hfmagic, hflevel⟩ := hA'
  intro lvl' hlvl' x hxbound hx hgx
  -- the final state: only the header at the merged block changed
  have hs4start : ∀ y m,
      get_buddy ((hdr_set_free r.1 r.2.1 true).setFree r.2.2
        (r.2.1 :: (hdr_set_free r.1 r.2.1 true).free_lists r.2.2)) y m =
      get_buddy r.1 y m := fun y m => get_buddy_congr _ _ _ _ rfl
  have hs4hdr_bf :
      ((hdr_set_free r.1 r.2.1 true).setFree r.2.2
        (r.2.1 :: (hdr_set_free r.1 r.2.1 true).free_lists r.2.2)).hdr r.2.1 =
      some { hhf with is_free := true } := by
    show setHdr r.1.hdr r.2.1 _ r.2.1 = _
    rw [setHdr_self, hfsome]
    rfl
  have hs4hdr_ne : ∀ y, y ≠ r.2.1 →
      ((hdr_set_free r.1 r.2.1 true).setFree r.2.2
        (r.2.1 :: (hdr_set_free r.1 r.2.1 true).free_lists r.2.2)).hdr y =
      r.1.hdr y := by
    intro y hy
    show setHdr r.1.hdr r.2.1 _ y = _
    rw [setHdr_ne _ _ _ hy]
  have hfreeAt_ne : ∀ y m, y ≠ r.2.1 →
      (freeAt ((hdr_set_free r.1 r.2.1 true).setFree r.2.2
        (r.2.1 :: (hdr_set_free r.1 r.2.1 true).free_lists r.2.2)) y m ↔
       freeAt r.1 y m) := fun y m hy =>
    freeAt_congr _ _ y m rfl rfl (hs4hdr_ne y hy)
  -- a free-looking header at the merged block pins the level
  have hlev_of_bf : ∀ m,
      freeAt ((hdr_set_free r.1 r.2.1 true).setFree r.2.2
        (r.2.1 :: (hdr_set_free r.1 r.2.1 true).free_lists r.2.2)) r.2.1 m →
      m = r.2.2 := by
    intro m hm
    have := hm.2.2
    rw [hs4hdr_bf] at this
    have hl2 := congrArg BuddyBlockHdr.level (Option.some_injective _ this)
    rw [← hflevel]
    exact hl2.symm
  by_cases hxbf : x = r.2.1
  · have hlv : lvl' = r.2.2 := hlev_of_bf lvl' (hxbf ▸ hx)
    rcases hexit with htop | hnot
    · omega
    · have hne : get_buddy r.1 r.2.1 r.2.2 ≠ r.2.1 :=
        get_buddy_ne r.1 r.2.1 r.2.2 (by have := hx.1; rwa [hxbf] at this)
      apply hnot
      rw [← hfreeAt_ne _ _ hne]
      rw [hs4start, hxbf, hlv] at hgx
      exact hgx
  · by_cases hgbf : get_buddy r.1 x lvl' = r.2.1
    · rw [hs4start, hgbf] at hgx
      have hlv : lvl' = r.2.2 := hlev_of_bf lvl' hgx
      rcases hexit with htop | hnot
      · omega
      · have hinvx := get_buddy_invol r.1 x lvl' hx.1
        rw [hgbf] at hinvx
        apply hnot
        rw [← hlv, hinvx, ← hfreeAt_ne _ _ hxbf]
        exact hx
    · rw [hs4start] at hgx
      rw [hfreeAt_ne _ _ hxbf] at hx
      rw [hfreeAt_ne _ _ hgbf] at hgx
      rcases hB' lvl' hlvl' x hx hgx with h1 | h1
      · exact hxbf h1
      · exact hgbf h1

end Buddy

namespace Buddy

/-- C3: after every completed call to `buddy_free`, for every level
strictly below the maximum level, no in-heap block and its buddy (the
block whose heap offset differs by exactly that level's block size) are
both free at that same level: free same-level buddy pairs are coalesced
away, given the invariant held before the call. -/
theorem buddy_free_no_free_buddy_pair (s : BuddyState) (ptr : Nat)
    (hinv : NoFreeBuddyPair s) : NoFreeBuddyPair (buddy_free s ptr) := by
  unfold buddy_free
  by_cases hp : ptr = 0
  · rw [if_pos hp]; exact hinv
  rw [if_neg hp]
  dsimp only
  cases hh : s.hdr (ptr - hdrSize) with
  | none => exact hinv
  | some h =>
    dsimp only
    by_cases hm : h.magic ≠ BLOCK_MAGIC
    · rw [if_pos hm]; exact hinv
    rw [if_neg hm]
    by_cases hf : h.is_free = true
    · rw [if_pos hf]; exact hinv
    rw [if_neg hf]
    have hA : HdrAt
        { s with bytes_allocated := sub64 s.bytes_allocated (level_to_size h.level) }
        (ptr - hdrSize) h.level :=
      ⟨h, hh, not_not.mp hm, rfl⟩
    have hB : PairFreeExcept
        { s with bytes_allocated := sub64 s.bytes_allocated (level_to_size h.level) }
        (ptr - hdrSize) :=
      fun lvl hlvl x hx hgx => absurd hgx (hinv lvl hlvl x hx.2.1 hx)
    exact free_finish _ _ _ hA hB

/-- Concrete instantiation of the C3 theorem: the invariant holds for a
freshly initialised heap and is preserved by a `buddy_free` call
(here, the rejected double free of the root block's payload). -/
theorem buddy_free_no_free_buddy_pair_witness :
    NoFreeBuddyPair (buddy_init 0 64) ∧
    NoFreeBuddyPair (buddy_free (buddy_init 0 64) 24) :=
  ⟨by decide, buddy_free_no_free_buddy_pair (buddy_init 0 64) 24 (by decide)⟩

end Buddy

namespace Buddy

/-! ### C5: accounting — arithmetic toolkit -/

theorem level_to_size_eq (l : Nat) : level_to_size l = 4096 * 2 ^ l := by
  unfold level_to_size BUDDY_MIN_SIZE
  rw [Nat.shiftLeft_eq]

theorem level_to_size_two_pow (l : Nat) : level_to_size l = 2 ^ (12 + l) := by
  rw [level_to_size_eq, pow_add]
  norm_num

theorem level_to_size_dvd {l m : Nat} (h : l ≤ m) :
    level_to_size l ∣ level_to_size m := by
  rw [level_to_size_eq, level_to_size_eq]
  exact Nat.mul_dvd_mul_left _ (pow_dvd_pow 2 h)

theorem level_to_size_le {l m : Nat} (h : l ≤ m) :
    level_to_size l ≤ level_to_size m :=
  Nat.le_of_dvd (level_to_size_pos m) (level_to_size_dvd h)

theorem level_to_size_succ (l : Nat) :
    level_to_size (l + 1) = 2 * level_to_size l := by
  rw [level_to_size_eq, level_to_size_eq, pow_succ]
  ring

theorem level_le_of_size_le {l m : Nat} (h : level_to_size l ≤ level_to_size m) :
    l ≤ m := by
  rw [level_to_size_eq, level_to_size_eq] at h
  have h2 := Nat.le_of_mul_le_mul_left h (by norm_num : 0 < 4096)
  exact (Nat.pow_le_pow_iff_right (by norm_num : 1 < 2)).mp h2

theorem xor_mul_pow (a b k : Nat) :
    (a * 2 ^ k) ^^^ (b * 2 ^ k) = (a ^^^ b) * 2 ^ k := by
  apply Nat.eq_of_testBit_eq
  intro i
  rw [← Nat.shiftLeft_eq, ← Nat.shiftLeft_eq, ← Nat.shiftLeft_eq]
  rw [Nat.testBit_xor, Nat.testBit_shiftLeft, Nat.testBit_shiftLeft,
    Nat.testBit_shiftLeft, Nat.testBit_xor]
  cases hd : decide (i ≥ k) <;> simp

theorem two_mul_xor_one (m : Nat) : (2 * m) ^^^ 1 = 2 * m + 1 := by
  apply Nat.eq_of_testBit_eq
  intro i
  cases i with
  | zero =>
    rw [Nat.testBit_xor]
    simp [Nat.testBit_zero, Nat.mul_add_mod]
  | succ j =>
    rw [Nat.testBit_xor]
    rw [Nat.testBit_succ, Nat.testBit_succ, Nat.testBit_succ]
    have h2 : (2 * m) / 2 = m := by omega
    have h3 : (2 * m + 1) / 2 = m := by omega
    have h1 : (1 : Nat) / 2 = 0 := by norm_num
    rw [h2, h3, h1, Nat.zero_testBit]
    simp

theorem two_mul_add_one_xor_one (m : Nat) : (2 * m + 1) ^^^ 1 = 2 * m := by
  have h := two_mul_xor_one m
  have : ((2 * m) ^^^ 1) ^^^ 1 = (2 * m + 1) ^^^ 1 := by rw [h]
  rw [Nat.xor_cancel_right] at this
  exact this.symm

/-- The buddy offset of a `2^k`-aligned offset: also aligned, it is the
other half of the enclosing `2^(k+1)`-block. -/
theorem buddy_offset_spec {o k : Nat} (h : o % 2 ^ k = 0) :
    (o ^^^ 2 ^ k) % 2 ^ k = 0 ∧
    ((o ^^^ 2 ^ k = o + 2 ^ k ∧ o % 2 ^ (k + 1) = 0) ∨
     ((o ^^^ 2 ^ k) + 2 ^ k = o ∧ (o ^^^ 2 ^ k) % 2 ^ (k + 1) = 0)) := by
  obtain ⟨q, hq⟩ := Nat.dvd_of_mod_eq_zero h
  have hq' : o = q * 2 ^ k := by rw [hq]; ring
  have hx : o ^^^ 2 ^ k = (q ^^^ 1) * 2 ^ k := by
    calc o ^^^ 2 ^ k = q * 2 ^ k ^^^ 1 * 2 ^ k := by rw [← hq', one_mul]
    _ = (q ^^^ 1) * 2 ^ k := xor_mul_pow q 1 k
  constructor
  · rw [hx]
    exact Nat.mul_mod_left _ _
  · rcases Nat.even_or_odd q with ⟨m, hm⟩ | ⟨m, hm⟩
    · left
      have hqm : q = 2 * m := by omega
      constructor
      · rw [hx, hqm, two_mul_xor_one, hq']
        rw [hqm]
        ring
      · have : o = m * 2 ^ (k + 1) := by
          rw [hq', hqm, pow_succ]
          ring
        rw [this]
        exact Nat.mul_mod_left _ _
    · right
      have hqm : q = 2 * m + 1 := by omega
      constructor
      · rw [hx, hqm, two_mul_add_one_xor_one, hq', hqm]
        ring
      · rw [hx, hqm, two_mul_add_one_xor_one]
        have : 2 * m * 2 ^ k = m * 2 ^ (k + 1) := by rw [pow_succ]; ring
        rw [this]
        exact Nat.mul_mod_left _ _

/-- Two `d`-aligned values within a distance `< d` of each other are
equal. -/
theorem eq_of_aligned_close {d a b : Nat} (ha : d ∣ a) (hb : d ∣ b)
    (h1 : a ≤ b) (h2 : b < a + d) : a = b := by
  have hd : d ∣ b - a := Nat.dvd_sub' hb ha
  rcases Nat.eq_zero_or_pos (b - a) with hz | hp
  · omega
  · have := Nat.le_of_dvd hp hd
    omega

/-- An aligned `da`-block meeting an aligned `db`-block with `da ∣ db`
lies inside it. -/
theorem aligned_absorb {da db oa ob t : Nat} (hdd : da ∣ db)
    (ha : da ∣ oa) (hb : db ∣ ob)
    (hta : oa ≤ t) (hta2 : t < oa + da) (htb : ob ≤ t) (htb2 : t < ob + db) :
    ob ≤ oa ∧ oa + da ≤ ob + db := by
  have hb' : da ∣ ob := hdd.trans hb
  have hba : ob ≤ oa := by
    by_contra hcon
    push_neg at hcon
    have hd1 : da ∣ ob - oa := Nat.dvd_sub' hb' ha
    have : da ≤ ob - oa := Nat.le_of_dvd (by omega) hd1
    omega
  refine ⟨hba, ?_⟩
  have hd2 : da ∣ (ob + db) - oa := Nat.dvd_sub' (Nat.dvd_add hb' hdd) ha
  have : da ≤ (ob + db) - oa := Nat.le_of_dvd (by omega) hd2
  omega

/-- The heap region a ghost leaf occupies. -/
def interval (p : Nat × Nat) : Finset Nat :=
  Finset.Ico p.1 (p.1 + level_to_size p.2)

theorem mem_interval {p : Nat × Nat} {a : Nat} :
    a ∈ interval p ↔ p.1 ≤ a ∧ a < p.1 + level_to_size p.2 := Finset.mem_Ico

theorem start_mem_interval (p : Nat × Nat) : p.1 ∈ interval p :=
  mem_interval.mpr ⟨le_refl _, by have := level_to_size_pos p.2; omega⟩

theorem card_interval (p : Nat × Nat) : (interval p).card = level_to_size p.2 := by
  rw [interval, Nat.card_Ico]
  omega

/-- Sizes of outstanding ghost leaves. -/
def sumSizes (out : List (Nat × Nat)) : Nat :=
  (out.map (fun p => level_to_size p.2)).sum

theorem sumSizes_cons (p : Nat × Nat) (out : List (Nat × Nat)) :
    sumSizes (p :: out) = level_to_size p.2 + sumSizes out := by
  simp [sumSizes]

/-- Pairwise-disjoint subsets of `U` have total size at most `|U|`. -/
theorem sum_card_le_of_pairwise_disjoint :
    ∀ (L : List (Finset Nat)) (U : Finset Nat), L.Pairwise Disjoint →
      (∀ I ∈ L, I ⊆ U) → (L.map Finset.card).sum ≤ U.card := by
  intro L
  induction L with
  | nil => intro U _ _; simp
  | cons I rest ih =>
    intro U hpw hsub
    simp only [List.map_cons, List.sum_cons]
    rw [List.pairwise_cons] at hpw
    have hrest : ∀ J ∈ rest, J ⊆ U \ I := by
      intro J hJ a haJ
      rw [Finset.mem_sdiff]
      exact ⟨hsub J (List.mem_cons_of_mem _ hJ) haJ,
        fun haI => (Finset.disjoint_left.mp (hpw.1 J hJ)) haI haJ⟩
    have h1 := ih (U \ I) hpw.2 hrest
    have hIU := hsub I (List.mem_cons_self _ _)
    have h2 : (U \ I).card = U.card - I.card := Finset.card_sdiff hIU
    have h3 := Finset.card_le_card hIU
    omega

end Buddy

namespace Buddy

/-- `p` is a ghost leaf of the allocator: an outstanding allocation or a
free-list entry. -/
def IsLeaf (s : BuddyState) (out : List (Nat × Nat)) (p : Nat × Nat) : Prop :=
  p ∈ out ∨ (p.2 < BUDDY_MAX_LEVELS ∧ p.1 ∈ s.free_lists p.2)

/-- `IsLeaf` extended with at most one detached block (the block an
operation is currently working on, off every list). -/
def LeafX (s : BuddyState) (out : List (Nat × Nat)) (ex : Option (Nat × Nat))
    (p : Nat × Nat) : Prop :=
  IsLeaf s out p ∨ ex = some p

/-- Well-formedness of the allocator state with ghost outstanding list
`out` and detached block `ex`: the leaves tile an aligned root block of
level `R`, headers match leaf status, and `bytes_allocated` is the sum
of the outstanding level sizes. -/
structure BuddyWFX (s : BuddyState) (out : List (Nat × Nat))
    (ex : Option (Nat × Nat)) (R : Nat) : Prop where
  Rlt : R < BUDDY_MAX_LEVELS
  Rsize : level_to_size R ≤ s.heap_size
  size64 : s.heap_size < U64MOD
  bounds : ∀ p, LeafX s out ex p → s.heap_start ≤ p.1 ∧
    p.1 + level_to_size p.2 ≤ s.heap_start + level_to_size R ∧ p.2 ≤ R ∧
    (p.1 - s.heap_start) % level_to_size p.2 = 0
  disj : ∀ p q, LeafX s out ex p → LeafX s out ex q → p ≠ q →
    Disjoint (interval p) (interval q)
  cover : ∀ a, s.heap_start ≤ a → a < s.heap_start + level_to_size R →
    ∃ p, LeafX s out ex p ∧ a ∈ interval p
  hdrFree : ∀ l, l < BUDDY_MAX_LEVELS → ∀ a ∈ s.free_lists l,
    s.hdr a = some ⟨l, true, BLOCK_MAGIC⟩
  hdrOut : ∀ p ∈ out, s.hdr p.1 = some ⟨p.2, false, BLOCK_MAGIC⟩
  hdrEx : ∀ p, ex = some p → ∃ fb, s.hdr p.1 = some ⟨p.2, fb, BLOCK_MAGIC⟩
  hdrDom : ∀ a hh, s.hdr a = some hh →
    s.heap_start ≤ a ∧ a < s.heap_start + level_to_size R
  exFresh : ∀ p, ex = some p →
    p ∉ out ∧ ¬(p.2 < BUDDY_MAX_LEVELS ∧ p.1 ∈ s.free_lists p.2)
  outNodup : out.Nodup
  flNodup : ∀ l, (s.free_lists l).Nodup
  acct : s.bytes_allocated = sumSizes out

/-- Distinct leaves own disjoint regions, so a leaf's start address pins
it down. -/
theorem BuddyWFX.leaf_eq_of_start_mem {s out ex R} (W : BuddyWFX s out ex R)
    {p q : Nat × Nat} (hp : LeafX s out ex p) (hq : LeafX s out ex q)
    (hmem : p.1 ∈ interval q) : p = q := by
  by_contra hne
  have hd := W.disj p q hp hq hne
  exact (Finset.disjoint_left.mp hd) (start_mem_interval p) hmem

/-- A free-list entry's level is pinned by its header. -/
theorem BuddyWFX.fl_level_eq {s out ex R} (W : BuddyWFX s out ex R)
    {a l l' : Nat} (hl : l < BUDDY_MAX_LEVELS) (hl' : l' < BUDDY_MAX_LEVELS)
    (ha : a ∈ s.free_lists l) (ha' : a ∈ s.free_lists l') : l = l' := by
  have h1 := W.hdrFree l hl a ha
  have h2 := W.hdrFree l' hl' a ha'
  rw [h1] at h2
  exact congrArg BuddyBlockHdr.level (Option.some_injective _ h2)

/-- An address cannot be both outstanding and on a free list (the
headers disagree on `is_free`). -/
theorem BuddyWFX.out_fl_disjoint {s out ex R} (W : BuddyWFX s out ex R)
    {p : Nat × Nat} (hp : p ∈ out) {l : Nat} (hl : l < BUDDY_MAX_LEVELS)
    (ha : p.1 ∈ s.free_lists l) : False := by
  have h1 := W.hdrOut p hp
  have h2 := W.hdrFree l hl p.1 ha
  rw [h1] at h2
  have := congrArg BuddyBlockHdr.is_free (Option.some_injective _ h2)
  simp at this

/-- The leaves (with the detached block) together hold at most the root
block's size. -/
theorem BuddyWFX.sum_le {s out ex R} (W : BuddyWFX s out ex R) :
    sumSizes (ex.toList ++ out) ≤ level_to_size R := by
  have hnodup : (ex.toList ++ out).Nodup := by
    rw [List.nodup_append]
    refine ⟨?_, W.outNodup, ?_⟩
    · cases ex <;> simp
    · intro p hp hq
      cases ex with
      | none => simp at hp
      | some e =>
        simp at hp
        exact (W.exFresh e rfl).1 (hp ▸ hq)
  have hleaf : ∀ p ∈ ex.toList ++ out, LeafX s out ex p := by
    intro p hp
    rcases List.mem_append.mp hp with hp | hp
    · cases ex with
      | none => simp at hp
      | some e => simp at hp; exact Or.inr (by rw [hp])
    · exact Or.inl (Or.inl hp)
  have hpw : ((ex.toList ++ out).map interval).Pairwise Disjoint := by
    rw [List.pairwise_map]
    have hne : (ex.toList ++ out).Pairwise (· ≠ ·) := hnodup
    refine hne.imp_of_mem ?_
    intro p q hp hq hpq
    exact W.disj p q (hleaf p hp) (hleaf q hq) hpq
  have hsub : ∀ I ∈ (ex.toList ++ out).map interval,
      I ⊆ Finset.Ico s.heap_start (s.heap_start + level_to_size R) := by
    intro I hI
    rw [List.mem_map] at hI
    obtain ⟨p, hp, rfl⟩ := hI
    have hb := W.bounds p (hleaf p hp)
    intro a ha
    rw [mem_interval] at ha
    rw [Finset.mem_Ico]
    omega
  have hle := sum_card_le_of_pairwise_disjoint _ _ hpw hsub
  rw [Nat.card_Ico] at hle
  calc sumSizes (ex.toList ++ out)
      = (((ex.toList ++ out).map interval).map Finset.card).sum := by
        rw [List.map_map]
        unfold sumSizes
        congr 1
        apply List.map_congr_left
        intro p _
        exact (card_interval p).symm
    _ ≤ s.heap_start + level_to_size R - s.heap_start := hle
    _ = level_to_size R := by omega

/-- Outstanding allocations alone also fit in the root block. -/
theorem BuddyWFX.sumSizes_le {s out ex R} (W : BuddyWFX s out ex R) :
    sumSizes out ≤ level_to_size R := by
  have := W.sum_le
  cases ex with
  | none => simpa using this
  | some e =>
    rw [Option.toList_some] at this
    rw [sumSizes] at this ⊢
    simp at this
    omega

end Buddy

namespace Buddy

/-- Well-formedness only looks at the five state components. -/
theorem BuddyWFX.congr {s out ex R} (W : BuddyWFX s out ex R) (s' : BuddyState)
    (h1 : s'.heap_start = s.heap_start) (h2 : s'.heap_size = s.heap_size)
    (h3 : s'.hdr = s.hdr) (h4 : s'.free_lists = s.free_lists)
    (h5 : s'.bytes_allocated = s.bytes_allocated) : BuddyWFX s' out ex R := by
  have hleaf : ∀ p, LeafX s' out ex p ↔ LeafX s out ex p := by
    intro p
    unfold LeafX IsLeaf
    rw [h4]
  constructor
  · exact W.Rlt
  · rw [h2]; exact W.Rsize
  · rw [h2]; exact W.size64
  · intro p hp
    rw [h1]
    exact W.bounds p ((hleaf p).mp hp)
  · intro p q hp hq hpq
    exact W.disj p q ((hleaf p).mp hp) ((hleaf q).mp hq) hpq
  · intro a ha1 ha2
    rw [h1] at ha1 ha2
    obtain ⟨p, hp, hmem⟩ := W.cover a ha1 ha2
    exact ⟨p, (hleaf p).mpr hp, hmem⟩
  · intro l hl a ha
    rw [h3, h4] at *
    exact W.hdrFree l hl a (by rw [← h4]; exact ha)
  · intro p hp
    rw [h3]
    exact W.hdrOut p hp
  · intro p hp
    rw [h3]
    exact W.hdrEx p hp
  · intro a hh hah
    rw [h1]
    exact W.hdrDom a hh (by rw [← h3]; exact hah)
  · intro p hp
    rw [h4]
    exact W.exFresh p hp
  · exact W.outNodup
  · intro l
    rw [h4]
    exact W.flNodup l
  · rw [h5, W.acct]

theorem setFL_self (fl : Nat → List Nat) (l : Nat) (v : List Nat) :
    setFL fl l v l = v := by simp [setFL]

theorem setFL_ne (fl : Nat → List Nat) (l : Nat) (v : List Nat) {x : Nat}
    (hx : x ≠ l) : setFL fl l v x = fl x := by simp [setFL, hx]

/-- The `buddy_init` sizing loop returns the largest level (within
bounds) whose block size fits the heap. -/
theorem buddy_max_level_go_spec : ∀ (fuel size bs lvl : Nat),
    bs = level_to_size lvl → bs ≤ size → lvl < BUDDY_MAX_LEVELS →
    BUDDY_MAX_LEVELS - 1 - lvl < fuel →
    lvl ≤ buddy_max_level_go size fuel bs lvl ∧
    buddy_max_level_go size fuel bs lvl < BUDDY_MAX_LEVELS ∧
    level_to_size (buddy_max_level_go size fuel bs lvl) ≤ size := by
  intro fuel
  induction fuel with
  | zero => intro size bs lvl _ _ _ hfuel; omega
  | succ fuel ih =>
    intro size bs lvl hbs hle hlt hfuel
    by_cases hg : bs <<< 1 ≤ size ∧ lvl < BUDDY_MAX_LEVELS - 1
    · have hres : buddy_max_level_go size (fuel + 1) bs lvl =
          buddy_max_level_go size fuel (bs <<< 1) (lvl + 1) := by
        simp only [buddy_max_level_go]
        rw [if_pos hg]
      rw [hres]
      have hbs' : bs <<< 1 = level_to_size (lvl + 1) := by
        rw [hbs, Nat.shiftLeft_eq, level_to_size_succ]
        ring
      have h := ih size (bs <<< 1) (lvl + 1) hbs' hg.1 (by omega) (by omega)
      exact ⟨by omega, h.2.1, h.2.2⟩
    · have hres : buddy_max_level_go size (fuel + 1) bs lvl = lvl := by
        simp only [buddy_max_level_go]
        rw [if_neg hg]
      rw [hres]
      exact ⟨le_refl _, hlt, by rw [← hbs]; exact hle⟩

/-- `buddy_init` establishes well-formedness with an empty outstanding
list. -/
theorem buddy_init_WF (start size : Nat) (h4 : BUDDY_MIN_SIZE ≤ size)
    (h64 : size < U64MOD) :
    BuddyWFX (buddy_init start size) []
      none (buddy_max_level_go size BUDDY_MAX_LEVELS BUDDY_MIN_SIZE 0) := by
  have hR := buddy_max_level_go_spec BUDDY_MAX_LEVELS size BUDDY_MIN_SIZE 0
    (by rw [level_to_size_eq]; norm_num [BUDDY_MIN_SIZE]) h4
    (by norm_num [BUDDY_MAX_LEVELS]) (by norm_num [BUDDY_MAX_LEVELS])
  set R := buddy_max_level_go size BUDDY_MAX_LEVELS BUDDY_MIN_SIZE 0 with hRdef
  have hfl : ∀ l, (buddy_init start size).free_lists l =
      if l = R then [start] else [] := by
    intro l
    show setFL (fun _ => []) R [start] l = _
    by_cases hl : l = R
    · rw [hl, setFL_self, if_pos rfl]
    · rw [setFL_ne _ _ _ hl, if_neg hl]
  have hhdr : ∀ a, (buddy_init start size).hdr a =
      if a = start then some ⟨R, true, BLOCK_MAGIC⟩ else none := by
    intro a
    show setHdr (fun _ => none) start ⟨R, true, BLOCK_MAGIC⟩ a = _
    by_cases ha : a = start
    · rw [ha, setHdr_self, if_pos rfl]
    · rw [setHdr_ne _ _ _ ha, if_neg ha]
  have hhs : (buddy_init start size).heap_start = start := rfl
  have hleaf : ∀ p, LeafX (buddy_init start size) [] none p ↔ p = (start, R) := by
    intro p
    constructor
    · intro hp
      rcases hp with hp | hp
      · rcases hp with hp | ⟨hp2, hp1⟩
        · simp at hp
        · rw [hfl] at hp1
          by_cases h : p.2 = R
          · rw [if_pos h] at hp1
            simp at hp1
            cases p
            simp_all
          · rw [if_neg h] at hp1
            simp at hp1
      · cases hp
    · intro hp
      rw [hp]
      refine Or.inl (Or.inr ⟨hR.2.1, ?_⟩)
      rw [hfl]
      simp
  constructor
  · exact hR.2.1
  · exact hR.2.2
  · exact h64
  · intro p hp
    rw [hleaf] at hp
    rw [hp, hhs]
    simp
  · intro p q hp hq hpq
    rw [hleaf] at hp hq
    exact absurd (hp.trans hq.symm) hpq
  · intro a ha1 ha2
    refine ⟨(start, R), (hleaf _).mpr rfl, ?_⟩
    rw [mem_interval]
    exact ⟨ha1, ha2⟩
  · intro l hl a ha
    rw [hfl] at ha
    by_cases h : l = R
    · rw [if_pos h] at ha
      simp at ha
      rw [hhdr, if_pos ha, h]
    · rw [if_neg h] at ha
      simp at ha
  · intro p hp
    simp at hp
  · intro p hp
    cases hp
  · intro a hh hah
    rw [hhdr] at hah
    by_cases h : a = start
    · rw [hhs, h]
      have := level_to_size_pos R
      omega
    · rw [if_neg h] at hah
      cases hah
  · intro p hp
    cases hp
  · exact List.nodup_nil
  · intro l
    rw [hfl]
    by_cases h : l = R
    · rw [if_pos h]; exact List.nodup_singleton _
    · rw [if_neg h]; exact List.nodup_nil
  · rfl

end Buddy

namespace Buddy

theorem mem_setFL_iff {fl : Nat → List Nat} {l : Nat} {v : List Nat} {x a : Nat} :
    a ∈ setFL fl l v x ↔ (x = l ∧ a ∈ v) ∨ (x ≠ l ∧ a ∈ fl x) := by
  by_cases hx : x = l
  · rw [hx, setFL_self]
    simp [hx]
  · rw [setFL_ne _ _ _ hx]
    simp [hx]

theorem popFL_eq {s : BuddyState} {l b : Nat} {rest : List Nat}
    (h : s.free_lists l = b :: rest) : popFL s l = (b, s.setFree l rest) := by
  unfold popFL
  rw [h]

/-- Detaching the head of a free list keeps the state well-formed, with
the head as the detached block. -/
theorem WFX_pop {s out R} (W : BuddyWFX s out none R) {l : Nat}
    (hl : l < BUDDY_MAX_LEVELS) {b : Nat} {rest : List Nat}
    (h : s.free_lists l = b :: rest) :
    BuddyWFX (s.setFree l rest) out (some (b, l)) R := by
  have hbfl : b ∈ s.free_lists l := by rw [h]; exact List.mem_cons_self _ _
  have hnodup := W.flNodup l
  rw [h] at hnodup
  have hbrest : b ∉ rest := (List.nodup_cons.mp hnodup).1
  have hfl' : ∀ x, (s.setFree l rest).free_lists x = setFL s.free_lists l rest x := fun x => rfl
  have hleaf : ∀ q, LeafX (s.setFree l rest) out (some (b, l)) q ↔ LeafX s out none q := by
    intro q
    unfold LeafX IsLeaf
    constructor
    · intro hq
      rcases hq with (hq | ⟨h2, h1⟩) | hq
      · exact Or.inl (Or.inl hq)
      · rw [hfl', mem_setFL_iff] at h1
        rcases h1 with ⟨hq2, hmem⟩ | ⟨hq2, hmem⟩
        · refine Or.inl (Or.inr ⟨h2, ?_⟩)
          rw [hq2, h]
          exact List.mem_cons_of_mem _ hmem
        · exact Or.inl (Or.inr ⟨h2, hmem⟩)
      · rw [Option.some_inj] at hq
        rw [← hq]
        exact Or.inl (Or.inr ⟨hl, hbfl⟩)
    · intro hq
      rcases hq with (hq | ⟨h2, h1⟩) | hq
      · exact Or.inl (Or.inl hq)
      · by_cases hq2 : q.2 = l
        · rw [hq2, h] at h1
          rcases List.mem_cons.mp h1 with hq1 | hq1
          · refine Or.inr ?_
            rw [Option.some_inj]
            cases q
            simp_all
          · refine Or.inl (Or.inr ⟨h2, ?_⟩)
            rw [hfl', hq2, mem_setFL_iff]
            exact Or.inl ⟨rfl, hq1⟩
        · refine Or.inl (Or.inr ⟨h2, ?_⟩)
          rw [hfl', mem_setFL_iff]
          exact Or.inr ⟨hq2, h1⟩
      · cases hq
  constructor
  · exact W.Rlt
  · exact W.Rsize
  · exact W.size64
  · intro p hp
    exact W.bounds p ((hleaf p).mp hp)
  · intro p q hp hq hpq
    exact W.disj p q ((hleaf p).mp hp) ((hleaf q).mp hq) hpq
  · intro a ha1 ha2
    obtain ⟨p, hp, hmem⟩ := W.cover a ha1 ha2
    exact ⟨p, (hleaf p).mpr hp, hmem⟩
  · intro l' hl' a ha
    rw [hfl', mem_setFL_iff] at ha
    rcases ha with ⟨hx, hmem⟩ | ⟨hx, hmem⟩
    · refine W.hdrFree l' hl' a ?_
      rw [hx, h]
      exact List.mem_cons_of_mem _ hmem
    · exact W.hdrFree l' hl' a hmem
  · exact W.hdrOut
  · intro p hp
    rw [Option.some_inj] at hp
    rw [← hp]
    exact ⟨true, W.hdrFree l hl b hbfl⟩
  · exact W.hdrDom
  · intro p hp
    rw [Option.some_inj] at hp
    subst hp
    constructor
    · intro hout
      exact W.out_fl_disjoint hout hl hbfl
    · intro ⟨_, hmem⟩
      rw [hfl', mem_setFL_iff] at hmem
      rcases hmem with ⟨_, hmem⟩ | ⟨hne, _⟩
      · exact hbrest hmem
      · exact hne rfl
  · exact W.outNodup
  · intro l'
    rw [hfl']
    by_cases hx : l' = l
    · rw [hx, setFL_self]
      exact (List.nodup_cons.mp hnodup).2
    · rw [setFL_ne _ _ _ hx]
      exact W.flNodup l'
  · exact W.acct

end Buddy

namespace Buddy

theorem setFL_setFL_same (fl : Nat → List Nat) (l : Nat) (v w : List Nat) (x : Nat) :
    setFL (setFL fl l v) l w x = setFL fl l w x := by
  by_cases hx : x = l
  · rw [hx, setFL_self, setFL_self]
  · rw [setFL_ne _ _ _ hx, setFL_ne _ _ _ hx, setFL_ne _ _ _ hx]

theorem split_block_heap_start (s : BuddyState) (b l : Nat) :
    (split_block s b l).heap_start = s.heap_start := by
  unfold split_block
  by_cases h : l = 0
  · rw [if_pos h]
  · rw [if_neg h]
    rfl

theorem split_block_heap_size (s : BuddyState) (b l : Nat) :
    (split_block s b l).heap_size = s.heap_size := by
  unfold split_block
  by_cases h : l = 0
  · rw [if_pos h]
  · rw [if_neg h]
    rfl

theorem split_block_bytes (s : BuddyState) (b l : Nat) :
    (split_block s b l).bytes_allocated = s.bytes_allocated := by
  unfold split_block
  by_cases h : l = 0
  · rw [if_pos h]
  · rw [if_neg h]
    rfl

theorem writeHdr_hdr (s : BuddyState) (a : Nat) (h : BuddyBlockHdr) :
    (s.writeHdr a h).hdr = setHdr s.hdr a h := rfl

theorem hdr_set_level_hdr (s : BuddyState) (a lvl : Nat) :
    (hdr_set_level s a lvl).hdr =
    setHdr s.hdr a { (s.hdr a).getD default with level := lvl } := rfl

theorem hdr_set_free_hdr (s : BuddyState) (a : Nat) (fb : Bool) :
    (hdr_set_free s a fb).hdr =
    setHdr s.hdr a { (s.hdr a).getD default with is_free := fb } := rfl

theorem hdr_set_level_fl (s : BuddyState) (a lvl : Nat) :
    (hdr_set_level s a lvl).free_lists = s.free_lists := rfl

theorem hdr_set_free_fl (s : BuddyState) (a : Nat) (fb : Bool) :
    (hdr_set_free s a fb).free_lists = s.free_lists := rfl

theorem setFree_fl (s : BuddyState) (l : Nat) (v : List Nat) :
    (s.setFree l v).free_lists = setFL s.free_lists l v := rfl

theorem split_block_fl (s : BuddyState) (b l : Nat) (hl0 : l ≠ 0) (x : Nat) :
    (split_block s b l).free_lists x =
    setFL s.free_lists (l - 1)
      (b :: (b + level_to_size (l - 1)) :: s.free_lists (l - 1)) x := by
  unfold split_block
  rw [if_neg hl0]
  dsimp only
  simp only [setFree_fl, hdr_set_level_fl, writeHdr_free_lists]
  rw [setFL_setFL_same, setFL_self]

theorem split_block_hdr (s : BuddyState) (b l : Nat) (hl0 : l ≠ 0) (x : Nat) :
    (split_block s b l).hdr x =
    if x = b then some { (s.hdr b).getD default with level := l - 1 }
    else if x = b + level_to_size (l - 1) then some ⟨l - 1, true, BLOCK_MAGIC⟩
    else s.hdr x := by
  have hmidb : b ≠ b + level_to_size (l - 1) := by
    have := level_to_size_pos (l - 1)
    omega
  unfold split_block
  rw [if_neg hl0]
  dsimp only
  simp only [setFree_hdr, hdr_set_level_hdr, writeHdr_hdr]
  rw [setHdr_ne _ _ _ hmidb]
  by_cases hxb : x = b
  · rw [hxb, setHdr_self, if_pos rfl]
  · rw [setHdr_ne _ _ _ hxb, if_neg hxb]
    by_cases hxm : x = b + level_to_size (l - 1)
    · rw [hxm, setHdr_self, if_pos rfl]
    · rw [setHdr_ne _ _ _ hxm, if_neg hxm]

end Buddy

namespace Buddy

/-- One iteration of the split loop: splitting the detached block and
re-popping the lower half keeps the state well-formed, with the same
block detached one level lower and the new buddy on the lower free
list. -/
theorem WFX_split_pop {s : BuddyState} {out : List (Nat × Nat)} {R b l : Nat}
    (W : BuddyWFX s out (some (b, l)) R) (hl0 : l ≠ 0) :
    popFL (split_block s b l) (l - 1) =
      (b, (split_block s b l).setFree (l - 1)
        ((b + level_to_size (l - 1)) :: s.free_lists (l - 1))) ∧
    BuddyWFX ((split_block s b l).setFree (l - 1)
      ((b + level_to_size (l - 1)) :: s.free_lists (l - 1)))
      out (some (b, l - 1)) R := by
  have hhalf := level_to_size_pos (l - 1)
  have hsizel : level_to_size l = 2 * level_to_size (l - 1) := by
    have h := level_to_size_succ (l - 1)
    have h2 : l - 1 + 1 = l := by omega
    rw [h2] at h
    exact h
  have hmidb : b + level_to_size (l - 1) ≠ b := by omega
  have hex : s.heap_start ≤ b ∧ b + level_to_size l ≤ s.heap_start + level_to_size R ∧
      l ≤ R ∧ (b - s.heap_start) % level_to_size l = 0 := W.bounds (b, l) (Or.inr rfl)
  have hl8 : l < BUDDY_MAX_LEVELS := by
    have := W.Rlt
    have := hex.2.2.1
    omega
  have hl18 : l - 1 < BUDDY_MAX_LEVELS := by omega
  have hpop : popFL (split_block s b l) (l - 1) =
      (b, (split_block s b l).setFree (l - 1)
        ((b + level_to_size (l - 1)) :: s.free_lists (l - 1))) := by
    apply popFL_eq
    rw [split_block_fl s b l hl0, setFL_self]
  refine ⟨hpop, ?_⟩
  set mid := b + level_to_size (l - 1) with hmiddef
  set s2 := (split_block s b l).setFree (l - 1) (mid :: s.free_lists (l - 1)) with hs2
  have hstart : s2.heap_start = s.heap_start := split_block_heap_start s b l
  have hsize : s2.heap_size = s.heap_size := split_block_heap_size s b l
  have hbytes : s2.bytes_allocated = s.bytes_allocated := split_block_bytes s b l
  have hhdr : ∀ x, s2.hdr x =
      if x = b then some { (s.hdr b).getD default with level := l - 1 }
      else if x = mid then some ⟨l - 1, true, BLOCK_MAGIC⟩
      else s.hdr x := fun x => split_block_hdr s b l hl0 x
  have hfl2 : ∀ x, s2.free_lists x =
      if x = l - 1 then mid :: s.free_lists (l - 1) else s.free_lists x := by
    intro x
    show setFL (split_block s b l).free_lists (l - 1) (mid :: s.free_lists (l - 1)) x = _
    by_cases hx : x = l - 1
    · rw [hx, setFL_self, if_pos rfl]
    · rw [setFL_ne _ _ _ hx, if_neg hx, split_block_fl s b l hl0, setFL_ne _ _ _ hx]
  have hmid_in_ex : mid ∈ interval (b, l) :=
    mem_interval.mpr ⟨show b ≤ mid by omega, show mid < b + level_to_size l by omega⟩
  have hnotleaf_mid : ∀ q, LeafX s out (some (b, l)) q → q.1 ≠ mid := by
    intro q hq hmeq
    have h := W.leaf_eq_of_start_mem hq (Or.inr rfl) (hmeq ▸ hmid_in_ex)
    rw [h] at hmeq
    exact hmidb hmeq.symm
  have hnotleaf_b : ∀ q, LeafX s out (some (b, l)) q → q.1 = b → q = (b, l) := by
    intro q hq hbeq
    refine W.leaf_eq_of_start_mem hq (Or.inr rfl) ?_
    rw [hbeq]
    exact start_mem_interval (b, l)
  have hfreshb0 := W.exFresh (b, l) rfl
  have hfreshb : ¬ IsLeaf s out (b, l) := by
    intro h
    rcases h with h | h
    · exact hfreshb0.1 h
    · exact hfreshb0.2 h
  have hold1 : ¬ IsLeaf s out (b, l - 1) := by
    intro hq
    have h := hnotleaf_b (b, l - 1) (Or.inl hq) rfl
    have hll : l - 1 = l := congrArg Prod.snd h
    omega
  have hold2 : ¬ IsLeaf s out (mid, l - 1) := by
    intro hq
    exact hnotleaf_mid (mid, l - 1) (Or.inl hq) rfl
  have hLnew : ∀ q, LeafX s2 out (some (b, l - 1)) q ↔
      (IsLeaf s out q ∨ q = (mid, l - 1) ∨ q = (b, l - 1)) := by
    intro q
    unfold LeafX IsLeaf
    constructor
    · intro hq
      rcases hq with (hq | ⟨h2, h1⟩) | hq
      · exact Or.inl (Or.inl hq)
      · rw [hfl2] at h1
        by_cases hq2 : q.2 = l - 1
        · rw [if_pos hq2] at h1
          rcases List.mem_cons.mp h1 with hq1 | hq1
          · refine Or.inr (Or.inl ?_)
            cases q
            simp_all
          · exact Or.inl (Or.inr ⟨h2, by rw [hq2]; exact hq1⟩)
        · rw [if_neg hq2] at h1
          exact Or.inl (Or.inr ⟨h2, h1⟩)
      · rw [Option.some_inj] at hq
        exact Or.inr (Or.inr hq.symm)
    · intro hq
      rcases hq with (hq | ⟨h2, h1⟩) | hq | hq
      · exact Or.inl (Or.inl hq)
      · refine Or.inl (Or.inr ⟨h2, ?_⟩)
        rw [hfl2]
        by_cases hq2 : q.2 = l - 1
        · rw [if_pos hq2]
          exact List.mem_cons_of_mem _ (by rw [← hq2]; exact h1)
        · rw [if_neg hq2]
          exact h1
      · refine Or.inl (Or.inr ?_)
        rw [hq]
        refine ⟨hl18, ?_⟩
        rw [hfl2]
        show mid ∈ if l - 1 = l - 1 then mid :: s.free_lists (l - 1) else _
        rw [if_pos rfl]
        exact List.mem_cons_self _ _
      · rw [hq]
        exact Or.inr rfl
  have hdvd_half : level_to_size (l - 1) ∣ (b - s.heap_start) := by
    have h1 : level_to_size l ∣ (b - s.heap_start) :=
      Nat.dvd_of_mod_eq_zero hex.2.2.2
    exact (level_to_size_dvd (by omega : l - 1 ≤ l)).trans h1
  have hmod_b : (b - s.heap_start) % level_to_size (l - 1) = 0 := by
    obtain ⟨c, hc⟩ := hdvd_half
    rw [hc]
    exact Nat.mul_mod_right _ _
  have hmid_bounds : s.heap_start ≤ mid ∧
      mid + level_to_size (l - 1) ≤ s.heap_start + level_to_size R ∧
      l - 1 ≤ R ∧ (mid - s.heap_start) % level_to_size (l - 1) = 0 := by
    obtain ⟨he1, he2, he3, he4⟩ := hex
    refine ⟨by omega, by omega, by omega, ?_⟩
    have h : mid - s.heap_start = (b - s.heap_start) + level_to_size (l - 1) := by omega
    rw [h, Nat.add_mod_right]
    exact hmod_b
  have hb_bounds : s.heap_start ≤ b ∧
      b + level_to_size (l - 1) ≤ s.heap_start + level_to_size R ∧
      l - 1 ≤ R ∧ (b - s.heap_start) % level_to_size (l - 1) = 0 := by
    obtain ⟨he1, he2, he3, he4⟩ := hex
    exact ⟨he1, by omega, by omega, hmod_b⟩
  have hsplit_int : interval (b, l - 1) ∪ interval (mid, l - 1) = interval (b, l) := by
    show Finset.Ico b (b + level_to_size (l - 1)) ∪
      Finset.Ico mid (mid + level_to_size (l - 1)) = Finset.Ico b (b + level_to_size l)
    have h1 : mid + level_to_size (l - 1) = b + level_to_size l := by omega
    rw [h1]
    exact Finset.Ico_union_Ico_eq_Ico (by omega) (by omega)
  have hsub_b : interval (b, l - 1) ⊆ interval (b, l) := by
    rw [← hsplit_int]
    exact Finset.subset_union_left
  have hsub_mid : interval (mid, l - 1) ⊆ interval (b, l) := by
    rw [← hsplit_int]
    exact Finset.subset_union_right
  have hdisj_old : ∀ p, IsLeaf s out p → Disjoint (interval p) (interval (b, l)) := by
    intro p hp
    refine W.disj p (b, l) (Or.inl hp) (Or.inr rfl) ?_
    intro h
    rw [h] at hp
    exact hfreshb hp
  have hdisj_halves : Disjoint (interval (b, l - 1)) (interval (mid, l - 1)) := by
    rw [Finset.disjoint_left]
    intro a ha hb_
    rw [mem_interval] at ha hb_
    have h1 : a < b + level_to_size (l - 1) := ha.2
    have h2 : mid ≤ a := hb_.1
    omega
  constructor
  · exact W.Rlt
  · rw [hsize]; exact W.Rsize
  · rw [hsize]; exact W.size64
  · intro p hp
    rw [hstart]
    rcases (hLnew p).mp hp with hp | hp | hp
    · exact W.bounds p (Or.inl hp)
    · rw [hp]; exact hmid_bounds
    · rw [hp]; exact hb_bounds
  · intro p q hp hq hpq
    rcases (hLnew p).mp hp with hp1 | hp1 | hp1 <;>
      rcases (hLnew q).mp hq with hq1 | hq1 | hq1
    · exact W.disj p q (Or.inl hp1) (Or.inl hq1) hpq
    · rw [hq1]
      exact Finset.disjoint_of_subset_right hsub_mid (hdisj_old p hp1)
    · rw [hq1]
      exact Finset.disjoint_of_subset_right hsub_b (hdisj_old p hp1)
    · rw [hp1]
      exact (Finset.disjoint_of_subset_right hsub_mid (hdisj_old q hq1)).symm
    · exact absurd (hp1.trans hq1.symm) hpq
    · rw [hp1, hq1]
      exact hdisj_halves.symm
    · rw [hp1]
      exact (Finset.disjoint_of_subset_right hsub_b (hdisj_old q hq1)).symm
    · rw [hp1, hq1]
      exact hdisj_halves
    · exact absurd (hp1.trans hq1.symm) hpq
  · intro a ha1 ha2
    rw [hstart] at ha1 ha2
    obtain ⟨q, hq, hmem⟩ := W.cover a ha1 ha2
    rcases hq with hq | hq
    · exact ⟨q, (hLnew q).mpr (Or.inl hq), hmem⟩
    · rw [Option.some_inj] at hq
      rw [← hq, ← hsplit_int, Finset.mem_union] at hmem
      rcases hmem with hmem | hmem
      · exact ⟨(b, l - 1), (hLnew _).mpr (Or.inr (Or.inr rfl)), hmem⟩
      · exact ⟨(mid, l - 1), (hLnew _).mpr (Or.inr (Or.inl rfl)), hmem⟩
  · intro l' hl' a ha
    rw [hfl2] at ha
    by_cases hx : l' = l - 1
    · rw [if_pos hx] at ha
      rcases List.mem_cons.mp ha with ha | ha
      · rw [ha, hhdr, if_neg hmidb, if_pos rfl, hx]
      · have hleafa : IsLeaf s out (a, l - 1) := Or.inr ⟨hl18, ha⟩
        have hab : a ≠ b := by
          intro h
          have h2 := hnotleaf_b (a, l - 1) (Or.inl hleafa) h
          have : l - 1 = l := congrArg Prod.snd h2
          omega
        have ham : a ≠ mid := hnotleaf_mid (a, l - 1) (Or.inl hleafa) 
        rw [hhdr, if_neg hab, if_neg ham, hx]
        exact W.hdrFree (l - 1) hl18 a ha
    · rw [if_neg hx] at ha
      have hleafa : IsLeaf s out (a, l') := Or.inr ⟨hl', ha⟩
      have hab : a ≠ b := by
        intro h
        have h2 := hnotleaf_b (a, l') (Or.inl hleafa) h
        have h3 : l' = l := congrArg Prod.snd h2
        have h4 : a = b := congrArg Prod.fst h2
        exact hfreshb0.2 ⟨by omega, by rw [← h4, ← h3]; exact ha⟩
      have ham : a ≠ mid := hnotleaf_mid (a, l') (Or.inl hleafa) 
      rw [hhdr, if_neg hab, if_neg ham]
      exact W.hdrFree l' hl' a ha
  · intro p hp
    have hab : p.1 ≠ b := by
      intro h
      have h2 := hnotleaf_b p (Or.inl (Or.inl hp)) h
      rw [h2] at hp
      exact hfreshb0.1 hp
    have ham : p.1 ≠ mid := hnotleaf_mid p (Or.inl (Or.inl hp)) 
    rw [hhdr, if_neg hab, if_neg ham]
    exact W.hdrOut p hp
  · intro p hp
    rw [Option.some_inj] at hp
    obtain ⟨fb, hfb⟩ := W.hdrEx (b, l) rfl
    refine ⟨fb, ?_⟩
    rw [← hp]
    show s2.hdr b = _
    rw [hhdr, if_pos rfl, hfb]
    rfl
  · intro a hh hah
    rw [hstart]
    rw [hhdr] at hah
    by_cases hab : a = b
    · obtain ⟨fb, hfb⟩ := W.hdrEx (b, l) rfl
      rw [hab]
      exact W.hdrDom b _ hfb
    · rw [if_neg hab] at hah
      by_cases ham : a = mid
      · obtain ⟨he1, he2, he3, he4⟩ := hex
        rw [ham]
        constructor
        · omega
        · omega
      · rw [if_neg ham] at hah
        exact W.hdrDom a hh hah
  · intro p hp
    rw [Option.some_inj] at hp
    constructor
    · intro hout
      rw [← hp] at hout
      exact hold1 (Or.inl hout)
    · intro ⟨hplt, hmem⟩
      rw [← hp] at hplt hmem
      rw [hfl2] at hmem
      rw [if_pos rfl] at hmem
      rcases List.mem_cons.mp hmem with h | h
      · exact hmidb h.symm
      · exact hold1 (Or.inr ⟨hl18, h⟩)
  · exact W.outNodup
  · intro l'
    rw [hfl2]
    by_cases hx : l' = l - 1
    · rw [if_pos hx]
      rw [List.nodup_cons]
      refine ⟨?_, W.flNodup (l - 1)⟩
      intro hmem
      exact hold2 (Or.inr ⟨hl18, hmem⟩)
    · rw [if_neg hx]
      exact W.flNodup l'
  · rw [hbytes]
    exact W.acct

end Buddy

namespace Buddy

/-- The split loop carries the detached block down to the requested
level, preserving well-formedness. -/
theorem alloc_split_go_WF : ∀ (fuel : Nat) (s : BuddyState)
    (out : List (Nat × Nat)) (R b search level : Nat),
    search - level < fuel → level ≤ search →
    BuddyWFX s out (some (b, search)) R →
    (alloc_split_go fuel s b search level).1 = b ∧
    BuddyWFX (alloc_split_go fuel s b search level).2 out (some (b, level)) R := by
  intro fuel
  induction fuel with
  | zero => intro s out R b search level hfuel _ _; omega
  | succ fuel ih =>
    intro s out R b search level hfuel hle W
    by_cases hlt : level < search
    · have hs0 : search ≠ 0 := by omega
      obtain ⟨hpop, W2⟩ := WFX_split_pop W hs0
      have hres : alloc_split_go (fuel + 1) s b search level =
          alloc_split_go fuel
            ((split_block s b search).setFree (search - 1)
              ((b + level_to_size (search - 1)) :: s.free_lists (search - 1)))
            b (search - 1) level := by
        simp only [alloc_split_go]
        rw [if_pos hlt, hpop]
      rw [hres]
      exact ih _ out R b (search - 1) level (by omega) (by omega) W2
    · have hres : alloc_split_go (fuel + 1) s b search level = (b, s) := by
        simp only [alloc_split_go]
        rw [if_neg hlt]
      rw [hres]
      have hsl : search = level := by omega
      rw [hsl] at W
      exact ⟨rfl, W⟩

/-- Marking the detached block allocated and charging its level size
moves it onto the outstanding list. -/
theorem WFX_retire {s : BuddyState} {out : List (Nat × Nat)} {R b l : Nat}
    (W : BuddyWFX s out (some (b, l)) R) :
    BuddyWFX
      { hdr_set_free s b false with
        bytes_allocated :=
          add64 (hdr_set_free s b false).bytes_allocated (level_to_size l) }
      ((b, l) :: out) none R := by
  obtain ⟨fb, hfb⟩ := W.hdrEx (b, l) rfl
  have hfresh0 := W.exFresh (b, l) rfl
  have hfresh : ¬ IsLeaf s out (b, l) := by
    intro h
    rcases h with h | h
    · exact hfresh0.1 h
    · exact hfresh0.2 h
  have hnotleaf_b : ∀ q, LeafX s out (some (b, l)) q → q.1 = b → q = (b, l) := by
    intro q hq hbeq
    refine W.leaf_eq_of_start_mem hq (Or.inr rfl) ?_
    rw [hbeq]
    exact start_mem_interval (b, l)
  set s4 := { hdr_set_free s b false with
    bytes_allocated :=
      add64 (hdr_set_free s b false).bytes_allocated (level_to_size l) } with hs4
  have hstart : s4.heap_start = s.heap_start := rfl
  have hsize : s4.heap_size = s.heap_size := rfl
  have hfl : s4.free_lists = s.free_lists := rfl
  have hhdr : ∀ x, s4.hdr x =
      if x = b then some { (s.hdr b).getD default with is_free := false }
      else s.hdr x := by
    intro x
    show setHdr s.hdr b _ x = _
    by_cases hx : x = b
    · rw [hx, setHdr_self, if_pos rfl]
    · rw [setHdr_ne _ _ _ hx, if_neg hx]
  have hLnew : ∀ q, LeafX s4 ((b, l) :: out) none q ↔ LeafX s out (some (b, l)) q := by
    intro q
    unfold LeafX IsLeaf
    rw [hfl]
    constructor
    · intro hq
      rcases hq with (hq | hq) | hq
      · rcases List.mem_cons.mp hq with hq | hq
        · exact Or.inr (by rw [hq])
        · exact Or.inl (Or.inl hq)
      · exact Or.inl (Or.inr hq)
      · cases hq
    · intro hq
      rcases hq with (hq | hq) | hq
      · exact Or.inl (Or.inl (List.mem_cons_of_mem _ hq))
      · exact Or.inl (Or.inr hq)
      · rw [Option.some_inj] at hq
        exact Or.inl (Or.inl (by rw [← hq]; exact List.mem_cons_self _ _))
  constructor
  · exact W.Rlt
  · exact W.Rsize
  · exact W.size64
  · intro p hp
    exact W.bounds p ((hLnew p).mp hp)
  · intro p q hp hq hpq
    exact W.disj p q ((hLnew p).mp hp) ((hLnew q).mp hq) hpq
  · intro a ha1 ha2
    obtain ⟨q, hq, hmem⟩ := W.cover a ha1 ha2
    exact ⟨q, (hLnew q).mpr hq, hmem⟩
  · intro l' hl' a ha
    rw [hfl] at ha
    have hab : a ≠ b := by
      intro h
      have h2 := hnotleaf_b (a, l') (Or.inl (Or.inr ⟨hl', ha⟩)) h
      have h3 : l' = l := congrArg Prod.snd h2
      have h4 : a = b := congrArg Prod.fst h2
      exact hfresh0.2 ⟨by omega, by rw [← h4, ← h3]; exact ha⟩
    rw [hhdr, if_neg hab]
    exact W.hdrFree l' hl' a ha
  · intro p hp
    rcases List.mem_cons.mp hp with hp | hp
    · rw [hp]
      show s4.hdr b = _
      rw [hhdr, if_pos rfl, hfb]
      rfl
    · have hab : p.1 ≠ b := by
        intro h
        have h2 := hnotleaf_b p (Or.inl (Or.inl hp)) h
        rw [h2] at hp
        exact hfresh0.1 hp
      rw [hhdr, if_neg hab]
      exact W.hdrOut p hp
  · intro p hp
    cases hp
  · intro a hh hah
    rw [hhdr] at hah
    by_cases hab : a = b
    · rw [hab]
      exact W.hdrDom b _ hfb
    · rw [if_neg hab] at hah
      exact W.hdrDom a hh hah
  · intro p hp
    cases hp
  · rw [List.nodup_cons]
    refine ⟨?_, W.outNodup⟩
    exact hfresh0.1
  · intro l'
    rw [hfl]
    exact W.flNodup l'
  · show add64 s.bytes_allocated (level_to_size l) = sumSizes ((b, l) :: out)
    have hp2 : level_to_size ((b, l) : Nat × Nat).2 = level_to_size l := rfl
    rw [sumSizes_cons, W.acct, hp2]
    have hsum := W.sum_le
    rw [Option.toList_some, List.singleton_append, sumSizes_cons, hp2] at hsum
    have h1 : level_to_size R ≤ s.heap_size := W.Rsize
    have h2 : s.heap_size < U64MOD := W.size64
    rw [add64_eq _ _ (by omega)]
    omega

end Buddy

namespace Buddy

theorem size_to_level_go_lt : ∀ (fuel size bs lvl : Nat), lvl < BUDDY_MAX_LEVELS →
    size_to_level_go size fuel bs lvl < BUDDY_MAX_LEVELS := by
  intro fuel
  induction fuel with
  | zero => intro size bs lvl h; exact h
  | succ fuel ih =>
    intro size bs lvl h
    by_cases hg : bs < size ∧ lvl < BUDDY_MAX_LEVELS - 1
    · have hres : size_to_level_go size (fuel + 1) bs lvl =
          size_to_level_go size fuel (bs <<< 1) (lvl + 1) := by
        simp only [size_to_level_go]
        rw [if_pos hg]
      rw [hres]
      exact ih size (bs <<< 1) (lvl + 1) (by omega)
    · have hres : size_to_level_go size (fuel + 1) bs lvl = lvl := by
        simp only [size_to_level_go]
        rw [if_neg hg]
      rw [hres]
      exact h

theorem size_to_level_lt (size : Nat) : size_to_level size < BUDDY_MAX_LEVELS :=
  size_to_level_go_lt _ _ _ _ (by norm_num [BUDDY_MAX_LEVELS])

/-- The search loop stops at or above its start, and below
`BUDDY_MAX_LEVELS` only on a non-empty list. -/
theorem find_level_go_spec : ∀ (fuel : Nat) (fl : Nat → List Nat) (start : Nat),
    BUDDY_MAX_LEVELS - start < fuel →
    start ≤ find_level_go fl fuel start ∧
    (find_level_go fl fuel start < BUDDY_MAX_LEVELS →
      fl (find_level_go fl fuel start) ≠ []) := by
  intro fuel
  induction fuel with
  | zero => intro fl start hfuel; omega
  | succ fuel ih =>
    intro fl start hfuel
    by_cases hg : start < BUDDY_MAX_LEVELS ∧ fl start = []
    · have hres : find_level_go fl (fuel + 1) start = find_level_go fl fuel (start + 1) := by
        simp only [find_level_go]
        rw [if_pos hg]
      rw [hres]
      have h := ih fl (start + 1) (by omega)
      exact ⟨by omega, h.2⟩
    · have hres : find_level_go fl (fuel + 1) start = start := by
        simp only [find_level_go]
        rw [if_neg hg]
      rw [hres]
      refine ⟨le_refl _, ?_⟩
      intro hlt hempty
      exact hg ⟨hlt, hempty⟩

/-- A failing `buddy_alloc` leaves the state untouched. -/
theorem buddy_alloc_none {s : BuddyState} {n : Nat} {s' : BuddyState}
    (h : buddy_alloc s n = (none, s')) : s' = s := by
  unfold buddy_alloc at h
  by_cases h1 : n = 0 ∨ n > s.heap_size
  · rw [if_pos h1] at h
    exact (congrArg Prod.snd h).symm
  · rw [if_neg h1] at h
    dsimp only at h
    by_cases h2 : find_level_go s.free_lists (BUDDY_MAX_LEVELS + 1) (size_to_level n) ≥
        BUDDY_MAX_LEVELS
    · rw [if_pos h2] at h
      exact (congrArg Prod.snd h).symm
    · rw [if_neg h2] at h
      have := congrArg Prod.fst h
      simp at this

/-- A successful `buddy_alloc` keeps the state well-formed, with the
returned payload's block prepended to the outstanding list at the
requested level. -/
theorem buddy_alloc_some {s : BuddyState} {out : List (Nat × Nat)} {R : Nat}
    (W : BuddyWFX s out none R) {n p : Nat} {s' : BuddyState}
    (h : buddy_alloc s n = (some p, s')) :
    BuddyWFX s' ((p - hdrSize, size_to_level n) :: out) none R := by
  unfold buddy_alloc at h
  by_cases h1 : n = 0 ∨ n > s.heap_size
  · rw [if_pos h1] at h
    have := congrArg Prod.fst h
    simp at this
  rw [if_neg h1] at h
  dsimp only at h
  by_cases h2 : find_level_go s.free_lists (BUDDY_MAX_LEVELS + 1) (size_to_level n) ≥
      BUDDY_MAX_LEVELS
  · rw [if_pos h2] at h
    have := congrArg Prod.fst h
    simp at this
  rw [if_neg h2] at h
  set level := size_to_level n with hlevel
  set search := find_level_go s.free_lists (BUDDY_MAX_LEVELS + 1) level with hsearch
  have hspec := find_level_go_spec (BUDDY_MAX_LEVELS + 1) s.free_lists level
    (by omega)
  rw [← hsearch] at hspec
  have hs8 : search < BUDDY_MAX_LEVELS := by omega
  have hne := hspec.2 hs8
  cases hflc : s.free_lists search with
  | nil => exact absurd hflc hne
  | cons b rest =>
    have hpop := popFL_eq hflc
    rw [hpop] at h
    have Wpop := WFX_pop W hs8 hflc
    have hsplit := alloc_split_go_WF BUDDY_MAX_LEVELS (s.setFree search rest)
      out R b search level (by omega) hspec.1 Wpop
    set q := alloc_split_go BUDDY_MAX_LEVELS (s.setFree search rest) b search level
      with hq
    have hq1 : q.1 = b := hsplit.1
    have Wsplit := hsplit.2
    rw [hq1] at h
    have hfst := congrArg Prod.fst h
    have hsnd := congrArg Prod.snd h
    simp only at hfst hsnd
    have hp : p = b + hdrSize := (Option.some_injective _ hfst).symm
    have hpb : p - hdrSize = b := by
      rw [hp]
      omega
    rw [hpb, ← hsnd]
    exact WFX_retire Wsplit

end Buddy

namespace Buddy

/-- Removing one occurrence of a member is a permutation-inverse of
consing it. -/
theorem perm_cons_erase_pair {a : Nat × Nat} {l : List (Nat × Nat)} (h : a ∈ l) :
    l.Perm (a :: l.erase a) := by
  induction l with
  | nil => cases h
  | cons b t ih =>
    rw [List.erase_cons]
    by_cases hba : b = a
    · subst hba
      rw [if_pos (by simp)]
    · rw [if_neg (by simp [hba])]
      rcases List.mem_cons.mp h with h1 | h1
      · exact absurd h1.symm hba
      · exact ((ih h1).cons b).trans (List.Perm.swap a b (t.erase a))

/-- Passing `buddy_free`'s security checks for an outstanding block
detaches it from the ghost outstanding list and discharges its size. -/
theorem WFX_free_entry {s : BuddyState} {out : List (Nat × Nat)} {R a l : Nat}
    (W : BuddyWFX s out none R) (hmem : (a, l) ∈ out) :
    BuddyWFX { s with bytes_allocated := sub64 s.bytes_allocated (level_to_size l) }
      (out.erase (a, l)) (some (a, l)) R := by
  have hperm : out.Perm ((a, l) :: out.erase (a, l)) := perm_cons_erase_pair hmem
  have hmem_iff : ∀ q, q ∈ out ↔ q = (a, l) ∨ q ∈ out.erase (a, l) := by
    intro q
    rw [hperm.mem_iff, List.mem_cons]
  have hsum : sumSizes out = level_to_size l + sumSizes (out.erase (a, l)) := by
    have h := (hperm.map (fun p => level_to_size p.2)).sum_eq
    unfold sumSizes
    rw [h]
    simp
  have hnotr : (a, l) ∉ out.erase (a, l) := by
    intro h
    have := (W.outNodup.mem_erase_iff.mp h).1
    exact this rfl
  set s1 := { s with bytes_allocated := sub64 s.bytes_allocated (level_to_size l) }
    with hs1
  have hLnew : ∀ q, LeafX s1 (out.erase (a, l)) (some (a, l)) q ↔ LeafX s out none q := by
    intro q
    unfold LeafX IsLeaf
    constructor
    · intro hq
      rcases hq with (hq | hq) | hq
      · exact Or.inl (Or.inl ((hmem_iff q).mpr (Or.inr hq)))
      · exact Or.inl (Or.inr hq)
      · rw [Option.some_inj] at hq
        exact Or.inl (Or.inl (by rw [← hq]; exact hmem))
    · intro hq
      rcases hq with (hq | hq) | hq
      · rcases (hmem_iff q).mp hq with hq | hq
        · exact Or.inr (by rw [hq])
        · exact Or.inl (Or.inl hq)
      · exact Or.inl (Or.inr hq)
      · cases hq
  constructor
  · exact W.Rlt
  · exact W.Rsize
  · exact W.size64
  · intro p hp
    exact W.bounds p ((hLnew p).mp hp)
  · intro p q hp hq hpq
    exact W.disj p q ((hLnew p).mp hp) ((hLnew q).mp hq) hpq
  · intro x hx1 hx2
    obtain ⟨q, hq, hmemq⟩ := W.cover x hx1 hx2
    exact ⟨q, (hLnew q).mpr hq, hmemq⟩
  · intro l' hl' x hx
    exact W.hdrFree l' hl' x hx
  · intro p hp
    exact W.hdrOut p (List.mem_of_mem_erase hp)
  · intro p hp
    rw [Option.some_inj] at hp
    rw [← hp]
    exact ⟨false, W.hdrOut (a, l) hmem⟩
  · exact W.hdrDom
  · intro p hp
    rw [Option.some_inj] at hp
    subst hp
    refine ⟨hnotr, ?_⟩
    intro ⟨hl8, hfl⟩
    exact W.out_fl_disjoint hmem hl8 hfl
  · exact W.outNodup.erase _
  · exact W.flNodup
  · show sub64 s.bytes_allocated (level_to_size l) = _
    rw [W.acct, hsum]
    have hbound := W.sumSizes_le
    have h1 : level_to_size R ≤ s.heap_size := W.Rsize
    have h2 : s.heap_size < U64MOD := W.size64
    rw [sub64_eq _ _ (by omega) (by omega)]
    omega

end Buddy

namespace Buddy

/-- A coalesce-loop merge: if the buddy of the detached block passes the
bounds and header validation, it really is a free-list leaf of the same
level; removing it and relabelling the lower half as one block of the
next level preserves well-formedness. -/
theorem WFX_merge_step {st : BuddyState} {out : List (Nat × Nat)} {R b l : Nat}
    (W : BuddyWFX st out (some (b, l)) R) (hl7 : l < BUDDY_MAX_LEVELS - 1)
    (hhdru : st.hdr (get_buddy st b l) = some ⟨l, true, BLOCK_MAGIC⟩) :
    get_buddy st b l ∈ st.free_lists l ∧
    BuddyWFX
      (hdr_set_level
        (st.setFree l ((st.free_lists l).erase (get_buddy st b l)))
        (if get_buddy st b l < b then get_buddy st b l else b) (l + 1))
      out (some (if get_buddy st b l < b then get_buddy st b l else b, l + 1)) R := by
  have hex : st.heap_start ≤ b ∧ b + level_to_size l ≤ st.heap_start + level_to_size R ∧
      l ≤ R ∧ (b - st.heap_start) % level_to_size l = 0 := W.bounds (b, l) (Or.inr rfl)
  have hl8 : l < BUDDY_MAX_LEVELS := by omega
  have hsz := level_to_size_pos l
  have hszR := level_to_size_pos R
  set u := get_buddy st b l with hu
  have hbu : u ≠ b := get_buddy_ne st b l hex.1
  have hdomu : st.heap_start ≤ u ∧ u < st.heap_start + level_to_size R :=
    W.hdrDom u _ hhdru
  -- offset arithmetic
  set hs := st.heap_start with hhs
  set sz := level_to_size l with hszdef
  have hueq : u = hs + ((b - hs) ^^^ sz) := rfl
  have hou : u - hs = (b - hs) ^^^ sz := by omega
  have hob_al : (b - hs) % sz = 0 := hex.2.2.2
  have hsz2 : sz = 2 ^ (12 + l) := level_to_size_two_pow l
  have hsz2' : level_to_size (l + 1) = 2 ^ (12 + l + 1) := by
    rw [level_to_size_two_pow]
    congr 1
  have hbo := @buddy_offset_spec (b - hs) (12 + l) (by rw [← hsz2]; exact hob_al)
  rw [← hsz2] at hbo
  have hou_al : (u - hs) % sz = 0 := by rw [hou]; exact hbo.1
  have hpack : ∃ op, op % level_to_size (l + 1) = 0 ∧
      ((b - hs = op ∧ u - hs = op + sz) ∨ (u - hs = op ∧ b - hs = op + sz)) := by
    rcases hbo.2 with ⟨h1, h2⟩ | ⟨h1, h2⟩
    · refine ⟨b - hs, ?_, Or.inl ⟨rfl, ?_⟩⟩
      · rw [hsz2']; exact h2
      · rw [hou, h1]
    · refine ⟨u - hs, ?_, Or.inr ⟨rfl, ?_⟩⟩
      · rw [hsz2']; rw [hou]; exact h2
      · omega
  obtain ⟨op, hop_al, hop⟩ := hpack
  have hsz_succ : level_to_size (l + 1) = 2 * sz := level_to_size_succ l
  -- the buddy really is a free leaf at level l
  have hul : u ∈ st.free_lists l := by
    obtain ⟨q, hq, hqmem⟩ := W.cover u hdomu.1 hdomu.2
    have hqb : hs ≤ q.1 ∧ q.1 + level_to_size q.2 ≤ hs + level_to_size R ∧
        q.2 ≤ R ∧ (q.1 - hs) % level_to_size q.2 = 0 := W.bounds q hq
    rw [mem_interval] at hqmem
    have hqd := level_to_size_pos q.2
    by_cases hcase : q.2 ≤ l
    · -- the covering leaf is no larger than the buddy: it starts at u
      have hdq_sz : level_to_size q.2 ∣ sz := level_to_size_dvd hcase
      have hdq_ou : level_to_size q.2 ∣ (u - hs) :=
        hdq_sz.trans (Nat.dvd_of_mod_eq_zero hou_al)
      have hdq_oq : level_to_size q.2 ∣ (q.1 - hs) :=
        Nat.dvd_of_mod_eq_zero hqb.2.2.2
      have heq := eq_of_aligned_close hdq_oq hdq_ou
        (by omega) (by omega)
      have hq1u : q.1 = u := by omega
      rcases hq with (hout | ⟨hq8, hqfl⟩) | hex'
      · have h1 := W.hdrOut q hout
        rw [hq1u, hhdru] at h1
        have := congrArg BuddyBlockHdr.is_free (Option.some_injective _ h1)
        simp at this
      · have h1 := W.hdrFree q.2 hq8 q.1 hqfl
        rw [hq1u, hhdru] at h1
        have h2 : l = q.2 := congrArg BuddyBlockHdr.level (Option.some_injective _ h1)
        rw [h2, ← hq1u]
        exact hqfl
      · rw [Option.some_inj] at hex'
        have : q.1 = b := by rw [← hex']
        omega
    · -- a larger covering leaf would swallow the detached block too
      exfalso
      push_neg at hcase
      have h2dq : level_to_size (l + 1) ∣ level_to_size q.2 := level_to_size_dvd (by omega)
      have hdq_oq : level_to_size q.2 ∣ (q.1 - hs) := Nat.dvd_of_mod_eq_zero hqb.2.2.2
      have hop_dvd : level_to_size (l + 1) ∣ op := Nat.dvd_of_mod_eq_zero hop_al
      have habs := @aligned_absorb (level_to_size (l + 1)) (level_to_size q.2)
        op (q.1 - hs) (u - hs) h2dq hop_dvd hdq_oq
        (by rcases hop with ⟨h1, h2⟩ | ⟨h1, h2⟩ <;> omega)
        (by rw [hsz_succ]; rcases hop with ⟨h1, h2⟩ | ⟨h1, h2⟩ <;> omega)
        (by omega) (by omega)
      have hbmem : b ∈ interval q := by
        rw [mem_interval]
        have h1 : op ≤ b - hs ∧ b - hs < op + level_to_size (l + 1) := by
          rw [hsz_succ]
          rcases hop with ⟨h1, h2⟩ | ⟨h1, h2⟩ <;> omega
        constructor
        · omega
        · omega
      have heq := W.leaf_eq_of_start_mem (Or.inr rfl) hq hbmem
      have : l = q.2 := congrArg Prod.snd heq
      omega
  refine ⟨hul, ?_⟩
  -- now the merged state
  have hub : hs ≤ u ∧ u + sz ≤ hs + level_to_size R ∧ l ≤ R ∧ (u - hs) % sz = 0 :=
    W.bounds (u, l) (Or.inl (Or.inr ⟨hl8, hul⟩))
  set b1 := if u < b then u else b with hb1def
  have hb1 : b1 = hs + op ∧ b1 + level_to_size (l + 1) ≤ hs + level_to_size R := by
    rw [hb1def, hsz_succ]
    rcases hop with ⟨h1, h2⟩ | ⟨h1, h2⟩
    · rw [if_neg (by omega)]
      constructor
      · omega
      · have := hub.2.1
        omega
    · rw [if_pos (by omega)]
      constructor
      · omega
      · have := hex.2.1
        omega
  have hR1 : l + 1 ≤ R := by
    have h1 : level_to_size (l + 1) ≤ level_to_size R := by
      have := hb1.2
      have := hb1.1
      omega
    exact level_le_of_size_le h1
  have hint_union : interval (b, l) ∪ interval (u, l) = interval (b1, l + 1) := by
    show Finset.Ico b (b + sz) ∪ Finset.Ico u (u + sz) =
      Finset.Ico b1 (b1 + level_to_size (l + 1))
    rcases hop with ⟨h1, h2⟩ | ⟨h1, h2⟩
    · have hbv : u = b + sz := by omega
      have hb1b : b1 = b := by rw [hb1def, if_neg (by omega)]
      rw [hbv, hb1b, hsz_succ]
      rw [Finset.Ico_union_Ico_eq_Ico (by omega) (by omega)]
      congr 1
      omega
    · have hbv : b = u + sz := by omega
      have hb1u : b1 = u := by rw [hb1def, if_pos (by omega)]
      rw [hbv, hb1u, hsz_succ]
      rw [Finset.union_comm]
      rw [Finset.Ico_union_Ico_eq_Ico (by omega) (by omega)]
      congr 1
      omega
  set st2 := hdr_set_level (st.setFree l ((st.free_lists l).erase u)) b1 (l + 1)
    with hst2
  have hstart2 : st2.heap_start = hs := rfl
  have hsize2 : st2.heap_size = st.heap_size := rfl
  have hbytes2 : st2.bytes_allocated = st.bytes_allocated := rfl
  have hhdr2 : ∀ x, st2.hdr x =
      if x = b1 then some { (st.hdr b1).getD default with level := l + 1 }
      else st.hdr x := by
    intro x
    show setHdr st.hdr b1 _ x = _
    by_cases hx : x = b1
    · rw [hx, setHdr_self, if_pos rfl]
      rfl
    · rw [setHdr_ne _ _ _ hx, if_neg hx]
  have hfl2 : ∀ x, st2.free_lists x =
      if x = l then (st.free_lists l).erase u else st.free_lists x := by
    intro x
    show setFL st.free_lists l ((st.free_lists l).erase u) x = _
    by_cases hx : x = l
    · rw [hx, setFL_self, if_pos rfl]
    · rw [setFL_ne _ _ _ hx, if_neg hx]
  have hfresh0 := W.exFresh (b, l) rfl
  have hnotout_u : (u, l) ∉ out := by
    intro h
    have h1 := W.hdrOut (u, l) h
    rw [hhdru] at h1
    have := congrArg BuddyBlockHdr.is_free (Option.some_injective _ h1)
    simp at this
  have hufl_only : ∀ l', l' < BUDDY_MAX_LEVELS → u ∈ st.free_lists l' → l' = l := by
    intro l' hl' hmem
    have h1 := W.hdrFree l' hl' u hmem
    rw [hhdru] at h1
    exact (congrArg BuddyBlockHdr.level (Option.some_injective _ h1)).symm
  have hbfl_none : ∀ l', l' < BUDDY_MAX_LEVELS → b ∉ st.free_lists l' := by
    intro l' hl' hmem
    have hleafb : LeafX st out (some (b, l)) (b, l') := Or.inl (Or.inr ⟨hl', hmem⟩)
    have heq := W.leaf_eq_of_start_mem hleafb (Or.inr rfl) (start_mem_interval (b, l))
    have hleq : l' = l := congrArg Prod.snd heq
    exact hfresh0.2 ⟨by omega, by rw [← hleq]; exact hmem⟩
  have hLnew : ∀ q, LeafX st2 out (some (b1, l + 1)) q ↔
      ((IsLeaf st out q ∧ q ≠ (u, l)) ∨ q = (b1, l + 1)) := by
    intro q
    unfold LeafX IsLeaf
    constructor
    · intro hq
      rcases hq with (hq | ⟨h2, h1⟩) | hq
      · refine Or.inl ⟨Or.inl hq, ?_⟩
        intro hqe
        rw [hqe] at hq
        exact hnotout_u hq
      · rw [hfl2] at h1
        by_cases hq2 : q.2 = l
        · rw [if_pos hq2] at h1
          have h3 := (W.flNodup l).mem_erase_iff.mp h1
          refine Or.inl ⟨Or.inr ⟨h2, by rw [hq2]; exact h3.2⟩, ?_⟩
          intro hqe
          rw [hqe] at h3
          exact h3.1 rfl
        · rw [if_neg hq2] at h1
          refine Or.inl ⟨Or.inr ⟨h2, h1⟩, ?_⟩
          intro hqe
          rw [hqe] at hq2
          exact hq2 rfl
      · rw [Option.some_inj] at hq
        exact Or.inr hq.symm
    · intro hq
      rcases hq with ⟨hq | ⟨h2, h1⟩, hne⟩ | hq
      · exact Or.inl (Or.inl hq)
      · refine Or.inl (Or.inr ⟨h2, ?_⟩)
        rw [hfl2]
        by_cases hq2 : q.2 = l
        · rw [if_pos hq2]
          rw [(W.flNodup l).mem_erase_iff]
          refine ⟨?_, by rw [← hq2]; exact h1⟩
          intro hqu
          apply hne
          cases q
          simp_all
        · rw [if_neg hq2]
          exact h1
      · rw [hq]
        exact Or.inr rfl
  have hdisj_old_ex : ∀ p, IsLeaf st out p → p ≠ (u, l) →
      Disjoint (interval p) (interval (b1, l + 1)) := by
    intro p hp hpu
    rw [← hint_union]
    rw [Finset.disjoint_union_right]
    constructor
    · refine W.disj p (b, l) (Or.inl hp) (Or.inr rfl) ?_
      intro hpe
      rw [hpe] at hp
      rcases hp with hp | hp
      · exact hfresh0.1 hp
      · exact hfresh0.2 hp
    · refine W.disj p (u, l) (Or.inl hp) (Or.inl (Or.inr ⟨hl8, hul⟩)) hpu
  constructor
  · exact W.Rlt
  · exact W.Rsize
  · exact W.size64
  · intro p hp
    rw [hstart2]
    rcases (hLnew p).mp hp with ⟨hp1, _⟩ | hp1
    · exact W.bounds p (Or.inl hp1)
    · rw [hp1]
      refine ⟨by omega, hb1.2, hR1, ?_⟩
      have : b1 - hs = op := by omega
      rw [this]
      obtain ⟨c, hc⟩ := Nat.dvd_of_mod_eq_zero hop_al
      rw [hc]
      exact Nat.mul_mod_right _ _
  · intro p q hp hq hpq
    rcases (hLnew p).mp hp with ⟨hp1, hpu⟩ | hp1 <;>
      rcases (hLnew q).mp hq with ⟨hq1, hqu⟩ | hq1
    · exact W.disj p q (Or.inl hp1) (Or.inl hq1) hpq
    · rw [hq1]
      exact hdisj_old_ex p hp1 hpu
    · rw [hp1]
      exact (hdisj_old_ex q hq1 hqu).symm
    · exact absurd (hp1.trans hq1.symm) hpq
  · intro a ha1 ha2
    rw [hstart2] at ha1 ha2
    obtain ⟨q, hq, hmemq⟩ := W.cover a ha1 ha2
    rcases hq with hq | hq
    · by_cases hqu : q = (u, l)
      · refine ⟨(b1, l + 1), (hLnew _).mpr (Or.inr rfl), ?_⟩
        rw [← hint_union, Finset.mem_union]
        right
        rw [← hqu]
        exact hmemq
      · exact ⟨q, (hLnew q).mpr (Or.inl ⟨hq, hqu⟩), hmemq⟩
    · rw [Option.some_inj] at hq
      refine ⟨(b1, l + 1), (hLnew _).mpr (Or.inr rfl), ?_⟩
      rw [← hint_union, Finset.mem_union]
      left
      rw [← hq] at hmemq
      exact hmemq
  · intro l' hl' a ha
    rw [hfl2] at ha
    have hafl : a ∈ st.free_lists l' := by
      by_cases hq2 : l' = l
      · rw [if_pos hq2] at ha
        rw [hq2]
        exact List.mem_of_mem_erase ha
      · rw [if_neg hq2] at ha
        exact ha
    have hab1 : a ≠ b1 := by
      intro habs
      rw [hb1def] at habs
      by_cases hub : u < b
      · rw [if_pos hub] at habs
        have hl'l : l' = l := hufl_only l' hl' (habs ▸ hafl)
        rw [hl'l, if_pos rfl] at ha
        have h3 := (W.flNodup l).mem_erase_iff.mp ha
        exact h3.1 habs
      · rw [if_neg hub] at habs
        exact hbfl_none l' hl' (habs ▸ hafl)
    rw [hhdr2, if_neg hab1]
    exact W.hdrFree l' hl' a hafl
  · intro p hp
    have hpb1 : p.1 ≠ b1 := by
      intro habs
      rw [hb1def] at habs
      by_cases hub : u < b
      · rw [if_pos hub] at habs
        have h1 := W.hdrOut p hp
        rw [habs, hhdru] at h1
        have := congrArg BuddyBlockHdr.is_free (Option.some_injective _ h1)
        simp at this
      · rw [if_neg hub] at habs
        have hleafp : LeafX st out (some (b, l)) p := Or.inl (Or.inl hp)
        have heq := W.leaf_eq_of_start_mem hleafp (Or.inr rfl)
          (by rw [habs]; exact start_mem_interval (b, l))
        rw [heq] at hp
        exact hfresh0.1 hp
    rw [hhdr2, if_neg hpb1]
    exact W.hdrOut p hp
  · intro p hp
    rw [Option.some_inj] at hp
    have hhdrb1 : ∃ fb, st.hdr b1 = some ⟨l, fb, BLOCK_MAGIC⟩ := by
      rw [hb1def]
      by_cases hub : u < b
      · rw [if_pos hub]
        exact ⟨true, hhdru⟩
      · rw [if_neg hub]
        obtain ⟨fb, hfb⟩ := W.hdrEx (b, l) rfl
        exact ⟨fb, hfb⟩
    obtain ⟨fb, hfb⟩ := hhdrb1
    refine ⟨fb, ?_⟩
    rw [← hp]
    show st2.hdr b1 = some ⟨l + 1, fb, BLOCK_MAGIC⟩
    rw [hhdr2, if_pos rfl, hfb]
    rfl
  · intro a hh hah
    rw [hstart2]
    rw [hhdr2] at hah
    by_cases hab : a = b1
    · have hhdrb1 : ∃ fb, st.hdr b1 = some ⟨l, fb, BLOCK_MAGIC⟩ := by
        rw [hb1def]
        by_cases hub : u < b
        · rw [if_pos hub]
          exact ⟨true, hhdru⟩
        · rw [if_neg hub]
          obtain ⟨fb, hfb⟩ := W.hdrEx (b, l) rfl
          exact ⟨fb, hfb⟩
      obtain ⟨fb, hfb⟩ := hhdrb1
      rw [hab]
      exact W.hdrDom b1 _ hfb
    · rw [if_neg hab] at hah
      exact W.hdrDom a hh hah
  · intro p hp
    rw [Option.some_inj] at hp
    have hparent_absurd : ∀ (hq : LeafX st out (some (b, l)) (b1, l + 1)), False := by
      intro hq
      have hbmem : b ∈ interval (b1, l + 1) := by
        rw [mem_interval]
        show b1 ≤ b ∧ b < b1 + level_to_size (l + 1)
        rw [hsz_succ]
        have hb1v := hb1.1
        rcases hop with ⟨h1, h2⟩ | ⟨h1, h2⟩ <;> omega
      have heq := W.leaf_eq_of_start_mem (Or.inr rfl) hq hbmem
      have hll : l = l + 1 := congrArg Prod.snd heq
      omega
    rw [← hp]
    constructor
    · intro hout
      exact hparent_absurd (Or.inl (Or.inl hout))
    · intro ⟨h8, hmem⟩
      have hmem' : b1 ∈ st2.free_lists (l + 1) := hmem
      rw [hfl2, if_neg (by omega)] at hmem'
      exact hparent_absurd (Or.inl (Or.inr ⟨h8, hmem'⟩))
  · exact W.outNodup
  · intro l'
    rw [hfl2]
    by_cases hx : l' = l
    · rw [if_pos hx]
      exact (W.flNodup l).erase _
    · rw [if_neg hx]
      exact W.flNodup l'
  · rw [hbytes2]
    exact W.acct

end Buddy

namespace Buddy

/-- The whole coalescing loop preserves well-formedness, with the final
merged block detached. -/
theorem coalesce_WF : ∀ (fuel : Nat) (st : BuddyState) (out : List (Nat × Nat))
    (R b l : Nat), BUDDY_MAX_LEVELS - 1 - l < fuel →
    BuddyWFX st out (some (b, l)) R →
    BuddyWFX (coalesce fuel st b l).1 out
      (some ((coalesce fuel st b l).2.1, (coalesce fuel st b l).2.2)) R := by
  intro fuel
  induction fuel with
  | zero => intro st out R b l hfuel _; omega
  | succ fuel ih =>
    intro st out R b l hfuel W
    by_cases hl : l < BUDDY_MAX_LEVELS - 1
    · by_cases hbnd : get_buddy st b l < st.heap_start ∨
        get_buddy st b l ≥ st.heap_start + st.heap_size
      · have hres : coalesce (fuel + 1) st b l = (st, b, l) := by
          simp only [coalesce]
          rw [if_pos hl, if_pos hbnd]
        rw [hres]
        exact W
      · cases hh : st.hdr (get_buddy st b l) with
        | none =>
          have hres : coalesce (fuel + 1) st b l = (st, b, l) := by
            simp only [coalesce]
            rw [if_pos hl, if_neg hbnd, hh]
          rw [hres]
          exact W
        | some hb_ =>
          by_cases hval : hb_.magic ≠ BLOCK_MAGIC ∨ hb_.is_free = false ∨ hb_.level ≠ l
          · have hres : coalesce (fuel + 1) st b l = (st, b, l) := by
              simp only [coalesce]
              rw [if_pos hl, if_neg hbnd, hh]
              dsimp only
              rw [if_pos hval]
            rw [hres]
            exact W
          · have hres : coalesce (fuel + 1) st b l =
                coalesce fuel
                  (hdr_set_level
                    (BuddyState.setFree st l ((st.free_lists l).erase (get_buddy st b l)))
                    (if get_buddy st b l < b then get_buddy st b l else b) (l + 1))
                  (if get_buddy st b l < b then get_buddy st b l else b) (l + 1) := by
              simp only [coalesce]
              rw [if_pos hl, if_neg hbnd, hh]
              dsimp only
              rw [if_neg hval]
            push_neg at hval
            obtain ⟨hmagic, hfree, hlevel⟩ := hval
            have hfree' : hb_.is_free = true := by
              cases hcase : hb_.is_free
              · exact absurd hcase hfree
              · rfl
            have huhdr : st.hdr (get_buddy st b l) = some ⟨l, true, BLOCK_MAGIC⟩ := by
              rw [hh]
              cases hb_
              simp_all
            have hstep := WFX_merge_step W hl huhdr
            rw [hres]
            exact ih _ out R _ (l + 1) (by omega) hstep.2
    · have hres : coalesce (fuel + 1) st b l = (st, b, l) := by
        simp only [coalesce]
        rw [if_neg hl]
      rw [hres]
      exact W

end Buddy

namespace Buddy

/-- The tail of `buddy_free`: marking the merged block free and pushing
it onto its level's list restores plain well-formedness. -/
theorem WFX_free_finish {st : BuddyState} {out : List (Nat × Nat)} {R bf lf : Nat}
    (W : BuddyWFX st out (some (bf, lf)) R) :
    BuddyWFX ((hdr_set_free st bf true).setFree lf
      (bf :: (hdr_set_free st bf true).free_lists lf)) out none R := by
  have hex : st.heap_start ≤ bf ∧ bf + level_to_size lf ≤ st.heap_start + level_to_size R ∧
      lf ≤ R ∧ (bf - st.heap_start) % level_to_size lf = 0 := W.bounds (bf, lf) (Or.inr rfl)
  have hlf8 : lf < BUDDY_MAX_LEVELS := by
    have := W.Rlt
    omega
  obtain ⟨fb, hfb⟩ := W.hdrEx (bf, lf) rfl
  have hfresh0 := W.exFresh (bf, lf) rfl
  have hnotleaf_bf : ∀ q, LeafX st out (some (bf, lf)) q → q.1 = bf → q = (bf, lf) := by
    intro q hq hbeq
    refine W.leaf_eq_of_start_mem hq (Or.inr rfl) ?_
    rw [hbeq]
    exact start_mem_interval (bf, lf)
  set s4 := (hdr_set_free st bf true).setFree lf
    (bf :: (hdr_set_free st bf true).free_lists lf) with hs4
  have hstart : s4.heap_start = st.heap_start := rfl
  have hsize : s4.heap_size = st.heap_size := rfl
  have hbytes : s4.bytes_allocated = st.bytes_allocated := rfl
  have hhdr : ∀ x, s4.hdr x =
      if x = bf then some { (st.hdr x).getD default with is_free := true }
      else st.hdr x := by
    intro x
    show setHdr st.hdr bf _ x = _
    by_cases hx : x = bf
    · rw [hx, setHdr_self, if_pos rfl]
    · rw [setHdr_ne _ _ _ hx, if_neg hx]
  have hfl : ∀ x, s4.free_lists x =
      if x = lf then bf :: st.free_lists lf else st.free_lists x := by
    intro x
    show setFL (hdr_set_free st bf true).free_lists lf _ x = _
    by_cases hx : x = lf
    · rw [hx, setFL_self, if_pos rfl]
      rfl
    · rw [setFL_ne _ _ _ hx, if_neg hx]
      rfl
  have hLnew : ∀ q, LeafX s4 out none q ↔ LeafX st out (some (bf, lf)) q := by
    intro q
    unfold LeafX IsLeaf
    constructor
    · intro hq
      rcases hq with (hq | ⟨h2, h1⟩) | hq
      · exact Or.inl (Or.inl hq)
      · rw [hfl] at h1
        by_cases hq2 : q.2 = lf
        · rw [if_pos hq2] at h1
          rcases List.mem_cons.mp h1 with hq1 | hq1
          · refine Or.inr ?_
            rw [Option.some_inj]
            cases q
            simp_all
          · exact Or.inl (Or.inr ⟨h2, by rw [hq2]; exact hq1⟩)
        · rw [if_neg hq2] at h1
          exact Or.inl (Or.inr ⟨h2, h1⟩)
      · cases hq
    · intro hq
      rcases hq with (hq | ⟨h2, h1⟩) | hq
      · exact Or.inl (Or.inl hq)
      · refine Or.inl (Or.inr ⟨h2, ?_⟩)
        rw [hfl]
        by_cases hq2 : q.2 = lf
        · rw [if_pos hq2]
          exact List.mem_cons_of_mem _ (by rw [← hq2]; exact h1)
        · rw [if_neg hq2]
          exact h1
      · rw [Option.some_inj] at hq
        refine Or.inl (Or.inr ⟨?_, ?_⟩)
        · rw [← hq]
          exact hlf8
        · rw [← hq, hfl]
          show bf ∈ if lf = lf then bf :: st.free_lists lf else _
          rw [if_pos rfl]
          exact List.mem_cons_self _ _
  constructor
  · exact W.Rlt
  · rw [hsize]; exact W.Rsize
  · rw [hsize]; exact W.size64
  · intro p hp
    rw [hstart]
    exact W.bounds p ((hLnew p).mp hp)
  · intro p q hp hq hpq
    exact W.disj p q ((hLnew p).mp hp) ((hLnew q).mp hq) hpq
  · intro a ha1 ha2
    rw [hstart] at ha1 ha2
    obtain ⟨q, hq, hmemq⟩ := W.cover a ha1 ha2
    exact ⟨q, (hLnew q).mpr hq, hmemq⟩
  · intro l' hl' a ha
    rw [hfl] at ha
    by_cases hx : l' = lf
    · rw [if_pos hx] at ha
      rcases List.mem_cons.mp ha with ha | ha
      · rw [ha, hhdr, if_pos rfl, hfb, hx]
        rfl
      · have hab : a ≠ bf := by
          intro habs
          exact hfresh0.2 ⟨hlf8, show bf ∈ st.free_lists lf from habs ▸ ha⟩
        rw [hhdr, if_neg hab, hx]
        exact W.hdrFree lf hlf8 a ha
    · rw [if_neg hx] at ha
      have hab : a ≠ bf := by
        intro habs
        have h2 := hnotleaf_bf (a, l') (Or.inl (Or.inr ⟨hl', ha⟩)) habs
        have h3 : l' = lf := congrArg Prod.snd h2
        exact hx h3
      rw [hhdr, if_neg hab]
      exact W.hdrFree l' hl' a ha
  · intro p hp
    have hab : p.1 ≠ bf := by
      intro habs
      have h2 := hnotleaf_bf p (Or.inl (Or.inl hp)) habs
      rw [h2] at hp
      exact hfresh0.1 hp
    rw [hhdr, if_neg hab]
    exact W.hdrOut p hp
  · intro p hp
    cases hp
  · intro a hh hah
    rw [hstart]
    rw [hhdr] at hah
    by_cases hab : a = bf
    · rw [hab]
      exact W.hdrDom bf _ hfb
    · rw [if_neg hab] at hah
      exact W.hdrDom a hh hah
  · intro p hp
    cases hp
  · exact W.outNodup
  · intro l'
    rw [hfl]
    by_cases hx : l' = lf
    · rw [if_pos hx]
      rw [List.nodup_cons]
      refine ⟨?_, W.flNodup lf⟩
      intro hmem
      exact hfresh0.2 ⟨hlf8, hmem⟩
    · rw [if_neg hx]
      exact W.flNodup l'
  · rw [hbytes]
    exact W.acct

end Buddy

namespace Buddy

theorem popFL_heap_size (s : BuddyState) (l : Nat) :
    (popFL s l).2.heap_size = s.heap_size := by
  unfold popFL
  cases s.free_lists l <;> rfl

theorem alloc_split_go_heap_size : ∀ (fuel : Nat) (s : BuddyState) (b search level : Nat),
    (alloc_split_go fuel s b search level).2.heap_size = s.heap_size := by
  intro fuel
  induction fuel with
  | zero => intro s b search level; rfl
  | succ fuel ih =>
    intro s b search level
    by_cases hlt : level < search
    · have hres : alloc_split_go (fuel + 1) s b search level =
          alloc_split_go fuel (popFL (split_block s b search) (search - 1)).2
            (popFL (split_block s b search) (search - 1)).1 (search - 1) level := by
        simp only [alloc_split_go]
        rw [if_pos hlt]
      rw [hres, ih, popFL_heap_size, split_block_heap_size]
    · have hres : alloc_split_go (fuel + 1) s b search level = (b, s) := by
        simp only [alloc_split_go]
        rw [if_neg hlt]
      rw [hres]

theorem buddy_alloc_heap_size (s : BuddyState) (n : Nat) :
    (buddy_alloc s n).2.heap_size = s.heap_size := by
  unfold buddy_alloc
  by_cases h1 : n = 0 ∨ n > s.heap_size
  · rw [if_pos h1]
  · rw [if_neg h1]
    dsimp only
    by_cases h2 : find_level_go s.free_lists (BUDDY_MAX_LEVELS + 1) (size_to_level n) ≥
        BUDDY_MAX_LEVELS
    · rw [if_pos h2]
    · rw [if_neg h2]
      show (alloc_split_go BUDDY_MAX_LEVELS
          (popFL s (find_level_go s.free_lists (BUDDY_MAX_LEVELS + 1) (size_to_level n))).2
          (popFL s (find_level_go s.free_lists (BUDDY_MAX_LEVELS + 1) (size_to_level n))).1
          (find_level_go s.free_lists (BUDDY_MAX_LEVELS + 1) (size_to_level n))
          (size_to_level n)).2.heap_size = s.heap_size
      rw [alloc_split_go_heap_size, popFL_heap_size]

theorem coalesce_heap_size : ∀ (fuel : Nat) (st : BuddyState) (b l : Nat),
    (coalesce fuel st b l).1.heap_size = st.heap_size := by
  intro fuel
  induction fuel with
  | zero => intro st b l; rfl
  | succ fuel ih =>
    intro st b l
    by_cases hl : l < BUDDY_MAX_LEVELS - 1
    · by_cases hbnd : get_buddy st b l < st.heap_start ∨
        get_buddy st b l ≥ st.heap_start + st.heap_size
      · have hres : coalesce (fuel + 1) st b l = (st, b, l) := by
          simp only [coalesce]
          rw [if_pos hl, if_pos hbnd]
        rw [hres]
      · cases hh : st.hdr (get_buddy st b l) with
        | none =>
          have hres : coalesce (fuel + 1) st b l = (st, b, l) := by
            simp only [coalesce]
            rw [if_pos hl, if_neg hbnd, hh]
          rw [hres]
        | some hb_ =>
          by_cases hval : hb_.magic ≠ BLOCK_MAGIC ∨ hb_.is_free = false ∨ hb_.level ≠ l
          · have hres : coalesce (fuel + 1) st b l = (st, b, l) := by
              simp only [coalesce]
              rw [if_pos hl, if_neg hbnd, hh]
              dsimp only
              rw [if_pos hval]
            rw [hres]
          · have hres : coalesce (fuel + 1) st b l =
                coalesce fuel
                  (hdr_set_level
                    (BuddyState.setFree st l ((st.free_lists l).erase (get_buddy st b l)))
                    (if get_buddy st b l < b then get_buddy st b l else b) (l + 1))
                  (if get_buddy st b l < b then get_buddy st b l else b) (l + 1) := by
              simp only [coalesce]
              rw [if_pos hl, if_neg hbnd, hh]
              dsimp only
              rw [if_neg hval]
            rw [hres, ih]
            rfl
    · have hres : coalesce (fuel + 1) st b l = (st, b, l) := by
        simp only [coalesce]
        rw [if_neg hl]
      rw [hres]

theorem buddy_free_heap_size (s : BuddyState) (ptr : Nat) :
    (buddy_free s ptr).heap_size = s.heap_size := by
  unfold buddy_free
  by_cases hp : ptr = 0
  · rw [if_pos hp]
  · rw [if_neg hp]
    dsimp only
    cases hh : s.hdr (ptr - hdrSize) with
    | none => rfl
    | some h =>
      dsimp only
      by_cases hm : h.magic ≠ BLOCK_MAGIC
      · rw [if_pos hm]
      · rw [if_neg hm]
        by_cases hf : h.is_free = true
        · rw [if_pos hf]
        · rw [if_neg hf]
          show (coalesce BUDDY_MAX_LEVELS
            { s with bytes_allocated := sub64 s.bytes_allocated (level_to_size h.level) }
            (ptr - hdrSize) h.level).1.heap_size = s.heap_size
          rw [coalesce_heap_size]

/-- `buddy_free` of an outstanding block keeps the state well-formed and
removes the block from the ghost outstanding list. -/
theorem buddy_free_WF {s : BuddyState} {out : List (Nat × Nat)} {R a l : Nat}
    (W : BuddyWFX s out none R) (hmem : (a, l) ∈ out) :
    BuddyWFX (buddy_free s (a + hdrSize)) (out.erase (a, l)) none R := by
  have hhdra : s.hdr a = some ⟨l, false, BLOCK_MAGIC⟩ := W.hdrOut (a, l) hmem
  unfold buddy_free
  rw [if_neg (by unfold hdrSize; omega)]
  dsimp only
  have hblock : a + hdrSize - hdrSize = a := by omega
  rw [hblock, hhdra]
  dsimp only
  rw [if_neg (by simp), if_neg (by simp)]
  have W1 := WFX_free_entry W hmem
  have W2 := coalesce_WF BUDDY_MAX_LEVELS _ (out.erase (a, l)) R a l
    (show BUDDY_MAX_LEVELS - 1 - l < BUDDY_MAX_LEVELS by show 8 - 1 - l < 8; omega) W1
  exact WFX_free_finish W2

end Buddy

namespace Buddy

/-- Allocator histories: `buddy_init` on a heap of at least one minimal
block, `buddy_alloc` calls (recording each returned block and its level
in the ghost outstanding list), and `buddy_free` calls on outstanding
payload pointers. -/
inductive BuddyReach (start size : Nat) : BuddyState → List (Nat × Nat) → Prop where
  | init : BUDDY_MIN_SIZE ≤ size → size < U64MOD →
      BuddyReach start size (buddy_init start size) []
  | allocOk {s : BuddyState} {out : List (Nat × Nat)} {n p : Nat} {s' : BuddyState} :
      BuddyReach start size s out → buddy_alloc s n = (some p, s') →
      BuddyReach start size s' ((p - hdrSize, size_to_level n) :: out)
  | allocFail {s : BuddyState} {out : List (Nat × Nat)} {n : Nat} {s' : BuddyState} :
      BuddyReach start size s out → buddy_alloc s n = (none, s') →
      BuddyReach start size s' out
  | free {s : BuddyState} {out : List (Nat × Nat)} {a l : Nat} :
      BuddyReach start size s out → (a, l) ∈ out →
      BuddyReach start size (buddy_free s (a + hdrSize)) (out.erase (a, l))

/-- Every reachable allocator state is well-formed and keeps the heap
size it was initialised with. -/
theorem BuddyReach_WF {start size : Nat} {s : BuddyState} {out : List (Nat × Nat)}
    (h : BuddyReach start size s out) :
    (∃ R, BuddyWFX s out none R) ∧ s.heap_size = size := by
  induction h with
  | init h4 h64 => exact ⟨⟨_, buddy_init_WF start size h4 h64⟩, rfl⟩
  | allocOk hre halloc ih =>
    obtain ⟨⟨R, W⟩, hsz⟩ := ih
    refine ⟨⟨R, buddy_alloc_some W halloc⟩, ?_⟩
    have h2 := congrArg Prod.snd halloc
    simp only at h2
    rw [← h2, buddy_alloc_heap_size]
    exact hsz
  | allocFail hre halloc ih =>
    obtain ⟨⟨R, W⟩, hsz⟩ := ih
    have hss := buddy_alloc_none halloc
    rw [hss]
    exact ⟨⟨R, W⟩, hsz⟩
  | free hre hmem ih =>
    obtain ⟨⟨R, W⟩, hsz⟩ := ih
    refine ⟨⟨R, buddy_free_WF W hmem⟩, ?_⟩
    rw [buddy_free_heap_size]
    exact hsz

/-- C5: between operations, `buddy_stats` reports `used` equal to the
sum of the level block sizes of all outstanding allocations, `total`
equal to the heap size given at `buddy_init`, and `free` equal to
`total - used`. -/
theorem buddy_stats_outstanding {start size : Nat} {s : BuddyState}
    {out : List (Nat × Nat)} (h : BuddyReach start size s out) :
    buddy_stats s = (size, sumSizes out, size - sumSizes out) := by
  obtain ⟨⟨R, W⟩, hsz⟩ := BuddyReach_WF h
  have hb := W.acct
  have hle := W.sumSizes_le
  have h1 : level_to_size R ≤ s.heap_size := W.Rsize
  have h2 : s.heap_size < U64MOD := W.size64
  unfold buddy_stats
  rw [hb, hsz]
  rw [sub64_eq _ _ (by omega) (by omega)]

/-- Concrete instantiation of the C5 theorem: an 8 KiB heap after one
100-byte allocation reports 4096 bytes used (one level-0 block). -/
theorem buddy_stats_outstanding_witness :
    buddy_stats (buddy_alloc (buddy_init 0 8192) 100).2 =
      (8192, sumSizes [(24 - hdrSize, size_to_level 100)],
        8192 - sumSizes [(24 - hdrSize, size_to_level 100)]) := by
  have h0 : BuddyReach 0 8192 (buddy_init 0 8192) [] :=
    BuddyReach.init (by decide) (by decide)
  have hfst : (buddy_alloc (buddy_init 0 8192) 100).1 = some 24 := by decide
  have halloc : buddy_alloc (buddy_init 0 8192) 100 =
      (some 24, (buddy_alloc (buddy_init 0 8192) 100).2) := by
    rw [← hfst]
  exact buddy_stats_outstanding (BuddyReach.allocOk h0 halloc)

end Buddy
